import Mathlib

/-!
# pulseaudio / sink.go : tagged wire codec for sinks and sink inputs

A shallow embedding of `sink.go`.  The file decodes `Sink`, `sinkPort` and
`SinkInput` records with the variadic tagged-stream decoder `bread` and builds
the argument lists of three mutation commands.

* a reader (`io.Reader`, `*bytes.Buffer`) is the list of its unread bytes;
* a Go `string` is the list of its bytes;
* `uint8`, `uint32`, `uint64` values are natural numbers; every number a
  decoder produces is a big-endian sum of bytes and so lies in range;
* a Go method `func (s *T) ReadFrom(r io.Reader) (int64, error)` becomes a
  function from the receiver and the reader to the pair of the returned count
  and an `Out T` (returned error, receiver afterwards, reader afterwards);
* a call that does not return, because an allocation inside it panics or the
  Go runtime ends the process, has the outcome `none`: `Sink.ReadFrom` and
  `Client.Sinks`, which allocate a slice whose length is a count read from the
  wire, return an `Option`.

`sink.go` uses declarations that live in other files of the package: the tag
and opcode constants, the record types `sampleSpec`, `channelMap`, `cvolume`,
`formatInfo` with their decoders, the property-list decoder, and the helpers
`bread` and `request`.  The constants, the record types and their decoders are
fields of `Proto`; `bread` and the argument encoder are modelled from the
specification.  What the Go runtime allocates is a field of `Proto` as well.
-/

set_option maxRecDepth 100000

namespace Pulse

/-! ## Bytes, readers, errors -/

/-- One byte of the wire. -/
abbrev Byte := Fin 256

/-- The unread bytes of an `io.Reader`. -/
abbrev Reader := List Byte

/-- A Go `string`: its bytes. -/
abbrev Str := List Byte

/-- The byte holding `n mod 256`. -/
def byteOf (n : Nat) : Byte := ⟨n % 256, Nat.mod_lt n (by decide)⟩

/-- Modelled from the spec: the two error kinds of section 7, `ProtocolMismatch`
(an observed tag byte differs from the expected one) and `Truncated` (the byte
source ended before a complete value could be read). -/
inductive Err where
  | ProtocolMismatch
  | Truncated
deriving DecidableEq, Repr

/-- The effect of a decode call: the returned error (`none` is Go's `nil`), the
destination after the call and the reader after the call. -/
structure Out (S : Type) where
  err : Option Err
  val : S
  rest : Reader

/-! ## Big-endian integers -/

/-- Modelled from the spec: the big-endian value of a byte sequence, as which the
payload bytes of an unsigned integer are read (sections 4.1 and 6). -/
def beNat (bs : List Byte) : Nat := bs.foldl (fun a b => a * 256 + b.val) 0

/-- Modelled from the spec: the `w` payload bytes of an unsigned integer,
big-endian (sections 4.1 and 6); only the low `8 * w` bits of `x` are written. -/
def beBytes : Nat → Nat → List Byte
  | 0, _ => []
  | w + 1, x => beBytes w (x / 256) ++ [byteOf x]

/-! ## Declarations of the package that are not in `sink.go` -/

/-- Go `map[string]string`, as the list of its entries; `nil` is `[]`. -/
abbrev PropList := List (Str × Str)

/-- Modelled from the spec: the declarations `sink.go` takes from the rest of the
package.  The spec fixes that tag bytes are protocol constants (section 6), that a
boolean is one byte whose value distinguishes true from false, and that every
record type has its own decode routine reading from the shared byte source
(section 4.2); it gives neither the constants nor the layouts, so they are
fields here.  A decode routine receives the destination and the unread bytes and
answers with the error, the destination afterwards and the number of bytes it
took from the reader (a reader only advances).

The last field describes the Go runtime, not the package.  `make([]sinkPort, n)`
either returns a slice of `n` zero values or does not return: it panics with
`runtime error: makeslice: len out of range`, which no function of `sink.go`
recovers, or the runtime ends the process with `fatal error: runtime: out of
memory`.  How long a slice the runtime provides depends on the platform;
`makeLimit` is the largest length it provides for a `[]sinkPort` whatever the
program holds already (`2 ^ 32` or more for a platform that provides every
length a `uint32` can name). -/
structure Proto where
  uint32Tag : Byte
  stringTag : Byte
  stringNullTag : Byte
  usecTag : Byte
  volumeTag : Byte
  uint8Tag : Byte
  formatInfoTag : Byte
  commandGetSinkInfoList : Nat
  commandGetSinkInputInfoList : Nat
  commandSetDefaultSink : Nat
  commandSetSinkPort : Nat
  commandMoveSinkInput : Nat
  boolOf : Byte → Option Bool
  sampleSpec : Type
  channelMap : Type
  cvolume : Type
  formatInfo : Type
  zeroSampleSpec : sampleSpec
  zeroChannelMap : channelMap
  zeroCvolume : cvolume
  zeroFormatInfo : formatInfo
  readSampleSpec : sampleSpec → Reader → Option Err × sampleSpec × Nat
  readChannelMap : channelMap → Reader → Option Err × channelMap × Nat
  readCvolume : cvolume → Reader → Option Err × cvolume × Nat
  readFormatInfo : formatInfo → Reader → Option Err × formatInfo × Nat
  readPropList : PropList → Reader → Option Err × PropList × Nat
  makeLimit : Nat

/-! ## The tagged-stream decoder `bread` -/

/-- One argument of a `bread` call on a record `S`: either a byte value (the
expected tag) or a destination, given by how the decoded value is stored. -/
inductive Item (S : Type) where
  | tag (t : Byte)
  | u8 (set : S → Nat → S)
  | u32 (set : S → Nat → S)
  | u64 (set : S → Nat → S)
  | str (set : S → Str → S)
  | bool (set : S → Bool → S)
  | sub (read : S → Reader → Out S)

/-- Modelled from the spec: the payload of a string, the bytes up to a terminating
zero byte (section 6); `none` when the source ends before a zero byte. -/
def readString : Reader → Option (Str × Reader)
  | [] => none
  | b :: r =>
    if b = 0 then some ([], r)
    else match readString r with
      | none => none
      | some (s, r1) => some (b :: s, r1)

/-- Modelled from the spec: decoding of a fixed-width unsigned integer of `w`
payload bytes, big-endian (section 6); a source with fewer than `w` bytes left
is read to its end and gives `Truncated`. -/
def readUint {S : Type} (w : Nat) (set : S → Nat → S) (s : S) (r : Reader) : Out S :=
  if r.length < w then ⟨some Err.Truncated, s, []⟩
  else ⟨none, set s (beNat (r.take w)), r.drop w⟩

/-- Modelled from the spec: decoding of one `bread` argument (sections 4.1, 6, 7).
A tag argument reads one byte and compares it with the expected tag; an integer
destination reads 1, 4 or 8 payload bytes, big-endian; a string destination
reads bytes up to and including the terminating zero byte; a boolean
destination reads one byte; a composite destination delegates to its own
decode routine.  A source that ends early gives `Truncated`, a wrong tag gives
`ProtocolMismatch`. -/
def breadItem {S : Type} (P : Proto) : Item S → S → Reader → Out S
  | .tag _, s, [] => ⟨some Err.Truncated, s, []⟩
  | .tag t, s, b :: r => if b = t then ⟨none, s, r⟩ else ⟨some Err.ProtocolMismatch, s, r⟩
  | .u8 set, s, r => readUint 1 set s r
  | .u32 set, s, r => readUint 4 set s r
  | .u64 set, s, r => readUint 8 set s r
  | .str set, s, r =>
    match readString r with
    | none => ⟨some Err.Truncated, s, []⟩
    | some (v, r1) => ⟨none, set s v, r1⟩
  | .bool _, s, [] => ⟨some Err.Truncated, s, []⟩
  | .bool set, s, b :: r =>
    match P.boolOf b with
    | none => ⟨some Err.ProtocolMismatch, s, r⟩
    | some v => ⟨none, set s v, r⟩
  | .sub read, s, r => read s r

/-- Modelled from the spec: `bread(r, data...)` consumes the source strictly in
the order of its arguments, writes each decoded value into its destination and
fails on the first error (section 4.2). -/
def bread {S : Type} (P : Proto) : List (Item S) → S → Reader → Out S
  | [], s, r => ⟨none, s, r⟩
  | it :: its, s, r =>
    let o := breadItem P it s r
    match o.err with
    | some e => ⟨some e, o.val, o.rest⟩
    | none => bread P its o.val o.rest

/-- A decode routine that is a field of `Proto`, run on a reader: the bytes it
reports as taken are dropped from the reader. -/
def extRead {α : Type} (read : α → Reader → Option Err × α × Nat) (a : α) (r : Reader) :
    Out α :=
  let o := read a r
  ⟨o.1, o.2.1, r.drop o.2.2⟩

/-- A composite destination `&s.f` inside a record `S`: `bread` calls the decode
routine of the field on the shared reader. -/
def Item.field {S α : Type} (read : α → Reader → Out α) (get : S → α) (set : S → α → S) :
    Item S :=
  .sub fun s r =>
    let o := read (get s) r
    ⟨o.err, set s o.val, o.rest⟩

/-- The destination `&xs[i]` of a `bread` call on a slice `xs`. -/
def elemItem {α : Type} (read : α → Reader → Out α) (zero : α) (i : Nat) : Item (List α) :=
  Item.field read (fun ys => ys.getD i zero) (fun ys y => ys.set i y)

/-- The loop `for i := 0; i < n; i++ { err = bread(r, &xs[i]); if err != nil
{ return 0, err } }` over a slice `xs`, with a loop counter of `w` bits
(`i++` wraps modulo `2 ^ w`).  The first argument bounds the number of loop
tests; `readElems_fuel` shows that `2 ^ w` of them are never used up. -/
def readElems {α : Type} (P : Proto) (w : Nat) (read : α → Reader → Out α) (zero : α)
    (n : Nat) : Nat → Nat → List α → Reader → Out (List α)
  | 0, _, xs, r => ⟨none, xs, r⟩
  | fuel + 1, i, xs, r =>
    if i < n then
      let o := bread P [elemItem read zero i] xs r
      match o.err with
      | some e => ⟨some e, o.val, o.rest⟩
      | none => readElems P w read zero n fuel ((i + 1) % 2 ^ w) o.val o.rest
    else ⟨none, xs, r⟩

/-! ## Command arguments -/

/-- One argument of a `request` call: a `byte`, a `uint32` or a `[]byte`. -/
inductive Arg where
  | byte (b : Byte)
  | uint32 (v : Nat)
  | bytes (bs : List Byte)

/-- Modelled from the spec: the bytes one request argument is sent as.  A byte is
itself, a `uint32` is its 4 payload bytes big-endian, a byte slice is its bytes
(sections 4.1 and 6). -/
def Arg.encode : Arg → List Byte
  | .byte b => [b]
  | .uint32 v => beBytes 4 (v % 2 ^ 32)
  | .bytes bs => bs

/-- Modelled from the spec: the argument tag-stream of a request, the encodings of
its arguments in order (section 4.4). -/
def bwrite (args : List Arg) : List Byte := (args.map Arg.encode).flatten

/-- A call `c.request(cmd, args...)`. -/
structure Request where
  cmd : Nat
  args : List Arg

/-- The argument bytes handed to the request. -/
def Request.argBytes (q : Request) : List Byte := bwrite q.args

/-- `Client.SetDefaultSink` (sink.go 125-129): the request it issues. -/
def Client.SetDefaultSink (P : Proto) (sinkName : Str) : Request :=
  ⟨P.commandSetDefaultSink, [.byte P.stringTag, .bytes sinkName, .byte 0]⟩

/-- `Client.SetSinkPort` (sink.go 131-139): the request it issues. -/
def Client.SetSinkPort (P : Proto) (sinkName portName : Str) : Request :=
  ⟨P.commandSetSinkPort,
    [.byte P.uint32Tag, .uint32 0xffffffff,
     .byte P.stringTag, .bytes sinkName,
     .byte 0,
     .byte P.stringTag, .bytes portName,
     .byte 0]⟩

/-- `Client.MoveSinkInput` (sink.go 214-221): the request it issues. -/
def Client.MoveSinkInput (P : Proto) (inputIndex : Nat) (sinkName : Str) : Request :=
  ⟨P.commandMoveSinkInput,
    [.byte P.uint32Tag, .uint32 inputIndex,
     .byte P.uint32Tag, .uint32 0xffffffff,
     .byte P.stringTag, .bytes sinkName,
     .byte 0]⟩

/-! ## `sinkPort` -/

/-- The `sinkPort` struct (sink.go 111-115). -/
structure sinkPort where
  Name : Str
  Description : Str
  Pririty : Nat
  Available : Nat
deriving DecidableEq, Repr

/-- The zero value of `sinkPort`. -/
def sinkPort.zero : sinkPort := ⟨[], [], 0, 0⟩

/-- `sinkPort.ReadFrom` (sink.go 117-123). -/
def sinkPort.ReadFrom (P : Proto) (p : sinkPort) (r : Reader) : Int × Out sinkPort :=
  (0, bread P
    [.tag P.stringTag, .str (fun p v => { p with Name := v }),
     .tag P.stringTag, .str (fun p v => { p with Description := v }),
     .tag P.uint32Tag, .u32 (fun p v => { p with Pririty := v }),
     .tag P.uint32Tag, .u32 (fun p v => { p with Available := v })] p r)

/-- The decode routine `bread` calls for a `*sinkPort` destination. -/
def sinkPort.read (P : Proto) (p : sinkPort) (r : Reader) : Out sinkPort :=
  (sinkPort.ReadFrom P p r).2

/-! ## `Sink` -/

/-- The `Sink` struct (sink.go 6-29). -/
structure Sink (P : Proto) where
  Index : Nat
  Name : Str
  Description : Str
  SampleSpec : P.sampleSpec
  ChannelMap : P.channelMap
  ModuleIndex : Nat
  Cvolume : P.cvolume
  Muted : Bool
  MonitorSourceIndex : Nat
  MonitorSourceName : Str
  Latency : Nat
  Driver : Str
  Flags : Nat
  PropList : PropList
  RequestedLatency : Nat
  BaseVolume : Nat
  SinkState : Nat
  NVolumeSteps : Nat
  CardIndex : Nat
  Ports : List sinkPort
  ActivePortName : Str
  Formats : List P.formatInfo

/-- The zero value of `Sink` (`var sink Sink`). -/
def Sink.zero (P : Proto) : Sink P where
  Index := 0
  Name := []
  Description := []
  SampleSpec := P.zeroSampleSpec
  ChannelMap := P.zeroChannelMap
  ModuleIndex := 0
  Cvolume := P.zeroCvolume
  Muted := false
  MonitorSourceIndex := 0
  MonitorSourceName := []
  Latency := 0
  Driver := []
  Flags := 0
  PropList := []
  RequestedLatency := 0
  BaseVolume := 0
  SinkState := 0
  NVolumeSteps := 0
  CardIndex := 0
  Ports := []
  ActivePortName := []
  Formats := []

/-- The arguments of the first `bread` call of `Sink.ReadFrom` (sink.go 34-54).
The destinations are fields of the sink, the last one is the local variable
`portCount`, the second component of the state. -/
def Sink.headerItems (P : Proto) : List (Item (Sink P × Nat)) :=
  [.tag P.uint32Tag, .u32 (fun st v => ({ st.1 with Index := v }, st.2)),
   .tag P.stringTag, .str (fun st v => ({ st.1 with Name := v }, st.2)),
   .tag P.stringTag, .str (fun st v => ({ st.1 with Description := v }, st.2)),
   Item.field (extRead P.readSampleSpec) (fun st => st.1.SampleSpec)
     (fun st v => ({ st.1 with SampleSpec := v }, st.2)),
   Item.field (extRead P.readChannelMap) (fun st => st.1.ChannelMap)
     (fun st v => ({ st.1 with ChannelMap := v }, st.2)),
   .tag P.uint32Tag, .u32 (fun st v => ({ st.1 with ModuleIndex := v }, st.2)),
   Item.field (extRead P.readCvolume) (fun st => st.1.Cvolume)
     (fun st v => ({ st.1 with Cvolume := v }, st.2)),
   .bool (fun st v => ({ st.1 with Muted := v }, st.2)),
   .tag P.uint32Tag, .u32 (fun st v => ({ st.1 with MonitorSourceIndex := v }, st.2)),
   .tag P.stringTag, .str (fun st v => ({ st.1 with MonitorSourceName := v }, st.2)),
   .tag P.usecTag, .u64 (fun st v => ({ st.1 with Latency := v }, st.2)),
   .tag P.stringTag, .str (fun st v => ({ st.1 with Driver := v }, st.2)),
   .tag P.uint32Tag, .u32 (fun st v => ({ st.1 with Flags := v }, st.2)),
   Item.field (extRead P.readPropList) (fun st => st.1.PropList)
     (fun st v => ({ st.1 with PropList := v }, st.2)),
   .tag P.usecTag, .u64 (fun st v => ({ st.1 with RequestedLatency := v }, st.2)),
   .tag P.volumeTag, .u32 (fun st v => ({ st.1 with BaseVolume := v }, st.2)),
   .tag P.uint32Tag, .u32 (fun st v => ({ st.1 with SinkState := v }, st.2)),
   .tag P.uint32Tag, .u32 (fun st v => ({ st.1 with NVolumeSteps := v }, st.2)),
   .tag P.uint32Tag, .u32 (fun st v => ({ st.1 with CardIndex := v }, st.2)),
   .tag P.uint32Tag, .u32 (fun st v => (st.1, v))]

/-- Lines 33-54 of `Sink.ReadFrom`: `var portCount uint32` and the first `bread`
call.  The state is the sink together with `portCount`. -/
def Sink.readHeader (P : Proto) (s : Sink P) (r : Reader) : Out (Sink P × Nat) :=
  bread P (Sink.headerItems P) (s, 0) r

/-- Line 58 of `Sink.ReadFrom`, `make([]sinkPort, portCount)`: whether the call
returns.  `portCount` comes from the wire and is not compared with anything
before the allocation.  The call returns when the runtime provides a slice of
that length; a length that does not exceed the number of unread bytes of the
reader, so that the stream can still hold one record for each element, is
taken to be provided on every platform.  Otherwise `make` does not return and
the run ends inside it. -/
def Sink.makes (P : Proto) (portCount : Nat) (r : Reader) : Bool :=
  decide (portCount ≤ r.length) || decide (portCount ≤ P.makeLimit)

/-- Lines 59-64 of `Sink.ReadFrom`, entered after line 58 has returned and stored
its slice of `portCount` zero values in `s.Ports`: the loop decoding
`s.Ports[i]`, counter `i` of type `uint32`. -/
def Sink.loopPorts (P : Proto) (s : Sink P) (portCount : Nat) (r : Reader) : Out (Sink P) :=
  let o := readElems P 32 (sinkPort.read P) sinkPort.zero portCount
    (2 ^ 32) 0 (List.replicate portCount sinkPort.zero) r
  ⟨o.err, { s with Ports := o.val }, o.rest⟩

/-- Lines 58-64 of `Sink.ReadFrom`: `s.Ports = make([]sinkPort, portCount)` and the
loop decoding `s.Ports[i]`.  `none` when the run ends inside `make`, before any
port is read. -/
def Sink.readPorts (P : Proto) (s : Sink P) (portCount : Nat) (r : Reader) :
    Option (Out (Sink P)) :=
  if Sink.makes P portCount r = true then some (Sink.loopPorts P s portCount r) else none

/-- Lines 65-75 of `Sink.ReadFrom`: the null-string tag when there are no ports,
the tagged active port name otherwise. -/
def Sink.readActivePort (P : Proto) (s : Sink P) (portCount : Nat) (r : Reader) :
    Out (Sink P) :=
  if portCount = 0 then
    bread P [.tag P.stringNullTag] s r
  else
    bread P [.tag P.stringTag, .str (fun s v => { s with ActivePortName := v })] s r

/-- Lines 77-79 of `Sink.ReadFrom`: `var formatCount uint8` and the `bread` call
reading it.  The state is the sink together with `formatCount`. -/
def Sink.readFormatCount (P : Proto) (s : Sink P) (r : Reader) : Out (Sink P × Nat) :=
  bread P [.tag P.uint8Tag, .u8 (fun st v => (st.1, v))] (s, 0) r

/-- Lines 83-89 of `Sink.ReadFrom`: `s.Formats = make([]formatInfo, formatCount)`
and the loop decoding `s.Formats[i]`, counter `i` of type `uint8`.  The length
of this slice is a `uint8`: at most 255 elements, which every platform is taken
to provide. -/
def Sink.readFormats (P : Proto) (s : Sink P) (formatCount : Nat) (r : Reader) :
    Out (Sink P) :=
  let o := readElems P 8 (extRead P.readFormatInfo) P.zeroFormatInfo formatCount
    (2 ^ 8) 0 (List.replicate formatCount P.zeroFormatInfo) r
  ⟨o.err, { s with Formats := o.val }, o.rest⟩

/-- `Sink.ReadFrom` (sink.go 31-91).  `none` when the run ends inside the `make` of
line 58 and the call does not return. -/
def Sink.ReadFrom (P : Proto) (s : Sink P) (r : Reader) : Option (Int × Out (Sink P)) :=
  let h := Sink.readHeader P s r
  match h.err with
  | some e => some (0, ⟨some e, h.val.1, h.rest⟩)
  | none =>
    match Sink.readPorts P h.val.1 h.val.2 h.rest with
    | none => none
    | some p =>
      match p.err with
      | some e => some (0, ⟨some e, p.val, p.rest⟩)
      | none =>
        let a := Sink.readActivePort P p.val h.val.2 p.rest
        match a.err with
        | some e => some (0, ⟨some e, a.val, a.rest⟩)
        | none =>
          let c := Sink.readFormatCount P a.val a.rest
          match c.err with
          | some e => some (0, ⟨some e, c.val.1, c.rest⟩)
          | none =>
            let f := Sink.readFormats P c.val.1 c.val.2 c.rest
            match f.err with
            | some e => some (0, ⟨some e, f.val, f.rest⟩)
            | none => some (0, ⟨none, f.val, f.rest⟩)

/-- Modelled from the spec: `bread(r, &x)` with the one composite destination `&x`
delegates to the decode routine of `x` on the shared reader and returns its
error (section 4.2): what is left is the error, the destination and the
reader, without the byte count.  When the decode routine does not return,
neither does `bread`. -/
def breadInto {S : Type} (read : S → Reader → Option (Int × Out S)) (s : S) (r : Reader) :
    Option (Out S) :=
  (read s r).map Prod.snd

/-- The loop of `Client.Sinks` (sink.go 99-108) on the response buffer `b`, with
the list `sinks` built so far.  The first argument bounds the number of loop
tests.  `none` when the process ends inside a `bread(b, &sink)`. -/
def Client.sinksLoop (P : Proto) :
    Nat → List (Sink P) → Reader → Option (List (Sink P) × Option Err)
  | 0, sinks, _ => some (sinks, none)
  | fuel + 1, sinks, b =>
    if b.length > 0 then
      match breadInto (Sink.ReadFrom P) (Sink.zero P) b with
      | none => none
      | some o =>
        match o.err with
        | some e => some ([], some e)
        | none => Client.sinksLoop P fuel (sinks ++ [o.val]) o.rest
    else some (sinks, none)

/-- `Client.Sinks` (sink.go 93-109), as a function of what
`c.request(commandGetSinkInfoList)` returned: an error or the response buffer.
A nil slice is the empty list; `none` is the call that does not return.  The
loop is allowed `len(b) + 1` tests of its condition; by `Client.sinksLoop_fuel`
the result does not depend on that bound. -/
def Client.Sinks (P : Proto) (resp : Except Err Reader) :
    Option (List (Sink P) × Option Err) :=
  match resp with
  | .error e => some ([], some e)
  | .ok b => Client.sinksLoop P (b.length + 1) [] b

/-! ## `SinkInput` -/

/-- The `SinkInput` struct (sink.go 141-160). -/
structure SinkInput (P : Proto) where
  Index : Nat
  Name : Str
  OwnerModule : Nat
  Client : Nat
  Sink : Nat
  SampleSpec : P.sampleSpec
  ChannelMap : P.channelMap
  Cvolume : P.cvolume
  BufferUsec : Nat
  SinkUsec : Nat
  ResampleMethod : Str
  Driver : Str
  Mute : Bool
  PropList : PropList
  Corked : Bool
  HasVolume : Bool
  VolumeWritable : Bool
  Formats : List P.formatInfo

/-- The zero value of `SinkInput` (`var sinkInputInfo SinkInput`). -/
def SinkInput.zero (P : Proto) : SinkInput P where
  Index := 0
  Name := []
  OwnerModule := 0
  Client := 0
  Sink := 0
  SampleSpec := P.zeroSampleSpec
  ChannelMap := P.zeroChannelMap
  Cvolume := P.zeroCvolume
  BufferUsec := 0
  SinkUsec := 0
  ResampleMethod := []
  Driver := []
  Mute := false
  PropList := []
  Corked := false
  HasVolume := false
  VolumeWritable := false
  Formats := []

/-- The arguments of the first `bread` call of `SinkInput.ReadFrom`
(sink.go 163-180). -/
def SinkInput.headerItems (P : Proto) : List (Item (SinkInput P)) :=
  [.tag P.uint32Tag, .u32 (fun s v => { s with Index := v }),
   .tag P.stringTag, .str (fun s v => { s with Name := v }),
   .tag P.uint32Tag, .u32 (fun s v => { s with OwnerModule := v }),
   .tag P.uint32Tag, .u32 (fun s v => { s with Client := v }),
   .tag P.uint32Tag, .u32 (fun s v => { s with Sink := v }),
   Item.field (extRead P.readSampleSpec) (fun s => s.SampleSpec)
     (fun s v => { s with SampleSpec := v }),
   Item.field (extRead P.readChannelMap) (fun s => s.ChannelMap)
     (fun s v => { s with ChannelMap := v }),
   Item.field (extRead P.readCvolume) (fun s => s.Cvolume)
     (fun s v => { s with Cvolume := v }),
   .tag P.usecTag, .u64 (fun s v => { s with BufferUsec := v }),
   .tag P.usecTag, .u64 (fun s v => { s with SinkUsec := v }),
   .tag P.stringTag, .str (fun s v => { s with ResampleMethod := v }),
   .tag P.stringTag, .str (fun s v => { s with Driver := v }),
   .bool (fun s v => { s with Mute := v }),
   Item.field (extRead P.readPropList) (fun s => s.PropList)
     (fun s v => { s with PropList := v }),
   .bool (fun s v => { s with Corked := v }),
   .bool (fun s v => { s with HasVolume := v }),
   .bool (fun s v => { s with VolumeWritable := v })]

/-- Lines 163-180 of `SinkInput.ReadFrom`: the first `bread` call. -/
def SinkInput.readHeader (P : Proto) (s : SinkInput P) (r : Reader) : Out (SinkInput P) :=
  bread P (SinkInput.headerItems P) s r

/-- Lines 186-188 of `SinkInput.ReadFrom`: `var formatCount uint8` and the `bread`
call reading the format-info tag, the uint8 tag and the count into it. -/
def SinkInput.readFormatCount (P : Proto) (r : Reader) : Out Nat :=
  bread P [.tag P.formatInfoTag, .tag P.uint8Tag, .u8 (fun _ v => v)] 0 r

/-- Line 193 of `SinkInput.ReadFrom`: `bread(r, &fi.PropList)` on the local
`fi := formatInfo{}`, whose property list starts out nil. -/
def SinkInput.readFormatProps (P : Proto) (r : Reader) : Out Pulse.PropList :=
  bread P [Item.field (extRead P.readPropList) (fun m => m) (fun _ m => m)] [] r

/-- `SinkInput.ReadFrom` (sink.go 162-195).  The error of the last `bread` call is
assigned to `err` and the function then returns `0, nil`. -/
def SinkInput.ReadFrom (P : Proto) (s : SinkInput P) (r : Reader) : Int × Out (SinkInput P) :=
  let h := SinkInput.readHeader P s r
  match h.err with
  | some e => (0, ⟨some e, h.val, h.rest⟩)
  | none =>
    let c := SinkInput.readFormatCount P h.rest
    match c.err with
    | some e => (0, ⟨some e, h.val, c.rest⟩)
    | none =>
      let m := SinkInput.readFormatProps P c.rest
      (0, ⟨none, h.val, m.rest⟩)

/-- The loop of `Client.SinkInputs` (sink.go 202-211). -/
def Client.sinkInputsLoop (P : Proto) :
    Nat → List (SinkInput P) → Reader → List (SinkInput P) × Option Err
  | 0, sinkInputs, _ => (sinkInputs, none)
  | fuel + 1, sinkInputs, b =>
    if b.length > 0 then
      let o := bread P [Item.sub (fun s r => (SinkInput.ReadFrom P s r).2)] (SinkInput.zero P) b
      match o.err with
      | some e => ([], some e)
      | none => Client.sinkInputsLoop P fuel (sinkInputs ++ [o.val]) o.rest
    else (sinkInputs, none)

/-- `Client.SinkInputs` (sink.go 197-212), as a function of what
`c.request(commandGetSinkInputInfoList)` returned. -/
def Client.SinkInputs (P : Proto) (resp : Except Err Reader) :
    List (SinkInput P) × Option Err :=
  match resp with
  | .error e => ([], some e)
  | .ok b => Client.sinkInputsLoop P (b.length + 1) [] b

/-! ## A concrete protocol instance

The fields of `Proto` are instantiated so that the definitions above can be
evaluated on concrete streams. -/

/-- One tagged byte: the tag `t`, then one payload byte. -/
def sampleTagged (t : Byte) (_ : Nat) : Reader → Option Err × Nat × Nat
  | [] => (some Err.Truncated, 0, 0)
  | [b] => if b = t then (some Err.Truncated, 0, 1) else (some Err.ProtocolMismatch, 0, 1)
  | b :: v :: _ => if b = t then (none, v.val, 2) else (some Err.ProtocolMismatch, 0, 1)

/-- A counted byte string: the tag `t`, one count byte `n`, then `n` bytes. -/
def sampleCounted (t : Byte) (_ : List Byte) : Reader → Option Err × List Byte × Nat
  | [] => (some Err.Truncated, [], 0)
  | [b] => if b = t then (some Err.Truncated, [], 1) else (some Err.ProtocolMismatch, [], 1)
  | b :: n :: r =>
    if b = t then
      if r.length < n.val then (some Err.Truncated, [], 2 + r.length)
      else (none, r.take n.val, 2 + n.val)
    else (some Err.ProtocolMismatch, [], 1)

/-- The entries of a property list: each entry is the string tag 116, a
zero-terminated key, and a zero-terminated value; the null-string tag 78 ends
the list. -/
def samplePropEntries : Nat → Reader → Option Err × PropList × Nat
  | 0, _ => (some Err.Truncated, [], 0)
  | _ + 1, [] => (some Err.Truncated, [], 0)
  | fuel + 1, b :: r =>
    if b = 78 then (none, [], 1)
    else if b = 116 then
      match readString r with
      | none => (some Err.Truncated, [], 1 + r.length)
      | some (k, r1) =>
        match readString r1 with
        | none => (some Err.Truncated, [], 1 + r.length)
        | some (v, r2) =>
          let o := samplePropEntries fuel r2
          (o.1, (k, v) :: o.2.1, 1 + (k.length + 1) + (v.length + 1) + o.2.2)
    else (some Err.ProtocolMismatch, [], 1)

/-- A property list: the tag 80, then its entries. -/
def samplePropList (_ : PropList) : Reader → Option Err × PropList × Nat
  | [] => (some Err.Truncated, [], 0)
  | b :: r =>
    if b = 80 then
      let o := samplePropEntries (r.length + 1) r
      (o.1, o.2.1, 1 + o.2.2)
    else (some Err.ProtocolMismatch, [], 1)

/-- A concrete `Proto`: ASCII tag bytes, one-byte or counted layouts for the
records whose layout `sink.go` does not show, and a runtime that provides port
slices of up to `2 ^ 20` elements. -/
def Proto.sample : Proto where
  uint32Tag := 76
  stringTag := 116
  stringNullTag := 78
  usecTag := 85
  volumeTag := 86
  uint8Tag := 66
  formatInfoTag := 102
  commandGetSinkInfoList := 22
  commandGetSinkInputInfoList := 30
  commandSetDefaultSink := 44
  commandSetSinkPort := 96
  commandMoveSinkInput := 67
  boolOf := fun b => if b = 49 then some true else if b = 48 then some false else none
  sampleSpec := Nat
  channelMap := List Byte
  cvolume := Nat
  formatInfo := Nat
  zeroSampleSpec := 0
  zeroChannelMap := []
  zeroCvolume := 0
  zeroFormatInfo := 0
  readSampleSpec := sampleTagged 97
  readChannelMap := sampleCounted 109
  readCvolume := sampleTagged 118
  readFormatInfo := sampleTagged 102
  readPropList := samplePropList
  makeLimit := 1048576

/-- The fields of a `Sink` record of `Proto.sample` that precede the port count. -/
def sampleFieldBytes : List Byte :=
  [76, 0, 0, 0, 1,
   116, 97, 0,
   116, 0,
   97, 3,
   109, 2, 1, 2,
   76, 0, 0, 0, 7,
   118, 5,
   49,
   76, 0, 0, 0, 2,
   116, 109, 0,
   85, 0, 0, 0, 0, 0, 0, 0, 9,
   116, 100, 0,
   76, 0, 0, 0, 0,
   80, 78,
   85, 0, 0, 0, 0, 0, 0, 0, 0,
   86, 0, 1, 0, 0,
   76, 0, 0, 0, 0,
   76, 0, 0, 0, 0,
   76, 255, 255, 255, 255]

/-- A complete `Sink` record of `Proto.sample` without ports and with one format:
port count 0, the null-string tag, format count 1, one format. -/
def sampleSinkBytes : List Byte :=
  sampleFieldBytes ++ [76, 0, 0, 0, 0, 78, 66, 1, 102, 1]

/-- A complete `Sink` record of `Proto.sample` with two ports and no format: port
count 2, the ports "h" and "s", the active port name "h", format count 0. -/
def samplePortSinkBytes : List Byte :=
  sampleFieldBytes ++
    [76, 0, 0, 0, 2,
     116, 104, 0, 116, 0, 76, 0, 0, 0, 5, 76, 0, 0, 0, 1,
     116, 115, 0, 116, 0, 76, 0, 0, 0, 3, 76, 0, 0, 0, 0,
     116, 104, 0,
     66, 0]

/-- The sink that `sampleSinkBytes` encodes. -/
def sampleSink : Sink Proto.sample where
  Index := 1
  Name := [97]
  Description := []
  SampleSpec := (3 : Nat)
  ChannelMap := ([1, 2] : List Byte)
  ModuleIndex := 7
  Cvolume := (5 : Nat)
  Muted := true
  MonitorSourceIndex := 2
  MonitorSourceName := [109]
  Latency := 9
  Driver := [100]
  Flags := 0
  PropList := []
  RequestedLatency := 0
  BaseVolume := 65536
  SinkState := 0
  NVolumeSteps := 0
  CardIndex := 4294967295
  Ports := []
  ActivePortName := []
  Formats := ([1] : List Nat)

/-- The sink that `samplePortSinkBytes` encodes. -/
def samplePortSink : Sink Proto.sample :=
  { sampleSink with
    Ports := [⟨[104], [], 5, 1⟩, ⟨[115], [], 3, 0⟩]
    ActivePortName := [104]
    Formats := ([] : List Nat) }

/-- A complete `Sink` record of `Proto.sample` without ports and with the largest
format count: port count 0, the null-string tag, format count 255, 255 formats. -/
def sampleMaxFormatsBytes : List Byte :=
  sampleFieldBytes ++ [76, 0, 0, 0, 0, 78, 66, 255] ++ (List.replicate 255 [102, 1]).flatten

/-- The sink that `sampleMaxFormatsBytes` encodes. -/
def sampleMaxFormatsSink : Sink Proto.sample :=
  { sampleSink with Formats := (List.replicate 255 1 : List Nat) }

/-! ## Reference functions for the statements -/

/-- Successive element decodes into the elements of `xs`, in order, stopping at
the first error: the elements afterwards, the error and the reader at the stop.
One call of `read` per element, none skipped and none repeated. -/
def readInto {α : Type} (read : α → Reader → Out α) : List α → Reader → Out (List α)
  | [], r => ⟨none, [], r⟩
  | x :: xs, r =>
    let o := read x r
    match o.err with
    | some e => ⟨some e, o.val :: xs, o.rest⟩
    | none =>
      let t := readInto read xs o.rest
      ⟨t.err, o.val :: t.val, t.rest⟩

/-- The header arguments of `Sink.ReadFrom` that precede `uint32Tag, &portCount`
(sink.go 35-53), run on their own. -/
def Sink.readFields (P : Proto) (s : Sink P) (r : Reader) : Out (Sink P × Nat) :=
  bread P ((Sink.headerItems P).take 33) (s, 0) r

/-- The outcome of the port loop inside a run `Sink.ReadFrom P s r` in which line
58 returns: lines 59-64 run on what the header stage left. -/
def Sink.stagePorts (P : Proto) (s : Sink P) (r : Reader) : Out (Sink P) :=
  let h := Sink.readHeader P s r
  Sink.loopPorts P h.val.1 h.val.2 h.rest

/-- The outcome of lines 65-75 inside `Sink.ReadFrom P s r`, run on what the port
loop left. -/
def Sink.stageActivePort (P : Proto) (s : Sink P) (r : Reader) : Out (Sink P) :=
  let p := Sink.stagePorts P s r
  Sink.readActivePort P p.val (Sink.readHeader P s r).val.2 p.rest

/-- The outcome of lines 77-79 inside `Sink.ReadFrom P s r`, run on what lines
65-75 left. -/
def Sink.stageFormatCount (P : Proto) (s : Sink P) (r : Reader) : Out (Sink P × Nat) :=
  let a := Sink.stageActivePort P s r
  Sink.readFormatCount P a.val a.rest

/-- The outcome of the format loop inside `Sink.ReadFrom P s r`, lines 83-89 run
on what the format-count stage left. -/
def Sink.stageFormats (P : Proto) (s : Sink P) (r : Reader) : Out (Sink P) :=
  let c := Sink.stageFormatCount P s r
  Sink.readFormats P c.val.1 c.val.2 c.rest

/-- The stages of `Sink.ReadFrom` in turn, each entered when the one before
returned no error, with line 58 taken to return: what `Sink.ReadFrom P s r`
returns in every run that does not end inside `make` (`Sink.ReadFrom_eq`). -/
def Sink.stagesRun (P : Proto) (s : Sink P) (r : Reader) : Int × Out (Sink P) :=
  let h := Sink.readHeader P s r
  match h.err with
  | some e => (0, ⟨some e, h.val.1, h.rest⟩)
  | none =>
    let p := Sink.loopPorts P h.val.1 h.val.2 h.rest
    match p.err with
    | some e => (0, ⟨some e, p.val, p.rest⟩)
    | none =>
      let a := Sink.readActivePort P p.val h.val.2 p.rest
      match a.err with
      | some e => (0, ⟨some e, a.val, a.rest⟩)
      | none =>
        let c := Sink.readFormatCount P a.val a.rest
        match c.err with
        | some e => (0, ⟨some e, c.val.1, c.rest⟩)
        | none =>
          let f := Sink.readFormats P c.val.1 c.val.2 c.rest
          match f.err with
          | some e => (0, ⟨some e, f.val, f.rest⟩)
          | none => (0, ⟨none, f.val, f.rest⟩)

/-- The argument `it` of a `bread` call leaves the part `f` of the record as it
was, whatever the reader holds. -/
def Item.Keeps {S β : Type} (P : Proto) (f : S → β) (it : Item S) : Prop :=
  ∀ s r, f (breadItem P it s r).val = f s

/-- The byte sequence `e` is a valid encoding of the sink `v`: on a zero `Sink`
and any reader that starts with `e`, `Sink.ReadFrom` succeeds, yields `v` and
leaves exactly what follows `e`. -/
def Sink.Encodes (P : Proto) (e : List Byte) (v : Sink P) : Prop :=
  ∀ rest, (Sink.ReadFrom P (Sink.zero P) (e ++ rest)).map Prod.snd = some ⟨none, v, rest⟩

/-- A complete `SinkInput` record of `Proto.sample` up to and including the format
count: the header fields, the format-info tag, the uint8 tag and the count 1. -/
def sampleInputBytes : List Byte :=
  [76, 0, 0, 0, 3,
   116, 97, 0,
   76, 0, 0, 0, 1,
   76, 0, 0, 0, 2,
   76, 0, 0, 0, 0,
   97, 3,
   109, 2, 1, 2,
   118, 5,
   85, 0, 0, 0, 0, 0, 0, 0, 0,
   85, 0, 0, 0, 0, 0, 0, 0, 0,
   116, 0,
   116, 100, 0,
   48,
   80, 78,
   48,
   49,
   49,
   102, 66, 1]

/-! ## Reference encoder

`sink.go` has no encoder for sinks.  The reference encoder writes the wire
layout of spec sections 3 and 6 in field order. -/

/-- Reference encoders for the parts of a record whose layout belongs to `Proto`:
a boolean and the nested records. -/
structure Enc (P : Proto) where
  bool : Bool → Byte
  sampleSpec : P.sampleSpec → List Byte
  channelMap : P.channelMap → List Byte
  cvolume : P.cvolume → List Byte
  formatInfo : P.formatInfo → List Byte
  propList : PropList → List Byte

/-- A tagged unsigned integer: 1 tag byte and `w` payload bytes, big-endian. -/
def putUint (t : Byte) (w x : Nat) : List Byte := t :: beBytes w x

/-- A tagged string: 1 tag byte, the payload bytes and 1 zero terminator. -/
def putString (t : Byte) (x : Str) : List Byte := t :: (x ++ [0])

/-- Reference encoding of a `sinkPort`: name, description, priority, availability. -/
def sinkPort.specEncode (P : Proto) (p : sinkPort) : List Byte :=
  putString P.stringTag p.Name ++ (putString P.stringTag p.Description ++
    (putUint P.uint32Tag 4 p.Pririty ++ putUint P.uint32Tag 4 p.Available))

/-- Reference encoding of a `Sink`: the fields in wire order, the port count and
the ports, the null-string tag when there are no ports and the tagged active
port name otherwise, the format count and the formats. -/
def Sink.specEncode (P : Proto) (E : Enc P) (v : Sink P) : List Byte :=
  putUint P.uint32Tag 4 v.Index ++
  putString P.stringTag v.Name ++
  putString P.stringTag v.Description ++
  E.sampleSpec v.SampleSpec ++
  E.channelMap v.ChannelMap ++
  putUint P.uint32Tag 4 v.ModuleIndex ++
  E.cvolume v.Cvolume ++
  [E.bool v.Muted] ++
  putUint P.uint32Tag 4 v.MonitorSourceIndex ++
  putString P.stringTag v.MonitorSourceName ++
  putUint P.usecTag 8 v.Latency ++
  putString P.stringTag v.Driver ++
  putUint P.uint32Tag 4 v.Flags ++
  E.propList v.PropList ++
  putUint P.usecTag 8 v.RequestedLatency ++
  putUint P.volumeTag 4 v.BaseVolume ++
  putUint P.uint32Tag 4 v.SinkState ++
  putUint P.uint32Tag 4 v.NVolumeSteps ++
  putUint P.uint32Tag 4 v.CardIndex ++
  putUint P.uint32Tag 4 v.Ports.length ++
  (v.Ports.map (sinkPort.specEncode P)).flatten ++
  (if v.Ports.length = 0 then [P.stringNullTag] else putString P.stringTag v.ActivePortName) ++
  putUint P.uint8Tag 1 v.Formats.length ++
  (v.Formats.map E.formatInfo).flatten

/-- A `sinkPort` value as Go can hold and the wire can carry it: strings without
zero byte, 32-bit integers. -/
structure sinkPort.Valid (p : sinkPort) : Prop where
  name : (0 : Byte) ∉ p.Name
  description : (0 : Byte) ∉ p.Description
  pririty : p.Pririty < 2 ^ 32
  available : p.Available < 2 ^ 32

/-- A `Sink` value as Go can hold and the wire can carry it: strings without zero
byte, integers within their types, a port count that fits 32 bits, a format
count that fits 8 bits, and an empty `ActivePortName` when there are no ports. -/
structure Sink.Valid {P : Proto} (v : Sink P) : Prop where
  index : v.Index < 2 ^ 32
  name : (0 : Byte) ∉ v.Name
  description : (0 : Byte) ∉ v.Description
  moduleIndex : v.ModuleIndex < 2 ^ 32
  monitorSourceIndex : v.MonitorSourceIndex < 2 ^ 32
  monitorSourceName : (0 : Byte) ∉ v.MonitorSourceName
  latency : v.Latency < 2 ^ 64
  driver : (0 : Byte) ∉ v.Driver
  flags : v.Flags < 2 ^ 32
  requestedLatency : v.RequestedLatency < 2 ^ 64
  baseVolume : v.BaseVolume < 2 ^ 32
  sinkState : v.SinkState < 2 ^ 32
  nVolumeSteps : v.NVolumeSteps < 2 ^ 32
  cardIndex : v.CardIndex < 2 ^ 32
  portCount : v.Ports.length < 2 ^ 32
  ports : ∀ p ∈ v.Ports, p.Valid
  activePortName : (0 : Byte) ∉ v.ActivePortName
  noPorts : v.Ports = [] → v.ActivePortName = []
  formatCount : v.Formats.length < 2 ^ 8

/-- The decode routine `read`, started on the destination `z` and on a reader that
begins with `e`, succeeds, yields `x` and takes exactly the bytes of `e`. -/
def Inverts {α : Type} (read : α → Reader → Option Err × α × Nat) (z : α) (e : List Byte)
    (x : α) : Prop :=
  ∀ rest, read z (e ++ rest) = (none, x, e.length)

/-- The decode routines of `Proto` invert the encoders `E` on the parts of `v`. -/
structure Enc.InvertsOn {P : Proto} (E : Enc P) (v : Sink P) : Prop where
  bool : P.boolOf (E.bool v.Muted) = some v.Muted
  sampleSpec : Inverts P.readSampleSpec P.zeroSampleSpec (E.sampleSpec v.SampleSpec) v.SampleSpec
  channelMap : Inverts P.readChannelMap P.zeroChannelMap (E.channelMap v.ChannelMap) v.ChannelMap
  cvolume : Inverts P.readCvolume P.zeroCvolume (E.cvolume v.Cvolume) v.Cvolume
  propList : Inverts P.readPropList [] (E.propList v.PropList) v.PropList
  formats : ∀ f ∈ v.Formats, Inverts P.readFormatInfo P.zeroFormatInfo (E.formatInfo f) f

/-- Reference encoders for the layouts of `Proto.sample`. -/
def sampleEnc : Enc Proto.sample where
  bool := fun b => if b then 49 else 48
  sampleSpec := fun (x : Nat) => [97, byteOf x]
  channelMap := fun (x : List Byte) => 109 :: byteOf x.length :: x
  cvolume := fun (x : Nat) => [118, byteOf x]
  formatInfo := fun (x : Nat) => [102, byteOf x]
  propList := fun m =>
    80 :: ((m.map (fun kv => 116 :: (kv.1 ++ 0 :: (kv.2 ++ [0])))).flatten ++ [78])

/-! ## The decode steps of `Sink.ReadFrom` as one sequence -/

/-- An argument of a `bread` call on a record `S`, seen as an argument on a larger
state `T` of which `S` is the part `get`, written back by `put`. -/
def Item.lift {S T : Type} (get : T → S) (put : T → S → T) : Item S → Item T
  | .tag t => .tag t
  | .u8 set => .u8 (fun t v => put t (set (get t) v))
  | .u32 set => .u32 (fun t v => put t (set (get t) v))
  | .u64 set => .u64 (fun t v => put t (set (get t) v))
  | .str set => .str (fun t v => put t (set (get t) v))
  | .bool set => .bool (fun t v => put t (set (get t) v))
  | .sub read => .sub (fun t r =>
      let o := read (get t) r
      ⟨o.err, put t o.val, o.rest⟩)

/-- The arguments of the `bread` call of lines 65-75 of `Sink.ReadFrom`, by port
count. -/
def Sink.activePortItems (P : Proto) (portCount : Nat) : List (Item (Sink P)) :=
  if portCount = 0 then [.tag P.stringNullTag]
  else [.tag P.stringTag, .str (fun s v => { s with ActivePortName := v })]

/-- The state of a run of `Sink.ReadFrom`: the sink and the local variables
`portCount` and `formatCount`. -/
abbrev Sink.Run (P : Proto) := Sink P × Nat × Nat

/-- A header argument (on the sink and `portCount`) as a step of the run. -/
def Sink.onHeader (P : Proto) : Item (Sink P × Nat) → Item (Sink.Run P) :=
  Item.lift (fun t => (t.1, t.2.1)) (fun t x => (x.1, x.2, t.2.2))

/-- An argument on the sink alone as a step of the run. -/
def Sink.onSink (P : Proto) : Item (Sink P) → Item (Sink.Run P) :=
  Item.lift (fun t => t.1) (fun t x => (x, t.2))

/-- An argument on the sink and `formatCount` as a step of the run. -/
def Sink.onFormatCount (P : Proto) : Item (Sink P × Nat) → Item (Sink.Run P) :=
  Item.lift (fun t => (t.1, t.2.2)) (fun t x => (x.1, t.2.1, x.2))

/-- An argument on the slice `s.Ports` as a step of the run. -/
def Sink.onPorts (P : Proto) : Item (List sinkPort) → Item (Sink.Run P) :=
  Item.lift (fun t => t.1.Ports) (fun t xs => ({ t.1 with Ports := xs }, t.2))

/-- An argument on the slice `s.Formats` as a step of the run. -/
def Sink.onFormats (P : Proto) : Item (List P.formatInfo) → Item (Sink.Run P) :=
  Item.lift (fun t => t.1.Formats) (fun t xs => ({ t.1 with Formats := xs }, t.2))

/-- One step of a run on the state `T`: an argument of a `bread` call, or an
allocation, a statement that reads no byte and either leaves a new state or
ends the process. -/
inductive Step (T : Type) where
  | decode (it : Item T)
  | alloc (make : T → Reader → Option T)

/-- The effect of one step: `none` when the process ends inside it, otherwise the
error, the state and the reader it leaves.  A decode step is the `bread`
argument on the reader; an allocation that returns leaves the reader as it
was and cannot report an error. -/
def Step.run {T : Type} (P : Proto) : Step T → T → Reader → Option (Out T)
  | .decode it, t, r => some (breadItem P it t r)
  | .alloc make, t, r =>
    match make t r with
    | none => none
    | some t1 => some ⟨none, t1, r⟩

/-- Steps run in order: the run stops at the first step that reports an error,
with what that step left, and it stops without an outcome at a step inside
which the process ends. -/
def runSteps {T : Type} (P : Proto) : List (Step T) → T → Reader → Option (Out T)
  | [], t, r => some ⟨none, t, r⟩
  | st :: sts, t, r =>
    match Step.run P st t r with
    | none => none
    | some o =>
      match o.err with
      | some e => some ⟨some e, o.val, o.rest⟩
      | none => runSteps P sts o.val o.rest

/-- Line 58, `s.Ports = make([]sinkPort, portCount)`: reads no byte; returns the
slice of `portCount` zero values, or the process ends inside `make`
(`Sink.makes`). -/
def Sink.makePorts (P : Proto) : Step (Sink.Run P) :=
  .alloc (fun t r =>
    if Sink.makes P t.2.1 r = true then
      some ({ t.1 with Ports := List.replicate t.2.1 sinkPort.zero }, t.2)
    else none)

/-- Line 83, `s.Formats = make([]formatInfo, formatCount)`: reads no byte and
returns the slice of `formatCount` zero values, at most 255 of them. -/
def Sink.makeFormats (P : Proto) : Step (Sink.Run P) :=
  .alloc (fun t _ => some ({ t.1 with Formats := List.replicate t.2.2 P.zeroFormatInfo }, t.2))

/-- The steps of a run of `Sink.ReadFrom` in which `portCount` is `n` and
`formatCount` is `m`, in execution order: the header arguments (a tag or a
destination each), the allocation of `Ports`, one step per port record, the
null-string tag or the tag and destination of the active port name, the tag
and destination of the format count, the allocation of `Formats`, one step per
format record. -/
def Sink.steps (P : Proto) (n m : Nat) : List (Step (Sink.Run P)) :=
  ((Sink.headerItems P).map (Sink.onHeader P)).map Step.decode ++
  ((Sink.makePorts P ::
    ((List.range n).map (fun i =>
      Sink.onPorts P (elemItem (sinkPort.read P) sinkPort.zero i))).map Step.decode) ++
  (((Sink.activePortItems P n).map (Sink.onSink P)).map Step.decode ++
  (([Item.tag P.uint8Tag, Item.u8 (fun st v => (st.1, v))].map
      (Sink.onFormatCount P)).map Step.decode ++
  (Sink.makeFormats P ::
    ((List.range m).map (fun i =>
      Sink.onFormats P (elemItem (extRead P.readFormatInfo) P.zeroFormatInfo i))).map
        Step.decode))))

/-- The steps of the run `Sink.ReadFrom P s r`: the two counts are those the run
reads from `r`.  When the run stops before it has read a count, the steps that
depend on that count come after the step at which it stops and are never
reached. -/
def Sink.stepsOf (P : Proto) (s : Sink P) (r : Reader) : List (Step (Sink.Run P)) :=
  Sink.steps P (Sink.readHeader P s r).val.2 (Sink.stageFormatCount P s r).val.2

/-- The argument `it` of a `bread` call only takes bytes from the reader: what it
leaves unread is no longer than what it found. -/
def Item.Shrinks {S : Type} (P : Proto) (it : Item S) : Prop :=
  ∀ s r, (breadItem P it s r).rest.length ≤ r.length

/-- The number of times the body of the loop of `Client.Sinks` (sink.go 100-107)
is entered on the response buffer `b`: the loop of `Client.sinksLoop`, counting
one for each `bread(b, &sink)`, also for one inside which the process ends. -/
def Client.sinksLoopIters (P : Proto) : Nat → Reader → Nat
  | 0, _ => 0
  | fuel + 1, b =>
    if b.length > 0 then
      match breadInto (Sink.ReadFrom P) (Sink.zero P) b with
      | none => 1
      | some o =>
        match o.err with
        | some _ => 1
        | none => 1 + Client.sinksLoopIters P fuel o.rest
    else 0

/-- A `Sink` record of `Proto.sample` that ends after a port count of `2 ^ 32 - 1`:
the fields before the port count, the uint32 tag and four bytes `FF`. -/
def sampleHugeCountBytes : List Byte :=
  sampleFieldBytes ++ [76, 255, 255, 255, 255]

/-- A `Sink` record of `Proto.sample` with port count 0 that goes on with the
ordinary string tag and an empty zero-terminated string where the null-string
tag belongs. -/
def sampleStringTagBytes : List Byte :=
  sampleFieldBytes ++ [76, 0, 0, 0, 0, 116, 0, 66, 0]

/-- A `Sink` record of `Proto.sample` with port count 1 and one port "h" that goes
on with the null-string tag where the tagged active port name belongs. -/
def sampleNullTagBytes : List Byte :=
  sampleFieldBytes ++
    [76, 0, 0, 0, 1,
     116, 104, 0, 116, 0, 76, 0, 0, 0, 5, 76, 0, 0, 0, 1,
     78, 66, 0]

/-- The arguments of a `bread` call that reads back what `SetSinkPort` sends:
`uint32Tag, &index, stringTag, &sinkName, stringTag, &portName`, on the triple
of the three destinations. -/
def Client.setSinkPortItems (P : Proto) : List (Item (Nat × Str × Str)) :=
  [.tag P.uint32Tag, .u32 (fun t v => (v, t.2)),
   .tag P.stringTag, .str (fun t v => (t.1, v, t.2.2)),
   .tag P.stringTag, .str (fun t v => (t.1, t.2.1, v))]

/-! ## Reference encoder and sample records for `SinkInput` -/

/-- Reference encoding of the header fields of a `SinkInput`, in wire order
(sink.go 163-180). -/
def SinkInput.specEncodeHeader (P : Proto) (E : Enc P) (v : SinkInput P) : List Byte :=
  putUint P.uint32Tag 4 v.Index ++ (putString P.stringTag v.Name ++
  (putUint P.uint32Tag 4 v.OwnerModule ++ (putUint P.uint32Tag 4 v.Client ++
  (putUint P.uint32Tag 4 v.Sink ++ (E.sampleSpec v.SampleSpec ++
  (E.channelMap v.ChannelMap ++ (E.cvolume v.Cvolume ++
  (putUint P.usecTag 8 v.BufferUsec ++ (putUint P.usecTag 8 v.SinkUsec ++
  (putString P.stringTag v.ResampleMethod ++ (putString P.stringTag v.Driver ++
  (E.bool v.Mute :: (E.propList v.PropList ++
  [E.bool v.Corked, E.bool v.HasVolume, E.bool v.VolumeWritable])))))))))))))

/-- Reference encoding of a `SinkInput` record: the header fields, then the
format-info tag, the uint8 tag, the format byte `c` and the property mapping
`m` of the format. -/
def SinkInput.specEncode (P : Proto) (E : Enc P) (v : SinkInput P) (c : Byte)
    (m : Pulse.PropList) : List Byte :=
  SinkInput.specEncodeHeader P E v ++
    (P.formatInfoTag :: P.uint8Tag :: c :: E.propList m)

/-- A `SinkInput` value as Go can hold, the wire can carry and the decoder can
return it: strings without zero byte, integers within their types, and no
formats. -/
structure SinkInput.Valid {P : Proto} (v : SinkInput P) : Prop where
  index : v.Index < 2 ^ 32
  name : (0 : Byte) ∉ v.Name
  ownerModule : v.OwnerModule < 2 ^ 32
  client : v.Client < 2 ^ 32
  sink : v.Sink < 2 ^ 32
  bufferUsec : v.BufferUsec < 2 ^ 64
  sinkUsec : v.SinkUsec < 2 ^ 64
  resampleMethod : (0 : Byte) ∉ v.ResampleMethod
  driver : (0 : Byte) ∉ v.Driver
  formats : v.Formats = []

/-- The decode routines of `Proto` invert the encoders `E` on the parts of the
`SinkInput` value `v`. -/
structure Enc.InvertsOnInput {P : Proto} (E : Enc P) (v : SinkInput P) : Prop where
  mute : P.boolOf (E.bool v.Mute) = some v.Mute
  corked : P.boolOf (E.bool v.Corked) = some v.Corked
  hasVolume : P.boolOf (E.bool v.HasVolume) = some v.HasVolume
  volumeWritable : P.boolOf (E.bool v.VolumeWritable) = some v.VolumeWritable
  sampleSpec : Inverts P.readSampleSpec P.zeroSampleSpec (E.sampleSpec v.SampleSpec) v.SampleSpec
  channelMap : Inverts P.readChannelMap P.zeroChannelMap (E.channelMap v.ChannelMap) v.ChannelMap
  cvolume : Inverts P.readCvolume P.zeroCvolume (E.cvolume v.Cvolume) v.Cvolume
  propList : Inverts P.readPropList [] (E.propList v.PropList) v.PropList

/-- The byte sequence `e` is a valid encoding of the sink input `v`: on a zero
`SinkInput` and any reader that starts with `e`, `SinkInput.ReadFrom` succeeds,
yields `v` and leaves exactly what follows `e`. -/
def SinkInput.Encodes (P : Proto) (e : List Byte) (v : SinkInput P) : Prop :=
  ∀ rest, (SinkInput.ReadFrom P (SinkInput.zero P) (e ++ rest)).2 = ⟨none, v, rest⟩

/-- The sink input whose header `sampleInputBytes` holds. -/
def sampleInput : SinkInput Proto.sample where
  Index := 3
  Name := [97]
  OwnerModule := 1
  Client := 2
  Sink := 0
  SampleSpec := (3 : Nat)
  ChannelMap := ([1, 2] : List Byte)
  Cvolume := (5 : Nat)
  BufferUsec := 0
  SinkUsec := 0
  ResampleMethod := []
  Driver := [100]
  Mute := false
  PropList := []
  Corked := false
  HasVolume := true
  VolumeWritable := true
  Formats := ([] : List Nat)

/-- The header fields of `sampleInputBytes`: its first 60 bytes. -/
def sampleInputHeaderBytes : List Byte := sampleInputBytes.take 60

/-- A complete `SinkInput` record of `Proto.sample`: `sampleInputBytes` followed by
an empty property list. -/
def sampleInputRecordBytes : List Byte := sampleInputBytes ++ [80, 78]

/-! # Properties -/

/-! ## Big-endian lemmas -/

theorem byteOf_val (n : Nat) : (byteOf n).val = n % 256 := rfl

theorem beNat_append_singleton (bs : List Byte) (b : Byte) :
    beNat (bs ++ [b]) = beNat bs * 256 + b.val := by
  simp [beNat, List.foldl_append]

theorem beBytes_length (w x : Nat) : (beBytes w x).length = w := by
  induction w generalizing x with
  | zero => rfl
  | succ w ih => simp [beBytes, ih]

theorem beNat_beBytes (w x : Nat) : beNat (beBytes w x) = x % 256 ^ w := by
  induction w generalizing x with
  | zero => simp [beBytes, beNat, Nat.mod_one]
  | succ w ih =>
    rw [beBytes, beNat_append_singleton, ih, byteOf_val, pow_succ', Nat.mod_mul]
    ring

theorem beNat_beBytes_of_lt (w x : Nat) (h : x < 256 ^ w) : beNat (beBytes w x) = x := by
  rw [beNat_beBytes, Nat.mod_eq_of_lt h]

theorem beBytes_four (x : Nat) :
    beBytes 4 x = [byteOf (x / 2 ^ 24), byteOf (x / 2 ^ 16), byteOf (x / 2 ^ 8), byteOf x] := by
  simp [beBytes, Nat.div_div_eq_div_mul]

/-! ## `bread` -/

theorem bread_nil {S : Type} (P : Proto) (s : S) (r : Reader) :
    bread P [] s r = ⟨none, s, r⟩ := rfl

theorem bread_cons_of_ok {S : Type} (P : Proto) (it : Item S) (its : List (Item S)) (s : S)
    (r : Reader) (h : (breadItem P it s r).err = none) :
    bread P (it :: its) s r = bread P its (breadItem P it s r).val (breadItem P it s r).rest := by
  simp only [bread, h]

theorem Out.ext_of_err {S : Type} (o : Out S) (x : Option Err) (h : o.err = x) :
    (⟨x, o.val, o.rest⟩ : Out S) = o := by
  subst h
  rfl

theorem bread_cons_of_err {S : Type} (P : Proto) (it : Item S) (its : List (Item S)) (s : S)
    (r : Reader) (e : Err) (h : (breadItem P it s r).err = some e) :
    bread P (it :: its) s r = breadItem P it s r := by
  simp only [bread, h]
  exact Out.ext_of_err _ _ h

theorem bread_single {S : Type} (P : Proto) (it : Item S) (s : S) (r : Reader) :
    bread P [it] s r = breadItem P it s r := by
  cases h : (breadItem P it s r).err with
  | none =>
    rw [bread_cons_of_ok P it [] s r h, bread_nil]
    exact Out.ext_of_err _ _ h
  | some e => exact bread_cons_of_err P it [] s r e h

theorem bread_append_of_ok {S : Type} (P : Proto) (xs ys : List (Item S)) (s : S)
    (r : Reader) (h : (bread P xs s r).err = none) :
    bread P (xs ++ ys) s r = bread P ys (bread P xs s r).val (bread P xs s r).rest := by
  induction xs generalizing s r with
  | nil => rfl
  | cons it xs ih =>
    cases hi : (breadItem P it s r).err with
    | none =>
      rw [bread_cons_of_ok P it xs s r hi] at h ⊢
      rw [List.cons_append, bread_cons_of_ok P it (xs ++ ys) s r hi]
      exact ih _ _ h
    | some e =>
      rw [bread_cons_of_err P it xs s r e hi, hi] at h
      cases h

theorem bread_append_of_err {S : Type} (P : Proto) (xs ys : List (Item S)) (s : S)
    (r : Reader) (e : Err) (h : (bread P xs s r).err = some e) :
    bread P (xs ++ ys) s r = bread P xs s r := by
  induction xs generalizing s r with
  | nil => simp [bread] at h
  | cons it xs ih =>
    cases hi : (breadItem P it s r).err with
    | none =>
      rw [bread_cons_of_ok P it xs s r hi] at h ⊢
      rw [List.cons_append, bread_cons_of_ok P it (xs ++ ys) s r hi]
      exact ih _ _ h
    | some e1 =>
      rw [List.cons_append, bread_cons_of_err P it xs s r e1 hi,
        bread_cons_of_err P it (xs ++ ys) s r e1 hi]

/-! ## The element loops -/

theorem readInto_length {α : Type} (read : α → Reader → Out α) (xs : List α) (r : Reader) :
    (readInto read xs r).val.length = xs.length := by
  induction xs generalizing r with
  | nil => rfl
  | cons x xs ih =>
    simp only [readInto]
    split
    · rfl
    · simp [ih]

theorem breadItem_field {S α : Type} (P : Proto) (read : α → Reader → Out α) (get : S → α)
    (set : S → α → S) (s : S) (r : Reader) :
    breadItem P (Item.field read get set) s r =
      ⟨(read (get s) r).err, set s (read (get s) r).val, (read (get s) r).rest⟩ := rfl

/-- The counter loop is the in-order decode of the elements from position `i`
on, provided the count fits the counter and the bound on loop tests exceeds the
number of elements left. -/
theorem readElems_eq_readInto {α : Type} (P : Proto) (w : Nat) (read : α → Reader → Out α)
    (zero : α) (n : Nat) (hn : n < 2 ^ w) (fuel i : Nat) (xs : List α) (r : Reader)
    (hlen : xs.length = n) (hi : i ≤ n) (hfuel : n - i < fuel) :
    readElems P w read zero n fuel i xs r =
      ⟨(readInto read (xs.drop i) r).err, xs.take i ++ (readInto read (xs.drop i) r).val,
        (readInto read (xs.drop i) r).rest⟩ := by
  induction fuel generalizing i xs r with
  | zero => omega
  | succ fuel ih =>
    unfold readElems
    by_cases hlt : i < n
    · have hix : i < xs.length := by omega
      rw [if_pos hlt, bread_single, elemItem, breadItem_field]
      have hd : xs.drop i = xs[i] :: xs.drop (i + 1) := List.drop_eq_getElem_cons hix
      have hg : xs.getD i zero = xs[i] := by
        rw [List.getD_eq_getElem?_getD, List.getElem?_eq_getElem hix]
        rfl
      rw [hd, hg]
      simp only [readInto]
      cases he : (read xs[i] r).err with
      | some e =>
        simp only []
        rw [List.set_eq_take_append_cons_drop, if_pos hix]
      | none =>
        simp only []
        have hmod : (i + 1) % 2 ^ w = i + 1 := Nat.mod_eq_of_lt (Nat.lt_of_le_of_lt hlt hn)
        have hf : n - (i + 1) < fuel := by omega
        rw [hmod, ih (i + 1) _ _ (by simpa using hlen) hlt hf]
        have h1 : (xs.set i (read xs[i] r).val).drop (i + 1) = xs.drop (i + 1) :=
          List.drop_set_of_lt _ _ (by omega)
        have h2 : (xs.set i (read xs[i] r).val).take (i + 1) =
            xs.take i ++ [(read xs[i] r).val] := by
          have h3 : (xs.set i (read xs[i] r).val).take i = xs.take i := by
            rw [List.set_take, List.set_eq_of_length_le (by simp)]
          rw [List.take_succ, h3]
          simp [hix]
        rw [h1, h2]
        simp
    · have hin : i = n := by omega
      rw [if_neg hlt]
      subst hin
      rw [← hlen]
      simp [readInto]

/-- Started at 0 on a slice of `n` elements, with `2 ^ w` loop tests allowed and
`n < 2 ^ w`, the counter loop decodes every element once, in order. -/
theorem readElems_fuel {α : Type} (P : Proto) (w : Nat) (read : α → Reader → Out α)
    (zero : α) (n : Nat) (hn : n < 2 ^ w) (xs : List α) (r : Reader) (hlen : xs.length = n) :
    readElems P w read zero n (2 ^ w) 0 xs r = readInto read xs r := by
  rw [readElems_eq_readInto P w read zero n hn (2 ^ w) 0 xs r hlen (Nat.zero_le _) (by omega)]
  simp

/-! ## Inversion of successful primitive decodes -/

theorem beNat_lt (bs : List Byte) : beNat bs < 256 ^ bs.length := by
  induction bs using List.reverseRecOn with
  | nil => simp [beNat]
  | append_singleton bs b ih =>
    rw [beNat_append_singleton, List.length_append, List.length_singleton, pow_succ]
    have hb : b.val < 256 := b.isLt
    omega

theorem readUint_ok {S : Type} (w : Nat) (set : S → Nat → S) (s : S) (r : Reader)
    (h : (readUint w set s r).err = none) :
    w ≤ r.length ∧ readUint w set s r = ⟨none, set s (beNat (r.take w)), r.drop w⟩ := by
  unfold readUint at h ⊢
  by_cases hl : r.length < w
  · rw [if_pos hl] at h
    cases h
  · rw [if_neg hl]
    exact ⟨by omega, rfl⟩

theorem breadItem_tag_ok {S : Type} (P : Proto) (t : Byte) (s : S) (r : Reader)
    (h : (breadItem P (Item.tag t) s r).err = none) :
    ∃ r1, r = t :: r1 ∧ breadItem P (Item.tag t) s r = ⟨none, s, r1⟩ := by
  cases r with
  | nil => cases h
  | cons b r1 =>
    by_cases hb : b = t
    · subst hb
      exact ⟨r1, rfl, by simp [breadItem]⟩
    · simp [breadItem, hb] at h

theorem readString_some (r : Reader) (v : Str) (r1 : Reader) (h : readString r = some (v, r1)) :
    r = v ++ 0 :: r1 ∧ (0 : Byte) ∉ v := by
  induction r generalizing v with
  | nil => cases h
  | cons b r ih =>
    unfold readString at h
    by_cases hb : b = 0
    · rw [if_pos hb] at h
      cases h
      subst hb
      simp
    · rw [if_neg hb] at h
      cases hr : readString r with
      | none => rw [hr] at h; cases h
      | some q =>
        obtain ⟨v1, r2⟩ := q
        rw [hr] at h
        cases h
        obtain ⟨h1, h2⟩ := ih v1 hr
        refine ⟨by rw [h1]; rfl, ?_⟩
        simp only [List.mem_cons, not_or]
        exact ⟨fun h0 => hb h0.symm, h2⟩

theorem breadItem_str_ok {S : Type} (P : Proto) (set : S → Str → S) (s : S) (r : Reader)
    (h : (breadItem P (Item.str set) s r).err = none) :
    ∃ v r1, r = v ++ 0 :: r1 ∧ (0 : Byte) ∉ v ∧
      breadItem P (Item.str set) s r = ⟨none, set s v, r1⟩ := by
  cases hr : readString r with
  | none => simp [breadItem, hr] at h
  | some q =>
    obtain ⟨v, r1⟩ := q
    obtain ⟨h1, h2⟩ := readString_some r v r1 hr
    exact ⟨v, r1, h1, h2, by simp [breadItem, hr]⟩

/-- A successful `bread(r, tag, &x)` for an integer of `w` bytes: the reader
starts with the tag and `w` payload bytes. -/
theorem bread_tag_uint_ok {S : Type} (P : Proto) (t : Byte) (w : Nat) (it : Item S)
    (set : S → Nat → S) (hit : ∀ s r, breadItem P it s r = readUint w set s r)
    (s : S) (r : Reader) (h : (bread P [Item.tag t, it] s r).err = none) :
    ∃ bs r1, r = t :: (bs ++ r1) ∧ bs.length = w ∧
      bread P [Item.tag t, it] s r = ⟨none, set s (beNat bs), r1⟩ := by
  cases ht : (breadItem P (Item.tag t) s r).err with
  | some e =>
    rw [bread_cons_of_err P _ _ s r e ht, ht] at h
    cases h
  | none =>
    obtain ⟨r0, hr, h0⟩ := breadItem_tag_ok P t s r ht
    rw [bread_cons_of_ok P _ _ s r ht, h0, bread_single, hit] at h ⊢
    obtain ⟨hl, hu⟩ := readUint_ok w set s r0 h
    refine ⟨r0.take w, r0.drop w, by rw [hr, List.take_append_drop], ?_, hu⟩
    rw [List.length_take]
    omega

/-! ## Parts of a record that a `bread` call does not write -/

theorem Item.keeps_tag {S β : Type} (P : Proto) (f : S → β) (t : Byte) :
    Item.Keeps P f (Item.tag t) := by
  intro s r
  cases r with
  | nil => rfl
  | cons b r1 =>
    simp only [breadItem]
    split <;> rfl

theorem readUint_keeps {S β : Type} (f : S → β) (w : Nat) (set : S → Nat → S)
    (h : ∀ s v, f (set s v) = f s) (s : S) (r : Reader) : f (readUint w set s r).val = f s := by
  unfold readUint
  split
  · rfl
  · exact h _ _

theorem Item.keeps_u8 {S β : Type} (P : Proto) (f : S → β) (set : S → Nat → S)
    (h : ∀ s v, f (set s v) = f s) : Item.Keeps P f (Item.u8 set) :=
  fun s r => readUint_keeps f 1 set h s r

theorem Item.keeps_u32 {S β : Type} (P : Proto) (f : S → β) (set : S → Nat → S)
    (h : ∀ s v, f (set s v) = f s) : Item.Keeps P f (Item.u32 set) :=
  fun s r => readUint_keeps f 4 set h s r

theorem Item.keeps_u64 {S β : Type} (P : Proto) (f : S → β) (set : S → Nat → S)
    (h : ∀ s v, f (set s v) = f s) : Item.Keeps P f (Item.u64 set) :=
  fun s r => readUint_keeps f 8 set h s r

theorem Item.keeps_str {S β : Type} (P : Proto) (f : S → β) (set : S → Str → S)
    (h : ∀ s v, f (set s v) = f s) : Item.Keeps P f (Item.str set) := by
  intro s r
  simp only [breadItem]
  split
  · rfl
  · exact h _ _

theorem Item.keeps_bool {S β : Type} (P : Proto) (f : S → β) (set : S → Bool → S)
    (h : ∀ s v, f (set s v) = f s) : Item.Keeps P f (Item.bool set) := by
  intro s r
  cases r with
  | nil => rfl
  | cons b r1 =>
    simp only [breadItem]
    split
    · rfl
    · exact h _ _

theorem Item.keeps_field {S α β : Type} (P : Proto) (f : S → β) (read : α → Reader → Out α)
    (get : S → α) (set : S → α → S) (h : ∀ s v, f (set s v) = f s) :
    Item.Keeps P f (Item.field read get set) :=
  fun _ _ => h _ _

theorem bread_keeps {S β : Type} (P : Proto) (f : S → β) (items : List (Item S))
    (h : ∀ it ∈ items, Item.Keeps P f it) (s : S) (r : Reader) :
    f (bread P items s r).val = f s := by
  induction items generalizing s r with
  | nil => rfl
  | cons it its ih =>
    have hit := h it (List.mem_cons_self _ _)
    cases he : (breadItem P it s r).err with
    | none =>
      rw [bread_cons_of_ok P it its s r he, ih (fun x hx => h x (List.mem_cons_of_mem _ hx))]
      exact hit s r
    | some e =>
      rw [bread_cons_of_err P it its s r e he]
      exact hit s r

/-- The header stage writes neither `Ports`, nor `ActivePortName`, nor `Formats`. -/
theorem Sink.readHeader_keeps (P : Proto) (s : Sink P) (r : Reader) :
    (Sink.readHeader P s r).val.1.Ports = s.Ports ∧
    (Sink.readHeader P s r).val.1.ActivePortName = s.ActivePortName ∧
    (Sink.readHeader P s r).val.1.Formats = s.Formats := by
  unfold Sink.readHeader
  refine ⟨bread_keeps P (fun st : Sink P × Nat => st.1.Ports) _ ?_ (s, 0) r,
    bread_keeps P (fun st : Sink P × Nat => st.1.ActivePortName) _ ?_ (s, 0) r,
    bread_keeps P (fun st : Sink P × Nat => st.1.Formats) _ ?_ (s, 0) r⟩ <;>
  · simp only [Sink.headerItems, List.forall_mem_cons]
    refine ⟨?_, ?_, ?_, ?_, ?_, ?_, ?_, ?_, ?_, ?_, ?_, ?_, ?_, ?_, ?_, ?_, ?_, ?_, ?_, ?_,
      ?_, ?_, ?_, ?_, ?_, ?_, ?_, ?_, ?_, ?_, ?_, ?_, ?_, ?_, ?_, ?_⟩ <;>
    first
      | exact Item.keeps_tag P _ _
      | exact Item.keeps_u32 P _ _ (fun _ _ => rfl)
      | exact Item.keeps_u64 P _ _ (fun _ _ => rfl)
      | exact Item.keeps_str P _ _ (fun _ _ => rfl)
      | exact Item.keeps_bool P _ _ (fun _ _ => rfl)
      | exact Item.keeps_field P _ _ _ _ (fun _ _ => rfl)
      | exact fun _ h => absurd h (List.not_mem_nil _)

/-! ## `Sink.ReadFrom`, stage by stage -/

theorem Sink.headerItems_split (P : Proto) :
    Sink.headerItems P = (Sink.headerItems P).take 33 ++
      [Item.tag P.uint32Tag, Item.u32 (fun st v => (st.1, v))] := rfl

/-- `Sink.ReadFrom` does not return exactly when the header stage succeeds and the
allocation of line 58 does not return; in every other run it returns what the
stages give. -/
theorem Sink.ReadFrom_eq (P : Proto) (s : Sink P) (r : Reader) :
    Sink.ReadFrom P s r =
      if (Sink.readHeader P s r).err = none ∧
          Sink.makes P (Sink.readHeader P s r).val.2 (Sink.readHeader P s r).rest = false
      then none else some (Sink.stagesRun P s r) := by
  unfold Sink.ReadFrom Sink.stagesRun Sink.readPorts
  simp only []
  cases hh : (Sink.readHeader P s r).err with
  | some e => simp
  | none =>
    cases hm : Sink.makes P (Sink.readHeader P s r).val.2 (Sink.readHeader P s r).rest with
    | false => simp
    | true =>
      simp only [if_true, and_false, if_false, Bool.true_eq_false]
      repeat' split
      all_goals rfl

theorem Sink.ReadFrom_some (P : Proto) (s : Sink P) (r : Reader) (x : Int × Out (Sink P))
    (h : Sink.ReadFrom P s r = some x) : x = Sink.stagesRun P s r := by
  rw [Sink.ReadFrom_eq] at h
  split at h
  · cases h
  · exact (Option.some.inj h).symm

theorem Sink.ReadFrom_eq_none (P : Proto) (s : Sink P) (r : Reader) :
    Sink.ReadFrom P s r = none ↔
      (Sink.readHeader P s r).err = none ∧
        Sink.makes P (Sink.readHeader P s r).val.2 (Sink.readHeader P s r).rest = false := by
  rw [Sink.ReadFrom_eq]
  split
  · rename_i h
    exact ⟨fun _ => h, fun _ => rfl⟩
  · rename_i h
    exact ⟨fun h0 => Option.noConfusion h0, fun h0 => absurd h0 h⟩

theorem Sink.ReadFrom_of_makes (P : Proto) (s : Sink P) (r : Reader)
    (hm : Sink.makes P (Sink.readHeader P s r).val.2 (Sink.readHeader P s r).rest = true) :
    Sink.ReadFrom P s r = some (Sink.stagesRun P s r) := by
  rw [Sink.ReadFrom_eq, if_neg]
  rw [hm]
  exact fun h => by cases h.2

theorem Sink.makes_of_le (P : Proto) (n : Nat) (r : Reader) (h : n ≤ r.length) :
    Sink.makes P n r = true := by
  simp [Sink.makes, h]

/-- A successful run of the stages is the success of the five stages in turn, and
gives what the last stage left. -/
theorem Sink.stagesRun_ok (P : Proto) (s : Sink P) (r : Reader)
    (hok : (Sink.stagesRun P s r).2.err = none) :
    (Sink.readHeader P s r).err = none ∧ (Sink.stagePorts P s r).err = none ∧
    (Sink.stageActivePort P s r).err = none ∧ (Sink.stageFormatCount P s r).err = none ∧
    (Sink.stageFormats P s r).err = none ∧
    (Sink.stagesRun P s r).2 = Sink.stageFormats P s r := by
  unfold Sink.stagesRun at hok ⊢
  unfold Sink.stageFormats Sink.stageFormatCount Sink.stageActivePort Sink.stagePorts
  simp only [] at hok ⊢
  split at hok
  · cases hok
  · rename_i h1
    split at hok
    · cases hok
    · rename_i h2
      split at hok
      · cases hok
      · rename_i h3
        split at hok
        · cases hok
        · rename_i h4
          split at hok
          · cases hok
          · rename_i h5
            refine ⟨h1, h2, h3, h4, h5, ?_⟩
            simp only [h1, h2, h3, h4, h5]
            exact Out.ext_of_err _ _ h5

/-- A successful header stage: the arguments before `portCount` succeed, the
reader then holds the uint32 tag and four count bytes, and `portCount` is their
big-endian value. -/
theorem Sink.readHeader_ok (P : Proto) (s : Sink P) (r : Reader)
    (h : (Sink.readHeader P s r).err = none) :
    (Sink.readFields P s r).err = none ∧
    ∃ b0 b1 b2 b3, (Sink.readFields P s r).rest =
        P.uint32Tag :: b0 :: b1 :: b2 :: b3 :: (Sink.readHeader P s r).rest ∧
      (Sink.readHeader P s r).val = ((Sink.readFields P s r).val.1, beNat [b0, b1, b2, b3]) := by
  have hsplit : Sink.readHeader P s r =
      bread P ((Sink.headerItems P).take 33 ++
        [Item.tag P.uint32Tag, Item.u32 (fun st v => (st.1, v))]) (s, 0) r :=
    congrArg (fun l => bread P l (s, 0) r) (Sink.headerItems_split P)
  rw [hsplit] at h ⊢
  unfold Sink.readFields
  cases hf : (bread P ((Sink.headerItems P).take 33) (s, 0) r).err with
  | some e =>
    rw [bread_append_of_err P _ _ _ _ e hf, hf] at h
    cases h
  | none =>
    refine ⟨rfl, ?_⟩
    rw [bread_append_of_ok P _ _ _ _ hf] at h ⊢
    obtain ⟨bs, r1, hr, hl, hb⟩ := bread_tag_uint_ok P P.uint32Tag 4
      (Item.u32 (fun st v => (st.1, v))) (fun st v => (st.1, v)) (fun _ _ => rfl) _ _ h
    rw [hb, hr]
    match bs, hl with
    | [b0, b1, b2, b3], _ => exact ⟨b0, b1, b2, b3, rfl, rfl⟩

theorem Sink.portCount_lt (P : Proto) (s : Sink P) (r : Reader)
    (h : (Sink.readHeader P s r).err = none) : (Sink.readHeader P s r).val.2 < 2 ^ 32 := by
  obtain ⟨_, b0, b1, b2, b3, _, hv⟩ := Sink.readHeader_ok P s r h
  rw [hv]
  have hlt := beNat_lt [b0, b1, b2, b3]
  have e : 256 ^ [b0, b1, b2, b3].length = 2 ^ 32 := by norm_num
  rw [e] at hlt
  exact hlt

/-- The port loop, for a count that fits 32 bits, decodes `portCount` fresh
`sinkPort` values in order. -/
theorem Sink.loopPorts_eq (P : Proto) (s : Sink P) (n : Nat) (hn : n < 2 ^ 32) (r : Reader) :
    Sink.loopPorts P s n r =
      ⟨(readInto (sinkPort.read P) (List.replicate n sinkPort.zero) r).err,
       { s with Ports := (readInto (sinkPort.read P) (List.replicate n sinkPort.zero) r).val },
       (readInto (sinkPort.read P) (List.replicate n sinkPort.zero) r).rest⟩ := by
  unfold Sink.loopPorts
  simp only []
  rw [readElems_fuel P 32 _ _ n hn _ _ (List.length_replicate _ _)]

/-- The format loop, for a count that fits 8 bits, decodes `formatCount` fresh
`formatInfo` values in order. -/
theorem Sink.readFormats_eq (P : Proto) (s : Sink P) (n : Nat) (hn : n < 2 ^ 8) (r : Reader) :
    Sink.readFormats P s n r =
      ⟨(readInto (extRead P.readFormatInfo) (List.replicate n P.zeroFormatInfo) r).err,
       { s with Formats :=
          (readInto (extRead P.readFormatInfo) (List.replicate n P.zeroFormatInfo) r).val },
       (readInto (extRead P.readFormatInfo) (List.replicate n P.zeroFormatInfo) r).rest⟩ := by
  unfold Sink.readFormats
  simp only []
  rw [readElems_fuel P 8 _ _ n hn _ _ (List.length_replicate _ _)]

/-- A successful format-count stage: the reader holds the uint8 tag and one count
byte, and `formatCount` is that byte. -/
theorem Sink.readFormatCount_ok (P : Proto) (s : Sink P) (r : Reader)
    (h : (Sink.readFormatCount P s r).err = none) :
    ∃ b, r = P.uint8Tag :: b :: (Sink.readFormatCount P s r).rest ∧
      (Sink.readFormatCount P s r).val = (s, b.val) := by
  unfold Sink.readFormatCount at *
  obtain ⟨bs, r1, hr, hl, hb⟩ := bread_tag_uint_ok P P.uint8Tag 1
    (Item.u8 (fun st v => (st.1, v))) (fun st v => (st.1, v)) (fun _ _ => rfl) _ _ h
  rw [hb, hr]
  match bs, hl with
  | [b], _ => exact ⟨b, rfl, by simp [beNat]⟩

/-- A successful lines 65-75 without ports: one byte is taken, the null-string
tag, and the sink is left as it was. -/
theorem Sink.readActivePort_zero_ok (P : Proto) (s : Sink P) (r : Reader)
    (h : (Sink.readActivePort P s 0 r).err = none) :
    r = P.stringNullTag :: (Sink.readActivePort P s 0 r).rest ∧
      (Sink.readActivePort P s 0 r).val = s := by
  unfold Sink.readActivePort at *
  rw [if_pos rfl, bread_single] at h ⊢
  obtain ⟨r1, hr, h0⟩ := breadItem_tag_ok P _ s r h
  rw [h0]
  exact ⟨hr, rfl⟩

/-- A successful lines 65-75 with ports: the string tag and a zero-terminated
string are taken, and the string is stored in `ActivePortName`. -/
theorem Sink.readActivePort_pos_ok (P : Proto) (s : Sink P) (n : Nat) (hn : n ≠ 0)
    (r : Reader) (h : (Sink.readActivePort P s n r).err = none) :
    ∃ name, r = P.stringTag :: (name ++ 0 :: (Sink.readActivePort P s n r).rest) ∧
      (0 : Byte) ∉ name ∧
      (Sink.readActivePort P s n r).val = { s with ActivePortName := name } := by
  unfold Sink.readActivePort at *
  rw [if_neg hn] at h ⊢
  cases ht : (breadItem P (Item.tag P.stringTag) s r).err with
  | some e =>
    rw [bread_cons_of_err P _ _ s r e ht, ht] at h
    cases h
  | none =>
    obtain ⟨r0, hr, h0⟩ := breadItem_tag_ok P _ s r ht
    rw [bread_cons_of_ok P _ _ s r ht, h0, bread_single] at h ⊢
    obtain ⟨v, r1, hv, hz, h1⟩ := breadItem_str_ok P _ s r0 h
    rw [h1]
    exact ⟨v, by rw [hr, hv], hz, rfl⟩

theorem Sink.loopPorts_proj (P : Proto) (s : Sink P) (n : Nat) (hn : n < 2 ^ 32)
    (r : Reader) :
    (Sink.loopPorts P s n r).err =
        (readInto (sinkPort.read P) (List.replicate n sinkPort.zero) r).err ∧
      (Sink.loopPorts P s n r).val.Ports =
        (readInto (sinkPort.read P) (List.replicate n sinkPort.zero) r).val ∧
      (Sink.loopPorts P s n r).rest =
        (readInto (sinkPort.read P) (List.replicate n sinkPort.zero) r).rest := by
  rw [Sink.loopPorts_eq P s n hn r]
  exact ⟨rfl, rfl, rfl⟩

theorem Sink.readFormats_proj (P : Proto) (s : Sink P) (n : Nat) (hn : n < 2 ^ 8)
    (r : Reader) :
    (Sink.readFormats P s n r).err =
        (readInto (extRead P.readFormatInfo) (List.replicate n P.zeroFormatInfo) r).err ∧
      (Sink.readFormats P s n r).val.Formats =
        (readInto (extRead P.readFormatInfo) (List.replicate n P.zeroFormatInfo) r).val ∧
      (Sink.readFormats P s n r).rest =
        (readInto (extRead P.readFormatInfo) (List.replicate n P.zeroFormatInfo) r).rest ∧
      (Sink.readFormats P s n r).val.Ports = s.Ports := by
  rw [Sink.readFormats_eq P s n hn r]
  exact ⟨rfl, rfl, rfl, rfl⟩

/-- Lines 65-75 never touch `Ports`. -/
theorem Sink.readActivePort_ports (P : Proto) (s : Sink P) (n : Nat) (r : Reader) :
    (Sink.readActivePort P s n r).val.Ports = s.Ports := by
  unfold Sink.readActivePort
  by_cases hn : n = 0
  · rw [if_pos hn, bread_single]
    cases r with
    | nil => rfl
    | cons b r1 =>
      simp only [breadItem]
      split <;> rfl
  · rw [if_neg hn]
    cases ht : (breadItem P (Item.tag P.stringTag) s r).err with
    | some e =>
      rw [bread_cons_of_err P _ _ s r e ht]
      cases r with
      | nil => rfl
      | cons b r1 =>
        simp only [breadItem]
        split <;> rfl
    | none =>
      obtain ⟨r0, _, h0⟩ := breadItem_tag_ok P _ s r ht
      rw [bread_cons_of_ok P _ _ s r ht, h0, bread_single]
      simp only [breadItem]
      split <;> rfl

/-! ## Command arguments -/

/-- C1: the argument bytes of `SetSinkPort(sinkName, portName)` are the uint32
tag, FF FF FF FF, the string tag, the bytes of `sinkName`, a zero byte, the
string tag, the bytes of `portName`, a zero byte, and nothing else; for
"analog-output" and "headphones" they are the listed bytes. -/
theorem Client.SetSinkPort_argBytes (P : Proto) (sinkName portName : Str) :
    (Client.SetSinkPort P sinkName portName).argBytes =
        [P.uint32Tag, 0xFF, 0xFF, 0xFF, 0xFF] ++ [P.stringTag] ++ sinkName ++ [0] ++
          [P.stringTag] ++ portName ++ [0] ∧
      (Client.SetSinkPort P [97, 110, 97, 108, 111, 103, 45, 111, 117, 116, 112, 117, 116]
          [104, 101, 97, 100, 112, 104, 111, 110, 101, 115]).argBytes =
        [P.uint32Tag, 0xFF, 0xFF, 0xFF, 0xFF,
         P.stringTag, 97, 110, 97, 108, 111, 103, 45, 111, 117, 116, 112, 117, 116, 0,
         P.stringTag, 104, 101, 97, 100, 112, 104, 111, 110, 101, 115, 0] := by
  have h : beBytes 4 4294967295 = [0xFF, 0xFF, 0xFF, 0xFF] := by decide
  constructor <;>
    simp [Client.SetSinkPort, Request.argBytes, bwrite, Arg.encode, h]

/-- C2: for a 32-bit input index `i`, the argument bytes of
`MoveSinkInput(i, sinkName)` are the uint32 tag, the four bytes of `i` in
big-endian order, the uint32 tag, FF FF FF FF, the string tag, the bytes of
`sinkName` and one zero byte. -/
theorem Client.MoveSinkInput_argBytes (P : Proto) (i : Nat) (sinkName : Str)
    (hi : i < 2 ^ 32) :
    (Client.MoveSinkInput P i sinkName).argBytes =
        [P.uint32Tag, byteOf (i / 2 ^ 24), byteOf (i / 2 ^ 16), byteOf (i / 2 ^ 8), byteOf i,
         P.uint32Tag, 0xFF, 0xFF, 0xFF, 0xFF, P.stringTag] ++ sinkName ++ [0] ∧
      beNat [byteOf (i / 2 ^ 24), byteOf (i / 2 ^ 16), byteOf (i / 2 ^ 8), byteOf i] = i := by
  have h : beBytes 4 4294967295 = [0xFF, 0xFF, 0xFF, 0xFF] := by decide
  have h4 := beBytes_four i
  constructor
  · have hm : i % 4294967296 = i := Nat.mod_eq_of_lt (by simpa using hi)
    simp [Client.MoveSinkInput, Request.argBytes, bwrite, Arg.encode, h, hm, h4]
  · rw [← h4]
    exact beNat_beBytes_of_lt 4 i (by simpa using hi)

/-- C2 at the index 0x01020304 and the sink name "a". -/
theorem Client.MoveSinkInput_argBytes_witness :
    (Client.MoveSinkInput Proto.sample 0x01020304 [97]).argBytes =
      [76, 1, 2, 3, 4, 76, 0xFF, 0xFF, 0xFF, 0xFF, 116, 97, 0] :=
  (Client.MoveSinkInput_argBytes Proto.sample 0x01020304 [97] (by decide)).1

/-- C3: the argument bytes of `SetDefaultSink(sinkName)` are the string tag, the
bytes of `sinkName` and one zero byte; nothing precedes the string tag. -/
theorem Client.SetDefaultSink_argBytes (P : Proto) (sinkName : Str) :
    (Client.SetDefaultSink P sinkName).argBytes = [P.stringTag] ++ sinkName ++ [0] := by
  simp [Client.SetDefaultSink, Request.argBytes, bwrite, Arg.encode]

/-- The lists of a successfully decoded sink, in terms of the stream: the counts
as read and the in-order decodes of that many records. -/
theorem Sink.stagesRun_ok_lists (P : Proto) (s : Sink P) (r : Reader)
    (hok : (Sink.stagesRun P s r).2.err = none) :
    ∃ b0 b1 b2 b3 b,
      (Sink.readFields P s r).rest =
        P.uint32Tag :: b0 :: b1 :: b2 :: b3 :: (Sink.readHeader P s r).rest ∧
      (Sink.stageActivePort P s r).rest =
        P.uint8Tag :: b :: (Sink.stageFormatCount P s r).rest ∧
      (Sink.stagesRun P s r).2.val.Ports.length = beNat [b0, b1, b2, b3] ∧
      (Sink.stagesRun P s r).2.val.Formats.length = b.val ∧
      readInto (sinkPort.read P) (List.replicate (beNat [b0, b1, b2, b3]) sinkPort.zero)
          (Sink.readHeader P s r).rest =
        ⟨none, (Sink.stagesRun P s r).2.val.Ports, (Sink.stagePorts P s r).rest⟩ ∧
      readInto (extRead P.readFormatInfo) (List.replicate b.val P.zeroFormatInfo)
          (Sink.stageFormatCount P s r).rest =
        ⟨none, (Sink.stagesRun P s r).2.val.Formats, (Sink.stagesRun P s r).2.rest⟩ := by
  obtain ⟨h1, h2, h3, h4, h5, hfin⟩ := Sink.stagesRun_ok P s r hok
  obtain ⟨_, b0, b1, b2, b3, hr, hv⟩ := Sink.readHeader_ok P s r h1
  have hN := Sink.portCount_lt P s r h1
  obtain ⟨b, hb, hc⟩ := Sink.readFormatCount_ok P _ _ h4
  refine ⟨b0, b1, b2, b3, b, hr, hb, ?_⟩
  have hcount : (Sink.readHeader P s r).val.2 = beNat [b0, b1, b2, b3] := by rw [hv]
  have hfc : (Sink.stageFormatCount P s r).val.2 = b.val :=
    congrArg Prod.snd hc
  have hfs : (Sink.stageFormatCount P s r).val.1 = (Sink.stageActivePort P s r).val :=
    congrArg Prod.fst hc
  obtain ⟨hpe, hpv, hpr⟩ := Sink.loopPorts_proj P (Sink.readHeader P s r).val.1 _ hN
    (Sink.readHeader P s r).rest
  obtain ⟨hfe, hfv, hfr, hfp⟩ := Sink.readFormats_proj P (Sink.stageFormatCount P s r).val.1
    (Sink.stageFormatCount P s r).val.2 (by rw [hfc]; exact b.isLt)
    (Sink.stageFormatCount P s r).rest
  have hap : (Sink.stageActivePort P s r).val.Ports = (Sink.stagePorts P s r).val.Ports :=
    Sink.readActivePort_ports P _ _ _
  have hP : (Sink.stagesRun P s r).2.val.Ports =
      (readInto (sinkPort.read P) (List.replicate (beNat [b0, b1, b2, b3]) sinkPort.zero)
        (Sink.readHeader P s r).rest).val := by
    rw [hfin, ← hcount]
    exact (hfp.trans (congrArg Sink.Ports hfs)).trans (hap.trans hpv)
  have hF : (Sink.stagesRun P s r).2.val.Formats =
      (readInto (extRead P.readFormatInfo) (List.replicate b.val P.zeroFormatInfo)
        (Sink.stageFormatCount P s r).rest).val := by
    rw [hfin, ← hfc]
    exact hfv
  have hR : (Sink.stagesRun P s r).2.rest =
      (readInto (extRead P.readFormatInfo) (List.replicate b.val P.zeroFormatInfo)
        (Sink.stageFormatCount P s r).rest).rest := by
    rw [hfin, ← hfc]
    exact hfr
  have hPR : (Sink.stagePorts P s r).rest =
      (readInto (sinkPort.read P) (List.replicate (beNat [b0, b1, b2, b3]) sinkPort.zero)
        (Sink.readHeader P s r).rest).rest := by
    rw [← hcount]
    exact hpr
  refine ⟨?_, ?_, ?_, ?_⟩
  · rw [hP, readInto_length, List.length_replicate]
  · rw [hF, readInto_length, List.length_replicate]
  · rw [hP, hPR]
    refine (Out.ext_of_err _ _ ?_).symm
    rw [← hcount]
    exact hpe.symm.trans h2
  · rw [hF, hR]
    refine (Out.ext_of_err _ _ ?_).symm
    rw [← hfc]
    exact hfe.symm.trans h5

/-! ## Decoding sinks -/

/-- C7: when `Sink.ReadFrom` succeeds (it returns `o` without error), the reader
held the uint32 tag and four count bytes after the header fields and the uint8
tag and one count byte after the active-port stage; `Ports` has as many elements as the 32-bit count says
and `Formats` as many as the 8-bit count says, and they are the in-order
decodes of exactly that many records (the counter loops, whose counters wrap
modulo 2^32 and 2^8, decode each element once). -/
theorem Sink.ReadFrom_counts (P : Proto) (s : Sink P) (r : Reader) (n : Int)
    (o : Out (Sink P)) (hrun : Sink.ReadFrom P s r = some (n, o)) (hok : o.err = none) :
    ∃ b0 b1 b2 b3 b,
      (Sink.readFields P s r).rest =
        P.uint32Tag :: b0 :: b1 :: b2 :: b3 :: (Sink.readHeader P s r).rest ∧
      (Sink.stageActivePort P s r).rest =
        P.uint8Tag :: b :: (Sink.stageFormatCount P s r).rest ∧
      o.val.Ports.length = beNat [b0, b1, b2, b3] ∧
      o.val.Formats.length = b.val ∧
      readInto (sinkPort.read P) (List.replicate (beNat [b0, b1, b2, b3]) sinkPort.zero)
          (Sink.readHeader P s r).rest =
        ⟨none, o.val.Ports, (Sink.stagePorts P s r).rest⟩ ∧
      readInto (extRead P.readFormatInfo) (List.replicate b.val P.zeroFormatInfo)
          (Sink.stageFormatCount P s r).rest =
        ⟨none, o.val.Formats, o.rest⟩ ∧
      readElems P 32 (sinkPort.read P) sinkPort.zero (beNat [b0, b1, b2, b3]) (2 ^ 32) 0
          (List.replicate (beNat [b0, b1, b2, b3]) sinkPort.zero) (Sink.readHeader P s r).rest =
        readInto (sinkPort.read P) (List.replicate (beNat [b0, b1, b2, b3]) sinkPort.zero)
          (Sink.readHeader P s r).rest ∧
      readElems P 8 (extRead P.readFormatInfo) P.zeroFormatInfo b.val (2 ^ 8) 0
          (List.replicate b.val P.zeroFormatInfo) (Sink.stageFormatCount P s r).rest =
        readInto (extRead P.readFormatInfo) (List.replicate b.val P.zeroFormatInfo)
          (Sink.stageFormatCount P s r).rest := by
  have hx := Sink.ReadFrom_some P s r _ hrun
  have ho : o = (Sink.stagesRun P s r).2 := congrArg Prod.snd hx
  subst ho
  obtain ⟨b0, b1, b2, b3, b, h1, h2, h3, h4, h5, h6⟩ := Sink.stagesRun_ok_lists P s r hok
  refine ⟨b0, b1, b2, b3, b, h1, h2, h3, h4, h5, h6, ?_, ?_⟩
  · have hlt := beNat_lt [b0, b1, b2, b3]
    have e : 256 ^ [b0, b1, b2, b3].length = 2 ^ 32 := by norm_num
    rw [e] at hlt
    exact readElems_fuel P 32 _ _ _ hlt _ _ (List.length_replicate _ _)
  · exact readElems_fuel P 8 _ _ _ b.isLt _ _ (List.length_replicate _ _)

/-- C7 on a sink record of `Proto.sample` with no port and 255 formats, the largest
8-bit count. -/
theorem Sink.ReadFrom_counts_witness :
    Sink.ReadFrom Proto.sample (Sink.zero Proto.sample) sampleMaxFormatsBytes =
        some (0, ⟨none, sampleMaxFormatsSink, []⟩) ∧
    sampleMaxFormatsSink.Formats.length = 255 ∧
    ∃ b0 b1 b2 b3 b,
      (Sink.readFields Proto.sample (Sink.zero Proto.sample) sampleMaxFormatsBytes).rest =
        Proto.sample.uint32Tag :: b0 :: b1 :: b2 :: b3 ::
          (Sink.readHeader Proto.sample (Sink.zero Proto.sample) sampleMaxFormatsBytes).rest ∧
      (Sink.stageActivePort Proto.sample (Sink.zero Proto.sample) sampleMaxFormatsBytes).rest =
        Proto.sample.uint8Tag :: b ::
          (Sink.stageFormatCount Proto.sample (Sink.zero Proto.sample)
            sampleMaxFormatsBytes).rest ∧
      sampleMaxFormatsSink.Ports.length = beNat [b0, b1, b2, b3] ∧
      sampleMaxFormatsSink.Formats.length = b.val := by
  have hrun : Sink.ReadFrom Proto.sample (Sink.zero Proto.sample) sampleMaxFormatsBytes =
      some (0, ⟨none, sampleMaxFormatsSink, []⟩) := by rfl
  obtain ⟨b0, b1, b2, b3, b, h1, h2, h3, h4, _⟩ :=
    Sink.ReadFrom_counts Proto.sample (Sink.zero Proto.sample) sampleMaxFormatsBytes 0
      ⟨none, sampleMaxFormatsSink, []⟩ hrun rfl
  exact ⟨hrun, by decide, b0, b1, b2, b3, b, h1, h2, h3, h4⟩

/-- C5: on a successful `Sink.ReadFrom` (it returns `o` without error) with
declared port count `N` (`portCount` after the header stage).  If `N = 0`, the reader after the port
count holds the null-string tag and directly after it the uint8 tag of the
format count and the count byte: one byte is taken in between; `Ports` is empty
and `ActivePortName` is what it was before the call, the empty string for the
zero `Sink`.  If `N > 0`, exactly `N` `sinkPort` records are decoded from the
reader after the port count, then the string tag, a string without zero byte
and its terminating zero byte are taken, directly followed by the format
count; that string is `ActivePortName`. -/
theorem Sink.ReadFrom_activePort (P : Proto) (s : Sink P) (r : Reader) (n : Int)
    (o : Out (Sink P)) (hrun : Sink.ReadFrom P s r = some (n, o)) (hok : o.err = none) :
    ((Sink.readHeader P s r).val.2 = 0 →
      ∃ b, (Sink.readHeader P s r).rest =
          P.stringNullTag :: P.uint8Tag :: b :: (Sink.stageFormatCount P s r).rest ∧
        o.val.Ports = [] ∧
        o.val.ActivePortName = s.ActivePortName ∧
        (s = Sink.zero P → o.val.ActivePortName = [])) ∧
    (0 < (Sink.readHeader P s r).val.2 →
      ∃ name b,
        readInto (sinkPort.read P)
            (List.replicate (Sink.readHeader P s r).val.2 sinkPort.zero)
            (Sink.readHeader P s r).rest =
          ⟨none, o.val.Ports,
            P.stringTag ::
              (name ++ 0 :: P.uint8Tag :: b :: (Sink.stageFormatCount P s r).rest)⟩ ∧
        o.val.Ports.length = (Sink.readHeader P s r).val.2 ∧
        (0 : Byte) ∉ name ∧
        o.val.ActivePortName = name) := by
  have hx := Sink.ReadFrom_some P s r _ hrun
  have ho : o = (Sink.stagesRun P s r).2 := congrArg Prod.snd hx
  subst ho
  obtain ⟨g1, g2, g3, g4, g5, hfin⟩ := Sink.stagesRun_ok P s r hok
  obtain ⟨b0, b1, b2, b3, b, h1, h2, h3, h4, h5, h6⟩ := Sink.stagesRun_ok_lists P s r hok
  obtain ⟨_, c0, c1, c2, c3, hr, hv⟩ := Sink.readHeader_ok P s r g1
  have hcount : (Sink.readHeader P s r).val.2 = beNat [b0, b1, b2, b3] := by
    rw [hv]
    have := hr.symm.trans h1
    simp only [List.cons.injEq] at this
    obtain ⟨_, e0, e1, e2, e3, _⟩ := this
    rw [e0, e1, e2, e3]
  obtain ⟨b', hb', hc⟩ := Sink.readFormatCount_ok P _ _ g4
  have hfs : (Sink.stageFormatCount P s r).val.1 = (Sink.stageActivePort P s r).val :=
    congrArg Prod.fst hc
  have hapn : (Sink.stagesRun P s r).2.val.ActivePortName =
      (Sink.stageActivePort P s r).val.ActivePortName := by
    have e1 : (Sink.stageFormats P s r).val.ActivePortName =
        (Sink.stageFormatCount P s r).val.1.ActivePortName := rfl
    have e2 : (Sink.stageFormatCount P s r).val.1.ActivePortName =
        (Sink.stageActivePort P s r).val.ActivePortName := by rw [hfs]
    rw [hfin, e1, e2]
  have hkeep := (Sink.readHeader_keeps P s r).2.1
  constructor
  · intro h0
    have h3z : (Sink.readActivePort P (Sink.stagePorts P s r).val 0
        (Sink.stagePorts P s r).rest).err = none := by
      have := g3
      unfold Sink.stageActivePort at this
      rwa [h0] at this
    obtain ⟨hz1, hz2⟩ := Sink.readActivePort_zero_ok P _ _ h3z
    have hsa : Sink.stageActivePort P s r =
        Sink.readActivePort P (Sink.stagePorts P s r).val 0 (Sink.stagePorts P s r).rest := by
      unfold Sink.stageActivePort
      rw [h0]
    rw [← hsa] at hz1 hz2
    rw [← hcount, h0] at h5
    simp only [List.replicate, readInto, Out.mk.injEq, true_and] at h5
    obtain ⟨hP, hR⟩ := h5
    have hA : (Sink.stagesRun P s r).2.val.ActivePortName = s.ActivePortName := by
      rw [hapn, hz2]
      exact hkeep
    refine ⟨b, ?_, hP.symm, hA, ?_⟩
    · rw [hR, hz1, h2]
    · intro hs
      rw [hA, hs]
      rfl
  · intro hpos
    obtain ⟨name, hn1, hn2, hn3⟩ := Sink.readActivePort_pos_ok P (Sink.stagePorts P s r).val
      (Sink.readHeader P s r).val.2 (by omega) (Sink.stagePorts P s r).rest g3
    have hsa : Sink.stageActivePort P s r =
        Sink.readActivePort P (Sink.stagePorts P s r).val (Sink.readHeader P s r).val.2
          (Sink.stagePorts P s r).rest := rfl
    rw [← hsa] at hn1 hn3
    refine ⟨name, b, ?_, ?_, hn2, ?_⟩
    · rw [hcount, h5, hn1, h2]
    · rw [h3, hcount]
    · rw [hapn, hn3]

/-- C5 on two records of `Proto.sample`: one without ports, one with two ports and
the active port name "h". -/
theorem Sink.ReadFrom_activePort_witness :
    Sink.ReadFrom Proto.sample (Sink.zero Proto.sample) sampleSinkBytes =
        some (0, ⟨none, sampleSink, []⟩) ∧
    sampleSink.ActivePortName = [] ∧
    Sink.ReadFrom Proto.sample (Sink.zero Proto.sample) samplePortSinkBytes =
        some (0, ⟨none, samplePortSink, []⟩) ∧
    ∃ name b,
      readInto (sinkPort.read Proto.sample) (List.replicate
          (Sink.readHeader Proto.sample (Sink.zero Proto.sample) samplePortSinkBytes).val.2
          sinkPort.zero)
          (Sink.readHeader Proto.sample (Sink.zero Proto.sample) samplePortSinkBytes).rest =
        ⟨none, samplePortSink.Ports,
          Proto.sample.stringTag :: (name ++ 0 :: Proto.sample.uint8Tag :: b ::
            (Sink.stageFormatCount Proto.sample (Sink.zero Proto.sample)
              samplePortSinkBytes).rest)⟩ ∧
      samplePortSink.Ports.length =
        (Sink.readHeader Proto.sample (Sink.zero Proto.sample) samplePortSinkBytes).val.2 ∧
      (0 : Byte) ∉ name ∧
      samplePortSink.ActivePortName = name :=
  ⟨by rfl,
    (((Sink.ReadFrom_activePort Proto.sample (Sink.zero Proto.sample) sampleSinkBytes 0
      ⟨none, sampleSink, []⟩ (by rfl) rfl).1 (by decide)).choose_spec).2.2.2 rfl,
    by rfl,
    (Sink.ReadFrom_activePort Proto.sample (Sink.zero Proto.sample) samplePortSinkBytes 0
      ⟨none, samplePortSink, []⟩ (by rfl) rfl).2 (by decide)⟩

/-! ## The query loops -/

theorem Sink.ReadFrom_nil (P : Proto) (s : Sink P) :
    Sink.ReadFrom P s [] = some (0, ⟨some Err.Truncated, s, []⟩) := rfl

theorem Sink.Encodes.ne_nil {P : Proto} {e : List Byte} {v : Sink P}
    (h : Sink.Encodes P e v) : e ≠ [] := by
  intro he
  subst he
  have := h []
  rw [List.append_nil, Sink.ReadFrom_nil] at this
  cases this

theorem breadInto_eq_some {S : Type} (read : S → Reader → Option (Int × Out S)) (s : S)
    (r : Reader) (o : Out S) :
    breadInto read s r = some o ↔ ∃ n, read s r = some (n, o) := by
  unfold breadInto
  constructor
  · intro h
    obtain ⟨x, hx, ho⟩ := Option.map_eq_some'.mp h
    exact ⟨x.1, by rw [hx, ← ho]⟩
  · rintro ⟨n, hn⟩
    rw [hn]
    rfl

theorem breadInto_eq_none {S : Type} (read : S → Reader → Option (Int × Out S)) (s : S)
    (r : Reader) : breadInto read s r = none ↔ read s r = none := by
  unfold breadInto
  exact Option.map_eq_none'

theorem Client.sinksLoop_step_ok (P : Proto) (fuel : Nat) (sinks : List (Sink P))
    (b : Reader) (hb : b ≠ []) (v : Sink P) (rest : Reader)
    (h : breadInto (Sink.ReadFrom P) (Sink.zero P) b = some ⟨none, v, rest⟩) :
    Client.sinksLoop P (fuel + 1) sinks b = Client.sinksLoop P fuel (sinks ++ [v]) rest := by
  have hl : b.length > 0 := List.length_pos.mpr hb
  simp only [Client.sinksLoop, if_pos hl, h]

theorem Client.sinksLoop_step_err (P : Proto) (fuel : Nat) (sinks : List (Sink P))
    (b : Reader) (hb : b ≠ []) (o : Out (Sink P)) (e : Err)
    (h : breadInto (Sink.ReadFrom P) (Sink.zero P) b = some o) (he : o.err = some e) :
    Client.sinksLoop P (fuel + 1) sinks b = some ([], some e) := by
  have hl : b.length > 0 := List.length_pos.mpr hb
  simp only [Client.sinksLoop, if_pos hl, h, he]

theorem Client.sinksLoop_step_none (P : Proto) (fuel : Nat) (sinks : List (Sink P))
    (b : Reader) (hb : b ≠ [])
    (h : breadInto (Sink.ReadFrom P) (Sink.zero P) b = none) :
    Client.sinksLoop P (fuel + 1) sinks b = none := by
  have hl : b.length > 0 := List.length_pos.mpr hb
  simp only [Client.sinksLoop, if_pos hl, h]

/-- The loop on valid encodings followed by `tail`: it decodes them in order and
goes on with `tail`. -/
theorem Client.sinksLoop_concat (P : Proto) (recs : List (List Byte × Sink P))
    (h : ∀ p ∈ recs, Sink.Encodes P p.1 p.2) (fuel : Nat) (sinks : List (Sink P))
    (tail : Reader) :
    Client.sinksLoop P (fuel + recs.length) sinks ((recs.map Prod.fst).flatten ++ tail) =
      Client.sinksLoop P fuel (sinks ++ recs.map Prod.snd) tail := by
  induction recs generalizing sinks with
  | nil => simp
  | cons p recs ih =>
    have hp := h p (List.mem_cons_self _ _)
    have hne : p.1 ++ ((recs.map Prod.fst).flatten ++ tail) ≠ [] := by
      intro h0
      exact hp.ne_nil (List.append_eq_nil.mp h0).1
    rw [List.length_cons, ← Nat.add_assoc, List.map_cons, List.flatten_cons,
      List.append_assoc,
      Client.sinksLoop_step_ok P _ sinks _ hne p.2 _ (hp _),
      ih (fun q hq => h q (List.mem_cons_of_mem _ hq))]
    simp

theorem Client.flatten_length_ge (P : Proto) (recs : List (List Byte × Sink P))
    (h : ∀ p ∈ recs, Sink.Encodes P p.1 p.2) :
    recs.length ≤ ((recs.map Prod.fst).flatten).length := by
  induction recs with
  | nil => simp
  | cons p recs ih =>
    have hp := (h p (List.mem_cons_self _ _)).ne_nil
    have := ih (fun q hq => h q (List.mem_cons_of_mem _ hq))
    have hl : 0 < p.1.length := List.length_pos.mpr hp
    simp only [List.map_cons, List.flatten_cons, List.length_append, List.length_cons]
    omega

/-- C4: on a response buffer that is the concatenation of `n` valid `Sink`
encodings with no trailing bytes, `Sinks` returns no error and the `n` decoded
sinks in order; in particular the empty buffer gives the empty list. -/
theorem Client.Sinks_concat (P : Proto) (recs : List (List Byte × Sink P))
    (h : ∀ p ∈ recs, Sink.Encodes P p.1 p.2) :
    Client.Sinks P (.ok (recs.map Prod.fst).flatten) = some (recs.map Prod.snd, none) ∧
      (Client.Sinks P (.ok (recs.map Prod.fst).flatten)).map (fun x => x.1.length) =
        some recs.length := by
  have key : Client.Sinks P (.ok (recs.map Prod.fst).flatten) =
      some (recs.map Prod.snd, none) := by
    have hlen := Client.flatten_length_ge P recs h
    obtain ⟨k, hk⟩ : ∃ k, (recs.map Prod.fst).flatten.length + 1 = (k + 1) + recs.length :=
      ⟨(recs.map Prod.fst).flatten.length - recs.length, by omega⟩
    have := Client.sinksLoop_concat P recs h (k + 1) [] []
    rw [List.append_nil] at this
    simp only [Client.Sinks]
    rw [hk, this]
    simp [Client.sinksLoop]
  exact ⟨key, by rw [key]; simp⟩

/-! ## Readers only advance -/

theorem Item.shrinks_tag {S : Type} (P : Proto) (t : Byte) :
    Item.Shrinks P (Item.tag t : Item S) := by
  intro s r
  cases r with
  | nil => exact Nat.le_refl _
  | cons b r1 =>
    simp only [breadItem]
    split <;> exact Nat.le_succ _

theorem readUint_shrinks {S : Type} (w : Nat) (set : S → Nat → S) (s : S) (r : Reader) :
    (readUint w set s r).rest.length ≤ r.length := by
  unfold readUint
  split
  · exact Nat.zero_le _
  · simp only [List.length_drop]
    exact Nat.sub_le _ _

theorem Item.shrinks_u8 {S : Type} (P : Proto) (set : S → Nat → S) :
    Item.Shrinks P (Item.u8 set) :=
  fun s r => readUint_shrinks 1 set s r

theorem Item.shrinks_u32 {S : Type} (P : Proto) (set : S → Nat → S) :
    Item.Shrinks P (Item.u32 set) :=
  fun s r => readUint_shrinks 4 set s r

theorem Item.shrinks_u64 {S : Type} (P : Proto) (set : S → Nat → S) :
    Item.Shrinks P (Item.u64 set) :=
  fun s r => readUint_shrinks 8 set s r

theorem Item.shrinks_str {S : Type} (P : Proto) (set : S → Str → S) :
    Item.Shrinks P (Item.str set) := by
  intro s r
  cases hr : readString r with
  | none =>
    simp only [breadItem, hr]
    exact Nat.zero_le _
  | some q =>
    obtain ⟨v, r1⟩ := q
    obtain ⟨h1, _⟩ := readString_some r v r1 hr
    simp only [breadItem, hr]
    rw [h1, List.length_append, List.length_cons]
    omega

theorem Item.shrinks_bool {S : Type} (P : Proto) (set : S → Bool → S) :
    Item.Shrinks P (Item.bool set) := by
  intro s r
  cases r with
  | nil => exact Nat.le_refl _
  | cons b r1 =>
    simp only [breadItem]
    split <;> exact Nat.le_succ _

theorem Item.shrinks_field {S α : Type} (P : Proto) (read : α → Reader → Out α)
    (get : S → α) (set : S → α → S) (h : ∀ a r, (read a r).rest.length ≤ r.length) :
    Item.Shrinks P (Item.field read get set) :=
  fun _ _ => h _ _

theorem extRead_shrinks {α : Type} (read : α → Reader → Option Err × α × Nat) (a : α)
    (r : Reader) : (extRead read a r).rest.length ≤ r.length := by
  unfold extRead
  simp only [List.length_drop]
  exact Nat.sub_le _ _

theorem bread_shrinks {S : Type} (P : Proto) (items : List (Item S))
    (h : ∀ it ∈ items, Item.Shrinks P it) (s : S) (r : Reader) :
    (bread P items s r).rest.length ≤ r.length := by
  induction items generalizing s r with
  | nil => exact Nat.le_refl _
  | cons it its ih =>
    have hit := h it (List.mem_cons_self _ _) s r
    cases he : (breadItem P it s r).err with
    | none =>
      rw [bread_cons_of_ok P it its s r he]
      exact Nat.le_trans (ih (fun x hx => h x (List.mem_cons_of_mem _ hx)) _ _) hit
    | some e =>
      rw [bread_cons_of_err P it its s r e he]
      exact hit

theorem sinkPort.read_shrinks (P : Proto) (p : sinkPort) (r : Reader) :
    (sinkPort.read P p r).rest.length ≤ r.length := by
  unfold sinkPort.read sinkPort.ReadFrom
  refine bread_shrinks P _ ?_ p r
  simp only [List.forall_mem_cons]
  refine ⟨?_, ?_, ?_, ?_, ?_, ?_, ?_, ?_, ?_⟩ <;>
  first
    | exact Item.shrinks_tag P _
    | exact Item.shrinks_u32 P _
    | exact Item.shrinks_str P _
    | exact fun _ h => absurd h (List.not_mem_nil _)

theorem readElems_shrinks {α : Type} (P : Proto) (w : Nat) (read : α → Reader → Out α)
    (zero : α) (n : Nat) (h : ∀ a r, (read a r).rest.length ≤ r.length) (fuel i : Nat)
    (xs : List α) (r : Reader) :
    (readElems P w read zero n fuel i xs r).rest.length ≤ r.length := by
  induction fuel generalizing i xs r with
  | zero => exact Nat.le_refl _
  | succ fuel ih =>
    unfold readElems
    split
    · have hb : (bread P [elemItem read zero i] xs r).rest.length ≤ r.length := by
        rw [bread_single]
        exact Item.shrinks_field P read _ _ h xs r
      simp only []
      split
      · exact hb
      · exact Nat.le_trans (ih _ _ _) hb
    · exact Nat.le_refl _

theorem Sink.headerItems_shrink (P : Proto) : ∀ it ∈ Sink.headerItems P, Item.Shrinks P it := by
  simp only [Sink.headerItems, List.forall_mem_cons]
  refine ⟨?_, ?_, ?_, ?_, ?_, ?_, ?_, ?_, ?_, ?_, ?_, ?_, ?_, ?_, ?_, ?_, ?_, ?_, ?_, ?_,
    ?_, ?_, ?_, ?_, ?_, ?_, ?_, ?_, ?_, ?_, ?_, ?_, ?_, ?_, ?_, ?_⟩ <;>
  first
    | exact Item.shrinks_tag P _
    | exact Item.shrinks_u32 P _
    | exact Item.shrinks_u64 P _
    | exact Item.shrinks_str P _
    | exact Item.shrinks_bool P _
    | exact Item.shrinks_field P _ _ _ (extRead_shrinks _)
    | exact fun _ h => absurd h (List.not_mem_nil _)

/-- A successful header stage takes at least one byte. -/
theorem Sink.readHeader_lt (P : Proto) (s : Sink P) (r : Reader)
    (h : (Sink.readHeader P s r).err = none) :
    (Sink.readHeader P s r).rest.length < r.length := by
  unfold Sink.readHeader at h ⊢
  have hsh := Sink.headerItems_shrink P
  unfold Sink.headerItems at h hsh ⊢
  cases ht : (breadItem P (Item.tag P.uint32Tag) (s, 0) r).err with
  | some e =>
    rw [bread_cons_of_err P _ _ _ _ e ht, ht] at h
    cases h
  | none =>
    obtain ⟨r1, hr, h0⟩ := breadItem_tag_ok P P.uint32Tag (s, 0) r ht
    rw [bread_cons_of_ok P _ _ _ _ ht, h0]
    have := bread_shrinks P _ (fun it hit => hsh it (List.mem_cons_of_mem _ hit)) (s, 0) r1
    rw [hr, List.length_cons]
    exact Nat.lt_succ_of_le this

theorem Sink.readActivePort_shrinks (P : Proto) (s : Sink P) (n : Nat) (r : Reader) :
    (Sink.readActivePort P s n r).rest.length ≤ r.length := by
  unfold Sink.readActivePort
  split
  · refine bread_shrinks P _ ?_ s r
    simp only [List.forall_mem_cons]
    exact ⟨Item.shrinks_tag P _, fun _ h => absurd h (List.not_mem_nil _)⟩
  · refine bread_shrinks P _ ?_ s r
    simp only [List.forall_mem_cons]
    exact ⟨Item.shrinks_tag P _, Item.shrinks_str P _,
      fun _ h => absurd h (List.not_mem_nil _)⟩

theorem Sink.readFormatCount_shrinks (P : Proto) (s : Sink P) (r : Reader) :
    (Sink.readFormatCount P s r).rest.length ≤ r.length := by
  unfold Sink.readFormatCount
  refine bread_shrinks P _ ?_ (s, 0) r
  simp only [List.forall_mem_cons]
  exact ⟨Item.shrinks_tag P _, Item.shrinks_u8 P _, fun _ h => absurd h (List.not_mem_nil _)⟩

/-- A successful run of the stages leaves fewer unread bytes than it found. -/
theorem Sink.stagesRun_lt (P : Proto) (s : Sink P) (r : Reader)
    (hok : (Sink.stagesRun P s r).2.err = none) :
    (Sink.stagesRun P s r).2.rest.length < r.length := by
  obtain ⟨h1, _, _, _, _, hfin⟩ := Sink.stagesRun_ok P s r hok
  rw [hfin]
  have hh := Sink.readHeader_lt P s r h1
  have hp : (Sink.stagePorts P s r).rest.length ≤ (Sink.readHeader P s r).rest.length :=
    readElems_shrinks P 32 _ _ _ (sinkPort.read_shrinks P) _ _ _ _
  have ha : (Sink.stageActivePort P s r).rest.length ≤ (Sink.stagePorts P s r).rest.length :=
    Sink.readActivePort_shrinks P _ _ _
  have hc : (Sink.stageFormatCount P s r).rest.length ≤
      (Sink.stageActivePort P s r).rest.length := Sink.readFormatCount_shrinks P _ _
  have hf : (Sink.stageFormats P s r).rest.length ≤ (Sink.stageFormatCount P s r).rest.length :=
    readElems_shrinks P 8 _ _ _ (extRead_shrinks _) _ _ _ _
  omega

/-- A successful `sinkPort` decode takes at least one byte, the tag of the name. -/
theorem sinkPort.read_lt (P : Proto) (p : sinkPort) (r : Reader)
    (h : (sinkPort.read P p r).err = none) : (sinkPort.read P p r).rest.length < r.length := by
  unfold sinkPort.read sinkPort.ReadFrom at h ⊢
  simp only [] at h ⊢
  cases ht : (breadItem P (Item.tag P.stringTag) p r).err with
  | some e =>
    rw [bread_cons_of_err P _ _ _ _ e ht, ht] at h
    cases h
  | none =>
    obtain ⟨r1, hr, h0⟩ := breadItem_tag_ok P P.stringTag p r ht
    rw [bread_cons_of_ok P _ _ _ _ ht, h0]
    have hsh := bread_shrinks P
      [Item.str (fun (p : sinkPort) v => { p with Name := v }),
       Item.tag P.stringTag, Item.str (fun p v => { p with Description := v }),
       Item.tag P.uint32Tag, Item.u32 (fun p v => { p with Pririty := v }),
       Item.tag P.uint32Tag, Item.u32 (fun p v => { p with Available := v })]
      (by
        simp only [List.forall_mem_cons]
        refine ⟨?_, ?_, ?_, ?_, ?_, ?_, ?_, ?_⟩ <;>
        first
          | exact Item.shrinks_tag P _
          | exact Item.shrinks_u32 P _
          | exact Item.shrinks_str P _
          | exact fun _ h => absurd h (List.not_mem_nil _)) p r1
    rw [hr, List.length_cons]
    exact Nat.lt_succ_of_le hsh

/-- Elements decoded in a row without error take at least one byte each, when a
successful element decode takes at least one byte. -/
theorem readInto_ok_length {α : Type} (read : α → Reader → Out α)
    (h : ∀ a r, (read a r).err = none → (read a r).rest.length < r.length)
    (xs : List α) (r : Reader) (hok : (readInto read xs r).err = none) :
    xs.length + (readInto read xs r).rest.length ≤ r.length := by
  induction xs generalizing r with
  | nil => simp [readInto]
  | cons x xs ih =>
    cases he : (read x r).err with
    | some e =>
      simp only [readInto, he] at hok
      cases hok
    | none =>
      simp only [readInto, he] at hok ⊢
      have h1 := h x r he
      have h2 := ih _ hok
      rw [List.length_cons]
      omega

/-- When the port loop of a run succeeds, the stream held a record for each
declared port, so the allocation of line 58 returned. -/
theorem Sink.makes_of_ports_ok (P : Proto) (s : Sink P) (r : Reader)
    (hh : (Sink.readHeader P s r).err = none) (hp : (Sink.stagePorts P s r).err = none) :
    Sink.makes P (Sink.readHeader P s r).val.2 (Sink.readHeader P s r).rest = true := by
  refine Sink.makes_of_le P _ _ ?_
  have hN := Sink.portCount_lt P s r hh
  obtain ⟨hpe, _, _⟩ := Sink.loopPorts_proj P (Sink.readHeader P s r).val.1 _ hN
    (Sink.readHeader P s r).rest
  have hok : (readInto (sinkPort.read P)
      (List.replicate (Sink.readHeader P s r).val.2 sinkPort.zero)
      (Sink.readHeader P s r).rest).err = none := hpe.symm.trans hp
  have := readInto_ok_length (sinkPort.read P) (sinkPort.read_lt P) _ _ hok
  rw [List.length_replicate] at this
  omega

/-- A run whose stages all succeed returns: it does not end inside `make`. -/
theorem Sink.ReadFrom_of_stagesRun_ok (P : Proto) (s : Sink P) (r : Reader)
    (hok : (Sink.stagesRun P s r).2.err = none) :
    Sink.ReadFrom P s r = some (Sink.stagesRun P s r) := by
  obtain ⟨h1, h2, _⟩ := Sink.stagesRun_ok P s r hok
  exact Sink.ReadFrom_of_makes P s r (Sink.makes_of_ports_ok P s r h1 h2)

/-- A `Sink.ReadFrom` that returns no error leaves fewer unread bytes than it
found. -/
theorem Sink.ReadFrom_lt (P : Proto) (s : Sink P) (r : Reader) (o : Out (Sink P))
    (h : breadInto (Sink.ReadFrom P) s r = some o) (hok : o.err = none) :
    o.rest.length < r.length := by
  obtain ⟨n, hn⟩ := (breadInto_eq_some _ _ _ _).mp h
  have ho : o = (Sink.stagesRun P s r).2 := congrArg Prod.snd (Sink.ReadFrom_some P s r _ hn)
  subst ho
  exact Sink.stagesRun_lt P s r hok

/-- The bound on loop tests in `Client.Sinks` is never reached: with more than
`len(b)` tests allowed the loop gives the same result whatever the bound. -/
theorem Client.sinksLoop_fuel (P : Proto) (fuel1 fuel2 : Nat) (sinks : List (Sink P))
    (b : Reader) (h1 : b.length < fuel1) (h2 : b.length < fuel2) :
    Client.sinksLoop P fuel1 sinks b = Client.sinksLoop P fuel2 sinks b := by
  induction fuel1 generalizing fuel2 sinks b with
  | zero => omega
  | succ f1 ih =>
    cases fuel2 with
    | zero => omega
    | succ f2 =>
      by_cases hb : b = []
      · subst hb
        simp [Client.sinksLoop]
      · cases hd : breadInto (Sink.ReadFrom P) (Sink.zero P) b with
        | none =>
          rw [Client.sinksLoop_step_none P f1 sinks b hb hd,
            Client.sinksLoop_step_none P f2 sinks b hb hd]
        | some o =>
          cases he : o.err with
          | some e =>
            rw [Client.sinksLoop_step_err P f1 sinks b hb o e hd he,
              Client.sinksLoop_step_err P f2 sinks b hb o e hd he]
          | none =>
            have hlt := Sink.ReadFrom_lt P (Sink.zero P) b o hd he
            have hd1 : breadInto (Sink.ReadFrom P) (Sink.zero P) b =
                some ⟨none, o.val, o.rest⟩ := by
              rw [hd, Out.ext_of_err o none he]
            rw [Client.sinksLoop_step_ok P f1 sinks b hb _ _ hd1,
              Client.sinksLoop_step_ok P f2 sinks b hb _ _ hd1]
            exact ih f2 _ _ (by omega) (by omega)

/-! ## Decoding what the reference encoder wrote -/

theorem readUint_append {S : Type} (w : Nat) (set : S → Nat → S) (s : S) (bs r : List Byte)
    (h : bs.length = w) : readUint w set s (bs ++ r) = ⟨none, set s (beNat bs), r⟩ := by
  unfold readUint
  rw [if_neg (by rw [List.length_append]; omega)]
  subst h
  simp

theorem readUint_beBytes {S : Type} (w : Nat) (set : S → Nat → S) (s : S) (x : Nat)
    (r : List Byte) (h : x < 256 ^ w) :
    readUint w set s (beBytes w x ++ r) = ⟨none, set s x, r⟩ := by
  rw [readUint_append w set s _ r (beBytes_length w x), beNat_beBytes_of_lt w x h]

theorem breadItem_tag_cons {S : Type} (P : Proto) (t : Byte) (s : S) (r : Reader) :
    breadItem P (Item.tag t) s (t :: r) = ⟨none, s, r⟩ := by
  simp [breadItem]

theorem bread_tag_cons {S : Type} (P : Proto) (t : Byte) (its : List (Item S)) (s : S)
    (r : Reader) : bread P (Item.tag t :: its) s (t :: r) = bread P its s r := by
  rw [bread_cons_of_ok P _ _ _ _ (by rw [breadItem_tag_cons]), breadItem_tag_cons]

theorem bread_u8_put {S : Type} (P : Proto) (t : Byte) (set : S → Nat → S)
    (its : List (Item S)) (s : S) (x : Nat) (r : Reader) (h : x < 2 ^ 8) :
    bread P (Item.tag t :: Item.u8 set :: its) s (putUint t 1 x ++ r) =
      bread P its (set s x) r := by
  have hx : x < 256 ^ 1 := by simpa using h
  have hb : breadItem P (Item.u8 set) s (beBytes 1 x ++ r) = ⟨none, set s x, r⟩ :=
    readUint_beBytes 1 set s x r hx
  rw [putUint, List.cons_append, bread_tag_cons,
    bread_cons_of_ok P _ _ _ _ (by rw [hb]), hb]

theorem bread_u32_put {S : Type} (P : Proto) (t : Byte) (set : S → Nat → S)
    (its : List (Item S)) (s : S) (x : Nat) (r : Reader) (h : x < 2 ^ 32) :
    bread P (Item.tag t :: Item.u32 set :: its) s (putUint t 4 x ++ r) =
      bread P its (set s x) r := by
  have hx : x < 256 ^ 4 := by simpa using h
  have hb : breadItem P (Item.u32 set) s (beBytes 4 x ++ r) = ⟨none, set s x, r⟩ :=
    readUint_beBytes 4 set s x r hx
  rw [putUint, List.cons_append, bread_tag_cons,
    bread_cons_of_ok P _ _ _ _ (by rw [hb]), hb]

theorem bread_u64_put {S : Type} (P : Proto) (t : Byte) (set : S → Nat → S)
    (its : List (Item S)) (s : S) (x : Nat) (r : Reader) (h : x < 2 ^ 64) :
    bread P (Item.tag t :: Item.u64 set :: its) s (putUint t 8 x ++ r) =
      bread P its (set s x) r := by
  have hx : x < 256 ^ 8 := by simpa using h
  have hb : breadItem P (Item.u64 set) s (beBytes 8 x ++ r) = ⟨none, set s x, r⟩ :=
    readUint_beBytes 8 set s x r hx
  rw [putUint, List.cons_append, bread_tag_cons,
    bread_cons_of_ok P _ _ _ _ (by rw [hb]), hb]

theorem readString_append (x : Str) (r : Reader) (h : (0 : Byte) ∉ x) :
    readString (x ++ 0 :: r) = some (x, r) := by
  induction x with
  | nil => simp [readString]
  | cons b x ih =>
    have hb : b ≠ 0 := fun h0 => h (by rw [h0]; exact List.mem_cons_self _ _)
    have hx : (0 : Byte) ∉ x := fun h0 => h (List.mem_cons_of_mem _ h0)
    rw [List.cons_append, readString, if_neg hb, ih hx]

theorem bread_str_put {S : Type} (P : Proto) (t : Byte) (set : S → Str → S)
    (its : List (Item S)) (s : S) (x : Str) (r : Reader) (h : (0 : Byte) ∉ x) :
    bread P (Item.tag t :: Item.str set :: its) s (putString t x ++ r) =
      bread P its (set s x) r := by
  have hb : breadItem P (Item.str set) s (x ++ 0 :: r) = ⟨none, set s x, r⟩ := by
    simp only [breadItem, readString_append x r h]
  rw [putString, List.cons_append, List.append_assoc, List.singleton_append, bread_tag_cons,
    bread_cons_of_ok P _ _ _ _ (by rw [hb]), hb]

theorem bread_bool_put {S : Type} (P : Proto) (set : S → Bool → S) (its : List (Item S))
    (s : S) (b : Byte) (x : Bool) (r : Reader) (h : P.boolOf b = some x) :
    bread P (Item.bool set :: its) s (b :: r) = bread P its (set s x) r := by
  have hb : breadItem P (Item.bool set) s (b :: r) = ⟨none, set s x, r⟩ := by
    simp only [breadItem, h]
  rw [bread_cons_of_ok P _ _ _ _ (by rw [hb]), hb]

theorem extRead_inverts {α : Type} (read : α → Reader → Option Err × α × Nat) (z : α)
    (e : List Byte) (x : α) (h : Inverts read z e x) (r : Reader) :
    extRead read z (e ++ r) = ⟨none, x, r⟩ := by
  unfold extRead
  simp only [h r, List.drop_left]

theorem bread_field_put {S α : Type} (P : Proto) (read : α → Reader → Option Err × α × Nat)
    (get : S → α) (set : S → α → S) (its : List (Item S)) (s : S) (z : α) (e : List Byte)
    (x : α) (r : Reader) (h : Inverts read z e x) (hz : get s = z) :
    bread P (Item.field (extRead read) get set :: its) s (e ++ r) =
      bread P its (set s x) r := by
  have hb : breadItem P (Item.field (extRead read) get set) s (e ++ r) =
      ⟨none, set s x, r⟩ := by
    rw [breadItem_field, hz, extRead_inverts read z e x h r]
  rw [bread_cons_of_ok P _ _ _ _ (by rw [hb]), hb]

/-- Decoding `n` fresh elements from the concatenated encodings of `xs`. -/
theorem readInto_encoded {α : Type} (read : α → Reader → Out α) (z : α)
    (enc : α → List Byte) (xs : List α) (r : Reader)
    (h : ∀ x ∈ xs, ∀ q, read z (enc x ++ q) = ⟨none, x, q⟩) :
    readInto read (List.replicate xs.length z) ((xs.map enc).flatten ++ r) = ⟨none, xs, r⟩ := by
  induction xs with
  | nil => rfl
  | cons x xs ih =>
    have hx := h x (List.mem_cons_self _ _)
    simp only [List.length_cons, List.replicate_succ, List.map_cons, List.flatten_cons,
      List.append_assoc, readInto, hx, ih (fun y hy => h y (List.mem_cons_of_mem _ hy))]

theorem sinkPort.read_specEncode (P : Proto) (p : sinkPort) (hp : p.Valid) (r : Reader) :
    sinkPort.read P sinkPort.zero (sinkPort.specEncode P p ++ r) = ⟨none, p, r⟩ := by
  unfold sinkPort.read sinkPort.ReadFrom sinkPort.specEncode
  simp only [List.append_assoc]
  rw [bread_str_put P _ _ _ _ _ _ hp.name, bread_str_put P _ _ _ _ _ _ hp.description,
    bread_u32_put P _ _ _ _ _ _ hp.pririty, bread_u32_put P _ _ _ _ _ _ hp.available]
  rfl

/-- The header stage on the reference encoding of `v`: every header field of `v`
is stored, `portCount` is the number of ports, and the reader is left at the
first port. -/
theorem Sink.readHeader_specEncode (P : Proto) (E : Enc P) (v : Sink P) (hv : v.Valid)
    (hE : E.InvertsOn v) (tail : Reader) :
    Sink.readHeader P (Sink.zero P)
        (putUint P.uint32Tag 4 v.Index ++ (putString P.stringTag v.Name ++
        (putString P.stringTag v.Description ++ (E.sampleSpec v.SampleSpec ++
        (E.channelMap v.ChannelMap ++ (putUint P.uint32Tag 4 v.ModuleIndex ++
        (E.cvolume v.Cvolume ++ (E.bool v.Muted ::
        (putUint P.uint32Tag 4 v.MonitorSourceIndex ++
        (putString P.stringTag v.MonitorSourceName ++ (putUint P.usecTag 8 v.Latency ++
        (putString P.stringTag v.Driver ++ (putUint P.uint32Tag 4 v.Flags ++
        (E.propList v.PropList ++ (putUint P.usecTag 8 v.RequestedLatency ++
        (putUint P.volumeTag 4 v.BaseVolume ++ (putUint P.uint32Tag 4 v.SinkState ++
        (putUint P.uint32Tag 4 v.NVolumeSteps ++ (putUint P.uint32Tag 4 v.CardIndex ++
        (putUint P.uint32Tag 4 v.Ports.length ++ tail)))))))))))))))))))) =
      ⟨none, ({ v with Ports := [], ActivePortName := [], Formats := [] }, v.Ports.length),
        tail⟩ := by
  unfold Sink.readHeader Sink.headerItems
  rw [bread_u32_put P _ _ _ _ _ _ hv.index,
    bread_str_put P _ _ _ _ _ _ hv.name,
    bread_str_put P _ _ _ _ _ _ hv.description,
    bread_field_put P _ _ _ _ _ _ _ _ _ hE.sampleSpec rfl,
    bread_field_put P _ _ _ _ _ _ _ _ _ hE.channelMap rfl,
    bread_u32_put P _ _ _ _ _ _ hv.moduleIndex,
    bread_field_put P _ _ _ _ _ _ _ _ _ hE.cvolume rfl,
    bread_bool_put P _ _ _ _ _ _ hE.bool,
    bread_u32_put P _ _ _ _ _ _ hv.monitorSourceIndex,
    bread_str_put P _ _ _ _ _ _ hv.monitorSourceName,
    bread_u64_put P _ _ _ _ _ _ hv.latency,
    bread_str_put P _ _ _ _ _ _ hv.driver,
    bread_u32_put P _ _ _ _ _ _ hv.flags,
    bread_field_put P _ _ _ _ _ _ _ _ _ hE.propList rfl,
    bread_u64_put P _ _ _ _ _ _ hv.requestedLatency,
    bread_u32_put P _ _ _ _ _ _ hv.baseVolume,
    bread_u32_put P _ _ _ _ _ _ hv.sinkState,
    bread_u32_put P _ _ _ _ _ _ hv.nVolumeSteps,
    bread_u32_put P _ _ _ _ _ _ hv.cardIndex,
    bread_u32_put P _ _ _ _ _ _ hv.portCount]
  rfl

/-- The reference encoding, with its appends nested to the right. -/
theorem Sink.specEncode_append (P : Proto) (E : Enc P) (v : Sink P) (rest : Reader) :
    Sink.specEncode P E v ++ rest =
        putUint P.uint32Tag 4 v.Index ++ (putString P.stringTag v.Name ++
        (putString P.stringTag v.Description ++ (E.sampleSpec v.SampleSpec ++
        (E.channelMap v.ChannelMap ++ (putUint P.uint32Tag 4 v.ModuleIndex ++
        (E.cvolume v.Cvolume ++ (E.bool v.Muted ::
        (putUint P.uint32Tag 4 v.MonitorSourceIndex ++
        (putString P.stringTag v.MonitorSourceName ++ (putUint P.usecTag 8 v.Latency ++
        (putString P.stringTag v.Driver ++ (putUint P.uint32Tag 4 v.Flags ++
        (E.propList v.PropList ++ (putUint P.usecTag 8 v.RequestedLatency ++
        (putUint P.volumeTag 4 v.BaseVolume ++ (putUint P.uint32Tag 4 v.SinkState ++
        (putUint P.uint32Tag 4 v.NVolumeSteps ++ (putUint P.uint32Tag 4 v.CardIndex ++
        (putUint P.uint32Tag 4 v.Ports.length ++
        ((v.Ports.map (sinkPort.specEncode P)).flatten ++
        ((if v.Ports.length = 0 then [P.stringNullTag]
            else putString P.stringTag v.ActivePortName) ++
        (putUint P.uint8Tag 1 v.Formats.length ++
        ((v.Formats.map E.formatInfo).flatten ++ rest))))))))))))))))))))))) := by
  simp only [Sink.specEncode, List.append_assoc, List.singleton_append, List.cons_append,
    List.nil_append]

/-- The stages consume what the reference encoder wrote: on a zero `Sink` and the
reference encoding of a valid `v` followed by `rest`, they give count 0 and no
error, yield `v`, and leave `rest`. -/
theorem Sink.stagesRun_specEncode_aux (P : Proto) (E : Enc P) (v : Sink P) (hv : v.Valid)
    (hE : E.InvertsOn v) (rest : Reader) :
    Sink.stagesRun P (Sink.zero P) (Sink.specEncode P E v ++ rest) = (0, ⟨none, v, rest⟩) := by
  rw [Sink.specEncode_append]
  have h1 := Sink.readHeader_specEncode P E v hv hE
    ((v.Ports.map (sinkPort.specEncode P)).flatten ++
      ((if v.Ports.length = 0 then [P.stringNullTag]
          else putString P.stringTag v.ActivePortName) ++
      (putUint P.uint8Tag 1 v.Formats.length ++
      ((v.Formats.map E.formatInfo).flatten ++ rest))))
  have h2 : ∀ (s : Sink P) (q : Reader),
      Sink.loopPorts P s v.Ports.length ((v.Ports.map (sinkPort.specEncode P)).flatten ++ q) =
        ⟨none, { s with Ports := v.Ports }, q⟩ := by
    intro s q
    rw [Sink.loopPorts_eq P s _ hv.portCount,
      readInto_encoded (sinkPort.read P) sinkPort.zero (sinkPort.specEncode P) v.Ports q
        (fun p hp q => sinkPort.read_specEncode P p (hv.ports p hp) q)]
  have h3 : ∀ (s : Sink P) (q : Reader), s.ActivePortName = [] →
      Sink.readActivePort P s v.Ports.length
        ((if v.Ports.length = 0 then [P.stringNullTag]
          else putString P.stringTag v.ActivePortName) ++ q) =
        ⟨none, { s with ActivePortName := v.ActivePortName }, q⟩ := by
    intro s q hs
    unfold Sink.readActivePort
    by_cases h0 : v.Ports.length = 0
    · have hnil : v.Ports = [] := List.length_eq_zero.mp h0
      rw [if_pos h0, if_pos h0, List.singleton_append, bread_tag_cons, bread_nil,
        hv.noPorts hnil, ← hs]
    · rw [if_neg h0, if_neg h0, bread_str_put P _ _ _ _ _ _ hv.activePortName, bread_nil]
  have h4 : ∀ (s : Sink P) (q : Reader),
      Sink.readFormatCount P s (putUint P.uint8Tag 1 v.Formats.length ++ q) =
        ⟨none, (s, v.Formats.length), q⟩ := by
    intro s q
    unfold Sink.readFormatCount
    rw [bread_u8_put P _ _ _ _ _ _ hv.formatCount, bread_nil]
  have h5 : ∀ (s : Sink P) (q : Reader),
      Sink.readFormats P s v.Formats.length ((v.Formats.map E.formatInfo).flatten ++ q) =
        ⟨none, { s with Formats := v.Formats }, q⟩ := by
    intro s q
    rw [Sink.readFormats_eq P s _ hv.formatCount,
      readInto_encoded (extRead P.readFormatInfo) P.zeroFormatInfo E.formatInfo v.Formats q
        (fun f hf q => extRead_inverts _ _ _ _ (hE.formats f hf) q)]
  unfold Sink.stagesRun
  simp only [h1, h2]
  rw [h3 _ _ rfl]
  simp only [h4, h5]

/-- Decoding consumes what the reference encoder wrote, and the call returns: the
stream holds a record for each port the count declares. -/
theorem Sink.ReadFrom_specEncode_aux (P : Proto) (E : Enc P) (v : Sink P) (hv : v.Valid)
    (hE : E.InvertsOn v) (rest : Reader) :
    Sink.ReadFrom P (Sink.zero P) (Sink.specEncode P E v ++ rest) =
      some (0, ⟨none, v, rest⟩) := by
  have h := Sink.stagesRun_specEncode_aux P E v hv hE rest
  rw [Sink.ReadFrom_of_stagesRun_ok P _ _ (by rw [h]), h]

/-! ## The sample records -/

theorem sampleSink_valid : sampleSink.Valid := by
  constructor <;> first | decide | (intro p hp; cases hp)

theorem samplePortSink_valid : samplePortSink.Valid := by
  constructor <;> first
    | decide
    | (intro p hp
       simp only [samplePortSink, List.mem_cons, List.mem_nil_iff, or_false] at hp
       rcases hp with rfl | rfl <;> constructor <;> decide)

theorem sampleEnc_invertsOn_sampleSink : sampleEnc.InvertsOn sampleSink := by
  constructor
  · rfl
  · exact fun _ => rfl
  · exact fun _ => rfl
  · exact fun _ => rfl
  · exact fun _ => rfl
  · intro f hf
    simp only [sampleSink, List.mem_cons, List.mem_nil_iff, or_false] at hf
    subst hf
    exact fun _ => rfl

theorem sampleEnc_invertsOn_samplePortSink : sampleEnc.InvertsOn samplePortSink := by
  constructor
  · rfl
  · exact fun _ => rfl
  · exact fun _ => rfl
  · exact fun _ => rfl
  · exact fun _ => rfl
  · intro f hf
    cases hf

theorem sampleSinkBytes_eq : sampleSinkBytes = Sink.specEncode Proto.sample sampleEnc sampleSink := by
  decide

theorem samplePortSinkBytes_eq :
    samplePortSinkBytes = Sink.specEncode Proto.sample sampleEnc samplePortSink := by
  decide

theorem sampleSink_encodes : Sink.Encodes Proto.sample sampleSinkBytes sampleSink := by
  intro rest
  rw [sampleSinkBytes_eq,
    Sink.ReadFrom_specEncode_aux _ _ _ sampleSink_valid sampleEnc_invertsOn_sampleSink]
  rfl

theorem samplePortSink_encodes :
    Sink.Encodes Proto.sample samplePortSinkBytes samplePortSink := by
  intro rest
  rw [samplePortSinkBytes_eq,
    Sink.ReadFrom_specEncode_aux _ _ _ samplePortSink_valid sampleEnc_invertsOn_samplePortSink]
  rfl

/-! ## Claims on the reference encoder and the loops -/

/-- C6: sink decoding consumes precisely the bytes the encoding produced.  For a
`Sink` value `v` whose strings hold no zero byte, whose integers, port count
and format count fit their types and whose `ActivePortName` is empty when it
has no ports, and for encoders of the nested records that the decode routines
of the package invert on the parts of `v`: `Sink.ReadFrom` on a zero `Sink` over
the reference encoding of `v` followed by `rest` returns, with count 0 and no
error, yields `v` and leaves exactly `rest` unread. -/
theorem Sink.ReadFrom_specEncode (P : Proto) (E : Enc P) (v : Sink P) (rest : List Byte)
    (hv : v.Valid) (hE : E.InvertsOn v) :
    Sink.ReadFrom P (Sink.zero P) (Sink.specEncode P E v ++ rest) =
      some (0, ⟨none, v, rest⟩) := by
  have h := Sink.stagesRun_specEncode_aux P E v hv hE rest
  rw [Sink.ReadFrom_of_stagesRun_ok P _ _ (by rw [h]), h]

/-- C6 on the sample sink with two ports, followed by three more bytes. -/
theorem Sink.ReadFrom_specEncode_witness :
    Sink.ReadFrom Proto.sample (Sink.zero Proto.sample)
      (Sink.specEncode Proto.sample sampleEnc samplePortSink ++ [1, 2, 3]) =
      some (0, ⟨none, samplePortSink, [1, 2, 3]⟩) :=
  Sink.ReadFrom_specEncode Proto.sample sampleEnc samplePortSink [1, 2, 3]
    samplePortSink_valid sampleEnc_invertsOn_samplePortSink

/-- C4 on the buffer holding the two sample records one after the other. -/
theorem Client.Sinks_concat_witness :
    Client.Sinks Proto.sample (.ok (([(sampleSinkBytes, sampleSink),
        (samplePortSinkBytes, samplePortSink)].map Prod.fst).flatten)) =
        some ([(sampleSinkBytes, sampleSink),
          (samplePortSinkBytes, samplePortSink)].map Prod.snd, none) ∧
      (Client.Sinks Proto.sample (.ok (([(sampleSinkBytes, sampleSink),
        (samplePortSinkBytes, samplePortSink)].map Prod.fst).flatten))).map
          (fun x => x.1.length) = some 2 :=
  Client.Sinks_concat Proto.sample
    [(sampleSinkBytes, sampleSink), (samplePortSinkBytes, samplePortSink)]
    (by
      intro p hp
      simp only [List.mem_cons, List.mem_nil_iff, or_false] at hp
      rcases hp with rfl | rfl
      · exact sampleSink_encodes
      · exact samplePortSink_encodes)

theorem Client.sinksLoop_err_nil (P : Proto) (fuel : Nat) (sinks : List (Sink P)) (b : Reader)
    (l : List (Sink P)) (e : Err) (h : Client.sinksLoop P fuel sinks b = some (l, some e)) :
    l = [] := by
  induction fuel generalizing sinks b with
  | zero => cases h
  | succ fuel ih =>
    by_cases hb : b = []
    · subst hb
      simp [Client.sinksLoop] at h
    · cases hd : breadInto (Sink.ReadFrom P) (Sink.zero P) b with
      | none =>
        rw [Client.sinksLoop_step_none P fuel sinks b hb hd] at h
        cases h
      | some o =>
        cases he : o.err with
        | some e2 =>
          rw [Client.sinksLoop_step_err P fuel sinks b hb o e2 hd he] at h
          cases h
          rfl
        | none =>
          have hd1 : breadInto (Sink.ReadFrom P) (Sink.zero P) b =
              some ⟨none, o.val, o.rest⟩ := by
            rw [hd, Out.ext_of_err o none he]
          rw [Client.sinksLoop_step_ok P fuel sinks b hb _ _ hd1] at h
          exact ih _ _ h

/-- The loop of `Client.Sinks` on valid encodings followed by a non-empty `tail`:
what it gives is decided by the decode of the record at the start of `tail`. -/
theorem Client.Sinks_tail (P : Proto) (recs : List (List Byte × Sink P)) (tail : Reader)
    (h : ∀ p ∈ recs, Sink.Encodes P p.1 p.2) :
    ∃ k, Client.Sinks P (.ok ((recs.map Prod.fst).flatten ++ tail)) =
      Client.sinksLoop P (k + 1) (recs.map Prod.snd) tail := by
  have hlen := Client.flatten_length_ge P recs h
  obtain ⟨k, hk⟩ : ∃ k, ((recs.map Prod.fst).flatten ++ tail).length + 1 =
      (k + 1) + recs.length :=
    ⟨((recs.map Prod.fst).flatten ++ tail).length - recs.length, by
      rw [List.length_append]; omega⟩
  refine ⟨k, ?_⟩
  simp only [Client.Sinks]
  rw [hk, Client.sinksLoop_concat P recs h (k + 1) [] tail, List.nil_append]

/-- C10: when the response buffer holds valid `Sink` encodings followed by bytes
on which decoding the next record returns the error `e`, `Sinks` returns the
error `e` and the nil list, not the records decoded before; and whenever
`Sinks` returns an error, the list it returns is nil.  A decode that does not
return, because the process ends inside the `make` of line 58, is not a
returned error: then `Sinks` does not return either, as on the sample record
followed by a record that declares `2 ^ 32 - 1` ports and ends there. -/
theorem Client.Sinks_error (P : Proto) (recs : List (List Byte × Sink P)) (tail : Reader)
    (e : Err) (n : Int) (o : Out (Sink P)) (h : ∀ p ∈ recs, Sink.Encodes P p.1 p.2)
    (ht : tail ≠ []) (hrun : Sink.ReadFrom P (Sink.zero P) tail = some (n, o))
    (he : o.err = some e) :
    Client.Sinks P (.ok ((recs.map Prod.fst).flatten ++ tail)) = some ([], some e) ∧
    (∀ resp l e1, Client.Sinks P resp = some (l, some e1) → l = []) ∧
    (∀ (recs1 : List (List Byte × Sink P)) (tail1 : Reader),
      (∀ p ∈ recs1, Sink.Encodes P p.1 p.2) → tail1 ≠ [] →
      Sink.ReadFrom P (Sink.zero P) tail1 = none →
      Client.Sinks P (.ok ((recs1.map Prod.fst).flatten ++ tail1)) = none) ∧
    Sink.ReadFrom Proto.sample (Sink.zero Proto.sample) sampleHugeCountBytes = none ∧
    Client.Sinks Proto.sample (.ok (sampleSinkBytes ++ sampleHugeCountBytes)) = none := by
  refine ⟨?_, ?_, ?_, by rfl, by rfl⟩
  · obtain ⟨k, hk⟩ := Client.Sinks_tail P recs tail h
    rw [hk, Client.sinksLoop_step_err P k _ tail ht o e
      ((breadInto_eq_some _ _ _ _).mpr ⟨n, hrun⟩) he]
  · intro resp l e1 h1
    cases resp with
    | error e2 =>
      cases h1
      rfl
    | ok b => exact Client.sinksLoop_err_nil P _ _ _ l e1 h1
  · intro recs1 tail1 h1 ht1 hnone
    obtain ⟨k, hk⟩ := Client.Sinks_tail P recs1 tail1 h1
    rw [hk, Client.sinksLoop_step_none P k _ tail1 ht1
      ((breadInto_eq_none _ _ _).mpr hnone)]

/-- C10 on one complete sample record followed by a record cut off inside its
name, with no terminating zero byte: decoding the second record returns
`Truncated`, and so does `Sinks`, with the nil list. -/
theorem Client.Sinks_error_witness :
    Sink.ReadFrom Proto.sample (Sink.zero Proto.sample) [76, 0, 0, 0, 1, 116, 97] =
        some (0, ⟨some Err.Truncated, { Sink.zero Proto.sample with Index := 1 }, []⟩) ∧
    Client.Sinks Proto.sample (.ok (([(sampleSinkBytes, sampleSink)].map Prod.fst).flatten ++
        [76, 0, 0, 0, 1, 116, 97])) = some ([], some Err.Truncated) :=
  ⟨by rfl,
    (Client.Sinks_error Proto.sample [(sampleSinkBytes, sampleSink)] [76, 0, 0, 0, 1, 116, 97]
      Err.Truncated 0 ⟨some Err.Truncated, { Sink.zero Proto.sample with Index := 1 }, []⟩
      (by
        intro p hp
        simp only [List.mem_cons, List.mem_nil_iff, or_false] at hp
        subst hp
        exact sampleSink_encodes)
      (by decide) (by rfl) rfl).1⟩

/-! ## `SinkInput.ReadFrom` -/

/-- Once the header and the format count are read, `SinkInput.ReadFrom` reports no
error, whatever the decode of the trailing property list returns. -/
theorem SinkInput.ReadFrom_ok_of_count (P : Proto) (s : SinkInput P) (r : Reader)
    (h1 : (SinkInput.readHeader P s r).err = none)
    (h2 : (SinkInput.readFormatCount P (SinkInput.readHeader P s r).rest).err = none) :
    (SinkInput.ReadFrom P s r).2.err = none := by
  unfold SinkInput.ReadFrom
  simp only [h1, h2]

/-- C9: the stream `sampleInputBytes ++ [80, 116, 107]` holds a complete
`SinkInput` header, the format-info tag, the uint8 tag and the count, and then
a property list cut off inside its first key.  Decoding that property list
fails with `Truncated`, and `SinkInput.ReadFrom` returns no error. -/
theorem SinkInput.ReadFrom_drops_error :
    (SinkInput.readHeader Proto.sample (SinkInput.zero Proto.sample)
      (sampleInputBytes ++ [80, 116, 107])).err = none ∧
    (SinkInput.readFormatCount Proto.sample (SinkInput.readHeader Proto.sample
      (SinkInput.zero Proto.sample) (sampleInputBytes ++ [80, 116, 107])).rest).rest
        = [80, 116, 107] ∧
    (SinkInput.readFormatProps Proto.sample [80, 116, 107]).err = some Err.Truncated ∧
    (SinkInput.ReadFrom Proto.sample (SinkInput.zero Proto.sample)
      (sampleInputBytes ++ [80, 116, 107])).2.err = none := by
  decide

/-! ## `Sink.ReadFrom` as the run of its decode steps -/

theorem readUint_lift {S T : Type} (w : Nat) (get : T → S) (put : T → S → T)
    (hpg : ∀ t, put t (get t) = t) (set : S → Nat → S) (t : T) (r : Reader) :
    readUint w (fun t v => put t (set (get t) v)) t r =
      ⟨(readUint w set (get t) r).err, put t (readUint w set (get t) r).val,
        (readUint w set (get t) r).rest⟩ := by
  unfold readUint
  split
  · simp only [hpg]
  · rfl

theorem breadItem_lift {S T : Type} (P : Proto) (get : T → S) (put : T → S → T)
    (hpg : ∀ t, put t (get t) = t) (it : Item S) (t : T) (r : Reader) :
    breadItem P (Item.lift get put it) t r =
      ⟨(breadItem P it (get t) r).err, put t (breadItem P it (get t) r).val,
        (breadItem P it (get t) r).rest⟩ := by
  cases it with
  | tag b =>
    cases r with
    | nil => simp only [Item.lift, breadItem, hpg]
    | cons c r1 =>
      simp only [Item.lift, breadItem]
      split <;> simp only [hpg]
  | u8 set => exact readUint_lift 1 get put hpg set t r
  | u32 set => exact readUint_lift 4 get put hpg set t r
  | u64 set => exact readUint_lift 8 get put hpg set t r
  | str set =>
    simp only [Item.lift, breadItem]
    split <;> simp only [hpg]
  | bool set =>
    cases r with
    | nil => simp only [Item.lift, breadItem, hpg]
    | cons c r1 =>
      simp only [Item.lift, breadItem]
      split <;> simp only [hpg]
  | sub read => rfl

/-- A `bread` call on lifted arguments is the call on the part, written back. -/
theorem bread_lift {S T : Type} (P : Proto) (get : T → S) (put : T → S → T)
    (hgp : ∀ t x, get (put t x) = x) (hpp : ∀ t x y, put (put t x) y = put t y)
    (hpg : ∀ t, put t (get t) = t) (items : List (Item S)) (t : T) (r : Reader) :
    bread P (items.map (Item.lift get put)) t r =
      ⟨(bread P items (get t) r).err, put t (bread P items (get t) r).val,
        (bread P items (get t) r).rest⟩ := by
  induction items generalizing t r with
  | nil => simp only [List.map_nil, bread, hpg]
  | cons it its ih =>
    have hl := breadItem_lift P get put hpg it t r
    cases he : (breadItem P it (get t) r).err with
    | some e =>
      have he1 : (breadItem P (Item.lift get put it) t r).err = some e := by rw [hl]; exact he
      rw [List.map_cons, bread_cons_of_err P _ _ t r e he1,
        bread_cons_of_err P it its (get t) r e he, hl]
    | none =>
      have he1 : (breadItem P (Item.lift get put it) t r).err = none := by rw [hl]; exact he
      rw [List.map_cons, bread_cons_of_ok P _ _ t r he1,
        bread_cons_of_ok P it its (get t) r he, ih, hl]
      simp only [hgp, hpp]

/-- The steps `&xs[i]`, ..., `&xs[i + m - 1]` in a row decode the elements of `xs`
from position `i` on, in order. -/
theorem bread_elemItems {α : Type} (P : Proto) (read : α → Reader → Out α) (zero : α)
    (m i : Nat) (xs : List α) (r : Reader) (h : xs.length = i + m) :
    bread P ((List.range' i m).map (elemItem read zero)) xs r =
      ⟨(readInto read (xs.drop i) r).err, xs.take i ++ (readInto read (xs.drop i) r).val,
        (readInto read (xs.drop i) r).rest⟩ := by
  induction m generalizing i xs r with
  | zero =>
    have hd : xs.drop i = [] := List.drop_eq_nil_of_le (by omega)
    have ht : xs.take i = xs := List.take_of_length_le (by omega)
    simp only [List.range', List.map_nil, bread, hd, readInto, ht, List.append_nil]
  | succ m ih =>
    have hix : i < xs.length := by omega
    have hd : xs.drop i = xs[i] :: xs.drop (i + 1) := List.drop_eq_getElem_cons hix
    have hg : xs.getD i zero = xs[i] := by
      rw [List.getD_eq_getElem?_getD, List.getElem?_eq_getElem hix]
      rfl
    have hb : breadItem P (elemItem read zero i) xs r =
        ⟨(read xs[i] r).err, xs.set i (read xs[i] r).val, (read xs[i] r).rest⟩ := by
      rw [elemItem, breadItem_field, hg]
    rw [List.range', List.map_cons, hd]
    simp only [readInto]
    cases he : (read xs[i] r).err with
    | some e =>
      rw [bread_cons_of_err P _ _ xs r e (by rw [hb]; exact he), hb, he]
      simp only []
      rw [List.set_eq_take_append_cons_drop, if_pos hix]
    | none =>
      rw [bread_cons_of_ok P _ _ xs r (by rw [hb]; exact he), hb]
      simp only []
      rw [ih (i + 1) _ _ (by rw [List.length_set]; omega)]
      have h1 : (xs.set i (read xs[i] r).val).drop (i + 1) = xs.drop (i + 1) :=
        List.drop_set_of_lt _ _ (by omega)
      have h3 : (xs.set i (read xs[i] r).val).take i = xs.take i := by
        rw [List.set_take, List.set_eq_of_length_le (by simp)]
      have h2 : (xs.set i (read xs[i] r).val).take (i + 1) =
          xs.take i ++ [(read xs[i] r).val] := by
        rw [List.take_succ, h3]
        simp [hix]
      rw [h1, h2]
      simp

theorem bread_range_elemItems {α : Type} (P : Proto) (read : α → Reader → Out α) (zero : α)
    (n : Nat) (r : Reader) :
    bread P ((List.range n).map (elemItem read zero)) (List.replicate n zero) r =
      readInto read (List.replicate n zero) r := by
  rw [List.range_eq_range', bread_elemItems P read zero n 0 _ r (by simp)]
  simp

theorem Sink.readActivePort_eq_bread (P : Proto) (s : Sink P) (n : Nat) (r : Reader) :
    Sink.readActivePort P s n r = bread P (Sink.activePortItems P n) s r := by
  unfold Sink.readActivePort Sink.activePortItems
  split <;> rfl

theorem Sink.steps_header (P : Proto) (s : Sink P) (k : Nat) (r : Reader) :
    bread P ((Sink.headerItems P).map (Sink.onHeader P)) (s, 0, k) r =
      ⟨(Sink.readHeader P s r).err,
        ((Sink.readHeader P s r).val.1, (Sink.readHeader P s r).val.2, k),
        (Sink.readHeader P s r).rest⟩ :=
  bread_lift P (fun t : Sink.Run P => (t.1, t.2.1)) (fun t x => (x.1, x.2, t.2.2))
    (fun _ _ => rfl) (fun _ _ _ => rfl) (fun _ => rfl) (Sink.headerItems P) (s, 0, k) r

/-- The port steps, run on the slice that line 58 returned, are the port loop. -/
theorem Sink.steps_ports (P : Proto) (s : Sink P) (n k : Nat) (hn : n < 2 ^ 32) (r : Reader) :
    bread P ((List.range n).map (fun i =>
        Sink.onPorts P (elemItem (sinkPort.read P) sinkPort.zero i)))
        ({ s with Ports := List.replicate n sinkPort.zero }, n, k) r =
      ⟨(Sink.loopPorts P s n r).err, ((Sink.loopPorts P s n r).val, n, k),
        (Sink.loopPorts P s n r).rest⟩ := by
  have hmap : (List.range n).map (fun i =>
        Sink.onPorts P (elemItem (sinkPort.read P) sinkPort.zero i)) =
      ((List.range n).map (elemItem (sinkPort.read P) sinkPort.zero)).map (Sink.onPorts P) := by
    rw [List.map_map]
    rfl
  rw [hmap]
  have hl := bread_lift P (fun t : Sink.Run P => t.1.Ports)
    (fun t xs => ({ t.1 with Ports := xs }, t.2))
    (fun _ _ => rfl) (fun _ _ _ => rfl) (fun _ => rfl)
    ((List.range n).map (elemItem (sinkPort.read P) sinkPort.zero))
    ({ s with Ports := List.replicate n sinkPort.zero }, n, k) r
  simp only [] at hl
  rw [bread_range_elemItems] at hl
  rw [Sink.loopPorts_eq P s n hn r]
  exact hl

theorem Sink.steps_activePort (P : Proto) (s : Sink P) (n k : Nat) (r : Reader) :
    bread P ((Sink.activePortItems P n).map (Sink.onSink P)) (s, n, k) r =
      ⟨(Sink.readActivePort P s n r).err, ((Sink.readActivePort P s n r).val, n, k),
        (Sink.readActivePort P s n r).rest⟩ := by
  rw [Sink.readActivePort_eq_bread]
  exact bread_lift P (fun t : Sink.Run P => t.1) (fun t x => (x, t.2))
    (fun _ _ => rfl) (fun _ _ _ => rfl) (fun _ => rfl) (Sink.activePortItems P n) (s, n, k) r

theorem Sink.steps_formatCount (P : Proto) (s : Sink P) (n : Nat) (r : Reader) :
    bread P ([Item.tag P.uint8Tag, Item.u8 (fun (st : Sink P × Nat) v => (st.1, v))].map
        (Sink.onFormatCount P)) (s, n, 0) r =
      ⟨(Sink.readFormatCount P s r).err,
        ((Sink.readFormatCount P s r).val.1, n, (Sink.readFormatCount P s r).val.2),
        (Sink.readFormatCount P s r).rest⟩ :=
  bread_lift P (fun t : Sink.Run P => (t.1, t.2.2)) (fun t x => (x.1, t.2.1, x.2))
    (fun _ _ => rfl) (fun _ _ _ => rfl) (fun _ => rfl)
    [Item.tag P.uint8Tag, Item.u8 (fun (st : Sink P × Nat) v => (st.1, v))] (s, n, 0) r

/-- The format steps, run on the slice that line 83 returned, are the format loop. -/
theorem Sink.steps_formats (P : Proto) (s : Sink P) (n m : Nat) (hm : m < 2 ^ 8)
    (r : Reader) :
    bread P ((List.range m).map (fun i =>
        Sink.onFormats P (elemItem (extRead P.readFormatInfo) P.zeroFormatInfo i)))
        ({ s with Formats := List.replicate m P.zeroFormatInfo }, n, m) r =
      ⟨(Sink.readFormats P s m r).err, ((Sink.readFormats P s m r).val, n, m),
        (Sink.readFormats P s m r).rest⟩ := by
  have hmap : (List.range m).map (fun i =>
        Sink.onFormats P (elemItem (extRead P.readFormatInfo) P.zeroFormatInfo i)) =
      ((List.range m).map (elemItem (extRead P.readFormatInfo) P.zeroFormatInfo)).map
        (Sink.onFormats P) := by
    rw [List.map_map]
    rfl
  rw [hmap]
  have hl := bread_lift P (fun t : Sink.Run P => t.1.Formats)
    (fun t xs => ({ t.1 with Formats := xs }, t.2))
    (fun _ _ => rfl) (fun _ _ _ => rfl) (fun _ => rfl)
    ((List.range m).map (elemItem (extRead P.readFormatInfo) P.zeroFormatInfo))
    ({ s with Formats := List.replicate m P.zeroFormatInfo }, n, m) r
  simp only [] at hl
  rw [bread_range_elemItems] at hl
  rw [Sink.readFormats_eq P s m hm r]
  exact hl

theorem Sink.stagesRun_of_header_err (P : Proto) (s : Sink P) (r : Reader) (e : Err)
    (hh : (Sink.readHeader P s r).err = some e) :
    (Sink.stagesRun P s r).2 =
      ⟨some e, (Sink.readHeader P s r).val.1, (Sink.readHeader P s r).rest⟩ := by
  unfold Sink.stagesRun
  simp only [hh]

theorem Sink.stagesRun_of_ports_err (P : Proto) (s : Sink P) (r : Reader) (e : Err)
    (hh : (Sink.readHeader P s r).err = none) (hp : (Sink.stagePorts P s r).err = some e) :
    (Sink.stagesRun P s r).2 = Sink.stagePorts P s r := by
  unfold Sink.stagePorts at hp ⊢
  unfold Sink.stagesRun
  simp only [hh, hp]
  exact Out.ext_of_err _ _ hp

theorem Sink.stagesRun_of_activePort_err (P : Proto) (s : Sink P) (r : Reader) (e : Err)
    (hh : (Sink.readHeader P s r).err = none) (hp : (Sink.stagePorts P s r).err = none)
    (ha : (Sink.stageActivePort P s r).err = some e) :
    (Sink.stagesRun P s r).2 = Sink.stageActivePort P s r := by
  unfold Sink.stageActivePort at ha ⊢
  unfold Sink.stagePorts at hp ha ⊢
  unfold Sink.stagesRun
  simp only [hh, hp, ha]
  exact Out.ext_of_err _ _ ha

theorem Sink.stagesRun_of_formatCount_err (P : Proto) (s : Sink P) (r : Reader) (e : Err)
    (hh : (Sink.readHeader P s r).err = none) (hp : (Sink.stagePorts P s r).err = none)
    (ha : (Sink.stageActivePort P s r).err = none)
    (hc : (Sink.stageFormatCount P s r).err = some e) :
    (Sink.stagesRun P s r).2 =
      ⟨some e, (Sink.stageFormatCount P s r).val.1, (Sink.stageFormatCount P s r).rest⟩ := by
  unfold Sink.stageFormatCount at hc ⊢
  unfold Sink.stageActivePort at ha hc ⊢
  unfold Sink.stagePorts at hp ha hc ⊢
  unfold Sink.stagesRun
  simp only [hh, hp, ha, hc]

theorem Sink.stagesRun_of_formatCount_ok (P : Proto) (s : Sink P) (r : Reader)
    (hh : (Sink.readHeader P s r).err = none) (hp : (Sink.stagePorts P s r).err = none)
    (ha : (Sink.stageActivePort P s r).err = none)
    (hc : (Sink.stageFormatCount P s r).err = none) :
    (Sink.stagesRun P s r).2 = Sink.stageFormats P s r := by
  unfold Sink.stageFormats
  unfold Sink.stageFormatCount at hc ⊢
  unfold Sink.stageActivePort at ha hc ⊢
  unfold Sink.stagePorts at hp ha hc ⊢
  unfold Sink.stagesRun
  simp only [hh, hp, ha, hc]
  split
  · rename_i e he
    exact Out.ext_of_err _ _ he
  · rename_i he
    exact Out.ext_of_err _ _ he

/-! ### Runs of steps -/

theorem runSteps_cons_none {T : Type} (P : Proto) (st : Step T) (sts : List (Step T)) (t : T)
    (r : Reader) (h : Step.run P st t r = none) : runSteps P (st :: sts) t r = none := by
  simp only [runSteps, h]

theorem runSteps_cons_err {T : Type} (P : Proto) (st : Step T) (sts : List (Step T)) (t : T)
    (r : Reader) (o : Out T) (e : Err) (h : Step.run P st t r = some o) (he : o.err = some e) :
    runSteps P (st :: sts) t r = some o := by
  simp only [runSteps, h, he]
  exact congrArg some (Out.ext_of_err o (some e) he)

theorem runSteps_cons_ok {T : Type} (P : Proto) (st : Step T) (sts : List (Step T)) (t : T)
    (r : Reader) (o : Out T) (h : Step.run P st t r = some o) (he : o.err = none) :
    runSteps P (st :: sts) t r = runSteps P sts o.val o.rest := by
  simp only [runSteps, h, he]

/-- A run of decode steps is the `bread` call on their arguments. -/
theorem runSteps_decode {T : Type} (P : Proto) (items : List (Item T)) (t : T) (r : Reader) :
    runSteps P (items.map Step.decode) t r = some (bread P items t r) := by
  induction items generalizing t r with
  | nil => rfl
  | cons it its ih =>
    have hrun : Step.run P (Step.decode it) t r = some (breadItem P it t r) := rfl
    cases he : (breadItem P it t r).err with
    | some e =>
      rw [List.map_cons, runSteps_cons_err P _ _ t r _ e hrun he,
        bread_cons_of_err P it its t r e he]
    | none =>
      rw [List.map_cons, runSteps_cons_ok P _ _ t r _ hrun he, ih,
        bread_cons_of_ok P it its t r he]

theorem runSteps_append_of_none {T : Type} (P : Proto) (xs ys : List (Step T)) (t : T)
    (r : Reader) (h : runSteps P xs t r = none) : runSteps P (xs ++ ys) t r = none := by
  induction xs generalizing t r with
  | nil => cases h
  | cons st sts ih =>
    cases hs : Step.run P st t r with
    | none => exact runSteps_cons_none P st _ t r hs
    | some o =>
      cases he : o.err with
      | some e =>
        rw [runSteps_cons_err P st sts t r o e hs he] at h
        cases h
      | none =>
        rw [runSteps_cons_ok P st sts t r o hs he] at h
        rw [List.cons_append, runSteps_cons_ok P st _ t r o hs he]
        exact ih _ _ h

theorem runSteps_append_of_err {T : Type} (P : Proto) (xs ys : List (Step T)) (t : T)
    (r : Reader) (o : Out T) (e : Err) (h : runSteps P xs t r = some o) (he : o.err = some e) :
    runSteps P (xs ++ ys) t r = some o := by
  induction xs generalizing t r with
  | nil =>
    cases h
    cases he
  | cons st sts ih =>
    cases hs : Step.run P st t r with
    | none =>
      rw [runSteps_cons_none P st sts t r hs] at h
      cases h
    | some o1 =>
      cases he1 : o1.err with
      | some e1 =>
        rw [runSteps_cons_err P st sts t r o1 e1 hs he1] at h
        rw [List.cons_append, runSteps_cons_err P st _ t r o1 e1 hs he1]
        exact h
      | none =>
        rw [runSteps_cons_ok P st sts t r o1 hs he1] at h
        rw [List.cons_append, runSteps_cons_ok P st _ t r o1 hs he1]
        exact ih _ _ h

theorem runSteps_append_of_ok {T : Type} (P : Proto) (xs ys : List (Step T)) (t : T)
    (r : Reader) (o : Out T) (h : runSteps P xs t r = some o) (he : o.err = none) :
    runSteps P (xs ++ ys) t r = runSteps P ys o.val o.rest := by
  induction xs generalizing t r with
  | nil =>
    cases h
    rfl
  | cons st sts ih =>
    cases hs : Step.run P st t r with
    | none =>
      rw [runSteps_cons_none P st sts t r hs] at h
      cases h
    | some o1 =>
      cases he1 : o1.err with
      | some e1 =>
        rw [runSteps_cons_err P st sts t r o1 e1 hs he1] at h
        cases h
        rw [he1] at he
        cases he
      | none =>
        rw [runSteps_cons_ok P st sts t r o1 hs he1] at h
        rw [List.cons_append, runSteps_cons_ok P st _ t r o1 hs he1]
        exact ih _ _ h

/-- A run that stops with an error has a first failing step: the steps before it
succeeded and the run gives what that step left. -/
theorem runSteps_err_split {T : Type} (P : Proto) (steps : List (Step T)) (t : T) (r : Reader)
    (o : Out T) (e : Err) (h : runSteps P steps t r = some o) (he : o.err = some e) :
    ∃ pre st post o1, steps = pre ++ st :: post ∧ runSteps P pre t r = some o1 ∧
      o1.err = none ∧ Step.run P st o1.val o1.rest = some o := by
  induction steps generalizing t r with
  | nil =>
    cases h
    cases he
  | cons st sts ih =>
    cases hs : Step.run P st t r with
    | none =>
      rw [runSteps_cons_none P st sts t r hs] at h
      cases h
    | some o1 =>
      cases he1 : o1.err with
      | some e1 =>
        rw [runSteps_cons_err P st sts t r o1 e1 hs he1] at h
        cases h
        exact ⟨[], st, sts, ⟨none, t, r⟩, rfl, rfl, rfl, hs⟩
      | none =>
        rw [runSteps_cons_ok P st sts t r o1 hs he1] at h
        obtain ⟨pre, st2, post, o2, hsplit, hpre, hok, hfail⟩ := ih _ _ h
        refine ⟨st :: pre, st2, post, o2, by rw [hsplit]; rfl, ?_, hok, hfail⟩
        rw [runSteps_cons_ok P st pre t r o1 hs he1]
        exact hpre

/-- A run that stops without an outcome has a step inside which the process ends,
reached after the steps before it succeeded. -/
theorem runSteps_none_split {T : Type} (P : Proto) (steps : List (Step T)) (t : T)
    (r : Reader) (h : runSteps P steps t r = none) :
    ∃ pre st post o1, steps = pre ++ st :: post ∧ runSteps P pre t r = some o1 ∧
      o1.err = none ∧ Step.run P st o1.val o1.rest = none := by
  induction steps generalizing t r with
  | nil => cases h
  | cons st sts ih =>
    cases hs : Step.run P st t r with
    | none => exact ⟨[], st, sts, ⟨none, t, r⟩, rfl, rfl, rfl, hs⟩
    | some o1 =>
      cases he1 : o1.err with
      | some e1 =>
        rw [runSteps_cons_err P st sts t r o1 e1 hs he1] at h
        cases h
      | none =>
        rw [runSteps_cons_ok P st sts t r o1 hs he1] at h
        obtain ⟨pre, st2, post, o2, hsplit, hpre, hok, hfail⟩ := ih _ _ h
        refine ⟨st :: pre, st2, post, o2, by rw [hsplit]; rfl, ?_, hok, hfail⟩
        rw [runSteps_cons_ok P st pre t r o1 hs he1]
        exact hpre

theorem runSteps_of_split_fail {T : Type} (P : Proto) (steps pre : List (Step T))
    (st : Step T) (post : List (Step T)) (t : T) (r : Reader) (o1 o2 : Out T) (e : Err)
    (hsplit : steps = pre ++ st :: post) (hpre : runSteps P pre t r = some o1)
    (hok : o1.err = none) (hfail : Step.run P st o1.val o1.rest = some o2)
    (he : o2.err = some e) : runSteps P steps t r = some o2 := by
  rw [hsplit, runSteps_append_of_ok P pre _ t r o1 hpre hok]
  exact runSteps_cons_err P st post _ _ o2 e hfail he

theorem runSteps_of_split_none {T : Type} (P : Proto) (steps pre : List (Step T))
    (st : Step T) (post : List (Step T)) (t : T) (r : Reader) (o1 : Out T)
    (hsplit : steps = pre ++ st :: post) (hpre : runSteps P pre t r = some o1)
    (hok : o1.err = none) (hfail : Step.run P st o1.val o1.rest = none) :
    runSteps P steps t r = none := by
  rw [hsplit, runSteps_append_of_ok P pre _ t r o1 hpre hok]
  exact runSteps_cons_none P st post _ _ hfail

theorem runSteps_ok_split {T : Type} (P : Proto) (steps : List (Step T)) (t : T) (r : Reader) :
    (∃ o, runSteps P steps t r = some o ∧ o.err = none) ↔
      ∀ pre post, steps = pre ++ post → ∃ o1, runSteps P pre t r = some o1 ∧ o1.err = none := by
  constructor
  · rintro ⟨o, h, he⟩ pre post hsplit
    cases hp : runSteps P pre t r with
    | none =>
      rw [hsplit, runSteps_append_of_none P pre post t r hp] at h
      cases h
    | some o1 =>
      cases he1 : o1.err with
      | none => exact ⟨o1, rfl, he1⟩
      | some e =>
        rw [hsplit, runSteps_append_of_err P pre post t r o1 e hp he1] at h
        cases h
        rw [he1] at he
        cases he
  · intro h
    exact h steps [] (List.append_nil _).symm

/-! ### The run of `Sink.ReadFrom` -/

theorem Sink.stagesRun_fst (P : Proto) (s : Sink P) (r : Reader) :
    (Sink.stagesRun P s r).1 = 0 := by
  unfold Sink.stagesRun
  simp only []
  repeat' split
  all_goals rfl

theorem Sink.run_makePorts (P : Proto) (s : Sink P) (n k : Nat) (r : Reader) :
    Step.run P (Sink.makePorts P) (s, n, k) r =
      if Sink.makes P n r = true then
        some ⟨none, ({ s with Ports := List.replicate n sinkPort.zero }, n, k), r⟩
      else none := by
  unfold Sink.makePorts
  by_cases hm : Sink.makes P n r = true
  · simp only [Step.run, hm, if_true]
  · simp only [Step.run, hm, Bool.false_eq_true, if_false]

theorem Sink.run_makeFormats (P : Proto) (s : Sink P) (n m : Nat) (r : Reader) :
    Step.run P (Sink.makeFormats P) (s, n, m) r =
      some ⟨none, ({ s with Formats := List.replicate m P.zeroFormatInfo }, n, m), r⟩ := rfl

/-- The run of the steps of `Sink.ReadFrom`, seen on the sink: it ends without an
outcome when the header stage succeeds and the allocation of line 58 does not
return, and gives what the stages give otherwise. -/
theorem Sink.runSteps_stepsOf (P : Proto) (s : Sink P) (r : Reader) :
    (runSteps P (Sink.stepsOf P s r) (s, 0, 0) r).map
        (fun o => (⟨o.err, o.val.1, o.rest⟩ : Out (Sink P))) =
      if (Sink.readHeader P s r).err = none ∧
          Sink.makes P (Sink.readHeader P s r).val.2 (Sink.readHeader P s r).rest = false
      then none else some (Sink.stagesRun P s r).2 := by
  unfold Sink.stepsOf Sink.steps
  have hA : runSteps P (((Sink.headerItems P).map (Sink.onHeader P)).map Step.decode)
      (s, 0, 0) r = some ⟨(Sink.readHeader P s r).err,
        ((Sink.readHeader P s r).val.1, (Sink.readHeader P s r).val.2, 0),
        (Sink.readHeader P s r).rest⟩ := by
    rw [runSteps_decode, Sink.steps_header]
  cases hh : (Sink.readHeader P s r).err with
  | some e =>
    rw [runSteps_append_of_err P _ _ _ _ _ e hA hh, if_neg (fun h => by cases h.1),
      Sink.stagesRun_of_header_err P s r e hh, hh]
    rfl
  | none =>
    rw [runSteps_append_of_ok P _ _ _ _ _ hA hh, List.cons_append]
    simp only []
    have hmk := Sink.run_makePorts P (Sink.readHeader P s r).val.1 (Sink.readHeader P s r).val.2 0
      (Sink.readHeader P s r).rest
    cases hm : Sink.makes P (Sink.readHeader P s r).val.2 (Sink.readHeader P s r).rest with
    | false =>
      rw [hm, if_neg (by decide)] at hmk
      rw [runSteps_cons_none P _ _ _ _ hmk, if_pos ⟨trivial, rfl⟩]
      rfl
    | true =>
      rw [hm, if_pos rfl] at hmk
      rw [runSteps_cons_ok P _ _ _ _ _ hmk rfl, if_neg (fun h => by cases h.2)]
      simp only []
      have hB : runSteps P (((List.range (Sink.readHeader P s r).val.2).map (fun i =>
            Sink.onPorts P (elemItem (sinkPort.read P) sinkPort.zero i))).map Step.decode)
          ({ (Sink.readHeader P s r).val.1 with
              Ports := List.replicate (Sink.readHeader P s r).val.2 sinkPort.zero },
            (Sink.readHeader P s r).val.2, 0) (Sink.readHeader P s r).rest =
          some ⟨(Sink.stagePorts P s r).err,
            ((Sink.stagePorts P s r).val, (Sink.readHeader P s r).val.2, 0),
            (Sink.stagePorts P s r).rest⟩ := by
        rw [runSteps_decode, Sink.steps_ports P _ _ _ (Sink.portCount_lt P s r hh)]
        rfl
      cases hp : (Sink.stagePorts P s r).err with
      | some e =>
        rw [runSteps_append_of_err P _ _ _ _ _ e hB hp,
          Sink.stagesRun_of_ports_err P s r e hh hp]
        rfl
      | none =>
        rw [runSteps_append_of_ok P _ _ _ _ _ hB hp]
        simp only []
        have hC : runSteps P (((Sink.activePortItems P (Sink.readHeader P s r).val.2).map
              (Sink.onSink P)).map Step.decode)
            ((Sink.stagePorts P s r).val, (Sink.readHeader P s r).val.2, 0)
            (Sink.stagePorts P s r).rest =
            some ⟨(Sink.stageActivePort P s r).err,
              ((Sink.stageActivePort P s r).val, (Sink.readHeader P s r).val.2, 0),
              (Sink.stageActivePort P s r).rest⟩ := by
          rw [runSteps_decode, Sink.steps_activePort]
          rfl
        cases ha : (Sink.stageActivePort P s r).err with
        | some e =>
          rw [runSteps_append_of_err P _ _ _ _ _ e hC ha,
            Sink.stagesRun_of_activePort_err P s r e hh hp ha]
          rfl
        | none =>
          rw [runSteps_append_of_ok P _ _ _ _ _ hC ha]
          simp only []
          have hD : runSteps P (([Item.tag P.uint8Tag,
                Item.u8 (fun (st : Sink P × Nat) v => (st.1, v))].map
                (Sink.onFormatCount P)).map Step.decode)
              ((Sink.stageActivePort P s r).val, (Sink.readHeader P s r).val.2, 0)
              (Sink.stageActivePort P s r).rest =
              some ⟨(Sink.stageFormatCount P s r).err,
                ((Sink.stageFormatCount P s r).val.1, (Sink.readHeader P s r).val.2,
                  (Sink.stageFormatCount P s r).val.2),
                (Sink.stageFormatCount P s r).rest⟩ := by
            rw [runSteps_decode, Sink.steps_formatCount]
            rfl
          cases hc : (Sink.stageFormatCount P s r).err with
          | some e =>
            rw [runSteps_append_of_err P _ _ _ _ _ e hD hc,
              Sink.stagesRun_of_formatCount_err P s r e hh hp ha hc, hc]
            rfl
          | none =>
            rw [runSteps_append_of_ok P _ _ _ _ _ hD hc]
            simp only []
            rw [runSteps_cons_ok P _ _ _ _ _ (Sink.run_makeFormats P _ _ _ _) rfl]
            simp only []
            obtain ⟨b, _, hcv⟩ := Sink.readFormatCount_ok P _ _ hc
            have hm8 : (Sink.stageFormatCount P s r).val.2 < 2 ^ 8 := by
              have : (Sink.stageFormatCount P s r).val.2 = b.val := congrArg Prod.snd hcv
              rw [this]
              exact b.isLt
            rw [runSteps_decode, Sink.steps_formats P _ _ _ hm8,
              Sink.stagesRun_of_formatCount_ok P s r hh hp ha hc]
            rfl

/-- `Sink.ReadFrom` is the run of its steps: the same error, the same sink and the
same reader when the run stops at a step that reports an error or after the
last step, and no return when the run ends inside an allocation. -/
theorem Sink.ReadFrom_eq_steps (P : Proto) (s : Sink P) (r : Reader) :
    Sink.ReadFrom P s r =
      (runSteps P (Sink.stepsOf P s r) (s, 0, 0) r).map
        (fun o => ((0 : Int), (⟨o.err, o.val.1, o.rest⟩ : Out (Sink P)))) := by
  have h1 := Sink.ReadFrom_eq P s r
  have h2 := Sink.runSteps_stepsOf P s r
  have h3 : (runSteps P (Sink.stepsOf P s r) (s, 0, 0) r).map
        (fun o => ((0 : Int), (⟨o.err, o.val.1, o.rest⟩ : Out (Sink P)))) =
      ((runSteps P (Sink.stepsOf P s r) (s, 0, 0) r).map
        (fun o => (⟨o.err, o.val.1, o.rest⟩ : Out (Sink P)))).map (fun x => ((0 : Int), x)) := by
    rw [Option.map_map]
    rfl
  rw [h3, h2, h1]
  split
  · rfl
  · exact congrArg some (Prod.ext (Sink.stagesRun_fst P s r) rfl)

/-- C8: `Sink.ReadFrom` runs its steps (each header tag or field, the allocation
of `Ports`, each port record, the null-string tag or the active port name, the
format count, the allocation of `Formats`, each format record) in order.  It
returns the error `e` exactly when some step fails with `e` after all steps
before it succeeded; it then returns precisely what that first failing step
left (its error, the sink and the reader as they were when it failed), so no
later step has run; and it returns no error exactly when every step in turn
succeeds.  The one other way a run stops is inside the allocation of line 58,
when the header stage has succeeded and `make` does not return for the declared
port count: then no error is returned, no step has failed and no later step
runs, as on the sample record that declares `2 ^ 32 - 1` ports and ends
there. -/
theorem Sink.ReadFrom_first_error (P : Proto) (s : Sink P) (r : Reader) :
    (∀ e, (∃ n o, Sink.ReadFrom P s r = some (n, o) ∧ o.err = some e) ↔
      ∃ pre st post o1 o2, Sink.stepsOf P s r = pre ++ st :: post ∧
        runSteps P pre (s, 0, 0) r = some o1 ∧ o1.err = none ∧
        Step.run P st o1.val o1.rest = some o2 ∧ o2.err = some e) ∧
    (∀ pre st post o1 o2 e, Sink.stepsOf P s r = pre ++ st :: post →
      runSteps P pre (s, 0, 0) r = some o1 → o1.err = none →
      Step.run P st o1.val o1.rest = some o2 → o2.err = some e →
      Sink.ReadFrom P s r = some (0, ⟨some e, o2.val.1, o2.rest⟩)) ∧
    ((∃ n o, Sink.ReadFrom P s r = some (n, o) ∧ o.err = none) ↔
      ∀ pre post, Sink.stepsOf P s r = pre ++ post →
        ∃ o1, runSteps P pre (s, 0, 0) r = some o1 ∧ o1.err = none) ∧
    (Sink.ReadFrom P s r = none ↔
      ∃ pre st post o1, Sink.stepsOf P s r = pre ++ st :: post ∧
        runSteps P pre (s, 0, 0) r = some o1 ∧ o1.err = none ∧
        Step.run P st o1.val o1.rest = none) ∧
    (Sink.ReadFrom P s r = none ↔
      (Sink.readHeader P s r).err = none ∧
        Sink.makes P (Sink.readHeader P s r).val.2 (Sink.readHeader P s r).rest = false) ∧
    Sink.ReadFrom Proto.sample (Sink.zero Proto.sample) sampleHugeCountBytes = none := by
  have hs := Sink.ReadFrom_eq_steps P s r
  refine ⟨fun e => ⟨?_, ?_⟩, ?_, ⟨?_, ?_⟩, ⟨?_, ?_⟩, Sink.ReadFrom_eq_none P s r, by rfl⟩
  · rintro ⟨n, o, hrun, he⟩
    rw [hs] at hrun
    obtain ⟨o2, ho2, hf⟩ := Option.map_eq_some'.mp hrun
    have he2 : o2.err = some e := by
      have := congrArg (fun x => x.2.err) hf
      exact this.trans he
    obtain ⟨pre, st, post, o1, hsplit, hpre, hok, hfail⟩ :=
      runSteps_err_split P _ _ _ o2 e ho2 he2
    exact ⟨pre, st, post, o1, o2, hsplit, hpre, hok, hfail, he2⟩
  · rintro ⟨pre, st, post, o1, o2, hsplit, hpre, hok, hfail, he⟩
    rw [hs, runSteps_of_split_fail P _ pre st post _ _ o1 o2 e hsplit hpre hok hfail he]
    exact ⟨0, _, rfl, he⟩
  · intro pre st post o1 o2 e hsplit hpre hok hfail he
    rw [hs, runSteps_of_split_fail P _ pre st post _ _ o1 o2 e hsplit hpre hok hfail he]
    simp only [Option.map_some', he]
  · rintro ⟨n, o, hrun, he⟩
    rw [hs] at hrun
    obtain ⟨o2, ho2, hf⟩ := Option.map_eq_some'.mp hrun
    have he2 : o2.err = none := by
      have := congrArg (fun x => x.2.err) hf
      exact this.trans he
    exact (runSteps_ok_split P _ _ _).mp ⟨o2, ho2, he2⟩
  · intro h
    obtain ⟨o2, ho2, he2⟩ := (runSteps_ok_split P _ _ _).mpr h
    rw [hs, ho2]
    exact ⟨0, _, rfl, he2⟩
  · intro h
    rw [hs] at h
    exact runSteps_none_split P _ _ _ (Option.map_eq_none'.mp h)
  · rintro ⟨pre, st, post, o1, hsplit, hpre, hok, hfail⟩
    rw [hs, runSteps_of_split_none P _ pre st post _ _ o1 hsplit hpre hok hfail]
    rfl

/-! ## The returned byte count -/

/-- C16: the byte count returned by `Sink.ReadFrom`, `sinkPort.ReadFrom` and
`SinkInput.ReadFrom` is 0 for every receiver and every stream, whether the
call fails or succeeds (for `Sink.ReadFrom`: in every call that returns); for
instance the call that succeeds on the 90 bytes of
`sampleSinkBytes` and reads them all, and the call that fails on its first 7
bytes after reading them, both return 0. -/
theorem ReadFrom_count_zero (P : Proto) :
    (∀ (s : Sink P) (r : Reader) (n : Int) (o : Out (Sink P)),
      Sink.ReadFrom P s r = some (n, o) → n = 0) ∧
    (∀ (p : sinkPort) (r : Reader), (sinkPort.ReadFrom P p r).1 = 0) ∧
    (∀ (s : SinkInput P) (r : Reader), (SinkInput.ReadFrom P s r).1 = 0) ∧
    sampleSinkBytes.length = 90 ∧
    Sink.ReadFrom Proto.sample (Sink.zero Proto.sample) sampleSinkBytes =
      some (0, ⟨none, sampleSink, []⟩) ∧
    Sink.ReadFrom Proto.sample (Sink.zero Proto.sample) (sampleSinkBytes.take 7) =
      some (0, ⟨some Err.Truncated, { Sink.zero Proto.sample with Index := 1 }, []⟩) := by
  refine ⟨fun s r n o h => ?_, fun _ _ => rfl, fun s r => ?_, by decide, by rfl, by rfl⟩
  · have hx := congrArg Prod.fst (Sink.ReadFrom_some P s r _ h)
    exact hx.trans (Sink.stagesRun_fst P s r)
  · unfold SinkInput.ReadFrom
    simp only []
    repeat' split
    all_goals rfl

/-! ## Termination of the loop of `Client.Sinks` -/

/-- A successful header stage takes at least the five bytes of the tagged index. -/
theorem Sink.readHeader_index_bytes (P : Proto) (s : Sink P) (r : Reader)
    (h : (Sink.readHeader P s r).err = none) :
    (Sink.readHeader P s r).rest.length + 5 ≤ r.length := by
  unfold Sink.readHeader at h ⊢
  have hsh := Sink.headerItems_shrink P
  unfold Sink.headerItems at h hsh ⊢
  cases ht : (breadItem P (Item.tag P.uint32Tag) (s, 0) r).err with
  | some e =>
    rw [bread_cons_of_err P _ _ _ _ e ht, ht] at h
    cases h
  | none =>
    obtain ⟨r1, hr, h0⟩ := breadItem_tag_ok P P.uint32Tag (s, 0) r ht
    rw [bread_cons_of_ok P _ _ _ _ ht, h0] at h ⊢
    cases hu : (breadItem P (Item.u32 (fun (st : Sink P × Nat) v =>
        ({ st.1 with Index := v }, st.2))) (s, 0) r1).err with
    | some e =>
      rw [bread_cons_of_err P _ _ _ _ e hu, hu] at h
      cases h
    | none =>
      obtain ⟨hl, hv⟩ := readUint_ok 4 _ (s, 0) r1 hu
      have hb : breadItem P (Item.u32 (fun (st : Sink P × Nat) v =>
          ({ st.1 with Index := v }, st.2))) (s, 0) r1 = _ := hv
      rw [bread_cons_of_ok P _ _ _ _ hu, hb, hr, List.length_cons]
      refine Nat.le_trans (Nat.add_le_add_right (bread_shrinks P _
        (fun it hit => hsh it (List.mem_cons_of_mem _ (List.mem_cons_of_mem _ hit))) _ _) 5) ?_
      rw [List.length_drop]
      omega

/-- A successful run of the stages takes at least five bytes from the reader. -/
theorem Sink.stagesRun_index_bytes (P : Proto) (s : Sink P) (r : Reader)
    (hok : (Sink.stagesRun P s r).2.err = none) :
    (Sink.stagesRun P s r).2.rest.length + 5 ≤ r.length := by
  obtain ⟨h1, _, _, _, _, hfin⟩ := Sink.stagesRun_ok P s r hok
  rw [hfin]
  have hh := Sink.readHeader_index_bytes P s r h1
  have hp : (Sink.stagePorts P s r).rest.length ≤ (Sink.readHeader P s r).rest.length :=
    readElems_shrinks P 32 _ _ _ (sinkPort.read_shrinks P) _ _ _ _
  have ha : (Sink.stageActivePort P s r).rest.length ≤ (Sink.stagePorts P s r).rest.length :=
    Sink.readActivePort_shrinks P _ _ _
  have hc : (Sink.stageFormatCount P s r).rest.length ≤
      (Sink.stageActivePort P s r).rest.length := Sink.readFormatCount_shrinks P _ _
  have hf : (Sink.stageFormats P s r).rest.length ≤ (Sink.stageFormatCount P s r).rest.length :=
    readElems_shrinks P 8 _ _ _ (extRead_shrinks _) _ _ _ _
  omega

/-- A `Sink.ReadFrom` that returns no error has taken at least five bytes from the
reader. -/
theorem Sink.ReadFrom_index_bytes (P : Proto) (s : Sink P) (r : Reader) (n : Int)
    (o : Out (Sink P)) (hrun : Sink.ReadFrom P s r = some (n, o)) (hok : o.err = none) :
    o.rest.length + 5 ≤ r.length := by
  have ho : o = (Sink.stagesRun P s r).2 := congrArg Prod.snd (Sink.ReadFrom_some P s r _ hrun)
  subst ho
  exact Sink.stagesRun_index_bytes P s r hok

theorem Client.sinksLoopIters_step_ok (P : Proto) (fuel : Nat) (b : Reader) (hb : b ≠ [])
    (o : Out (Sink P)) (h : breadInto (Sink.ReadFrom P) (Sink.zero P) b = some o)
    (he : o.err = none) :
    Client.sinksLoopIters P (fuel + 1) b = 1 + Client.sinksLoopIters P fuel o.rest := by
  have hl : b.length > 0 := List.length_pos.mpr hb
  simp only [Client.sinksLoopIters, if_pos hl, h, he]

theorem Client.sinksLoopIters_step_err (P : Proto) (fuel : Nat) (b : Reader) (hb : b ≠ [])
    (o : Out (Sink P)) (e : Err) (h : breadInto (Sink.ReadFrom P) (Sink.zero P) b = some o)
    (he : o.err = some e) :
    Client.sinksLoopIters P (fuel + 1) b = 1 := by
  have hl : b.length > 0 := List.length_pos.mpr hb
  simp only [Client.sinksLoopIters, if_pos hl, h, he]

theorem Client.sinksLoopIters_step_none (P : Proto) (fuel : Nat) (b : Reader) (hb : b ≠ [])
    (h : breadInto (Sink.ReadFrom P) (Sink.zero P) b = none) :
    Client.sinksLoopIters P (fuel + 1) b = 1 := by
  have hl : b.length > 0 := List.length_pos.mpr hb
  simp only [Client.sinksLoopIters, if_pos hl, h]

/-- The loop body runs at most once per byte of the buffer. -/
theorem Client.sinksLoopIters_le (P : Proto) (fuel : Nat) (b : Reader) :
    Client.sinksLoopIters P fuel b ≤ b.length := by
  induction fuel generalizing b with
  | zero => exact Nat.zero_le _
  | succ fuel ih =>
    by_cases hb : b = []
    · subst hb
      simp [Client.sinksLoopIters]
    · have hl : 0 < b.length := List.length_pos.mpr hb
      cases hd : breadInto (Sink.ReadFrom P) (Sink.zero P) b with
      | none =>
        rw [Client.sinksLoopIters_step_none P fuel b hb hd]
        exact hl
      | some o =>
        cases he : o.err with
        | some e =>
          rw [Client.sinksLoopIters_step_err P fuel b hb o e hd he]
          exact hl
        | none =>
          rw [Client.sinksLoopIters_step_ok P fuel b hb o hd he]
          obtain ⟨n, hn⟩ := (breadInto_eq_some _ _ _ _).mp hd
          have h5 := Sink.ReadFrom_index_bytes P (Sink.zero P) b n o hn he
          have := ih o.rest
          omega

theorem Client.sinksLoopIters_fuel (P : Proto) (fuel1 fuel2 : Nat) (b : Reader)
    (h1 : b.length < fuel1) (h2 : b.length < fuel2) :
    Client.sinksLoopIters P fuel1 b = Client.sinksLoopIters P fuel2 b := by
  induction fuel1 generalizing fuel2 b with
  | zero => omega
  | succ f1 ih =>
    cases fuel2 with
    | zero => omega
    | succ f2 =>
      by_cases hb : b = []
      · subst hb
        simp [Client.sinksLoopIters]
      · cases hd : breadInto (Sink.ReadFrom P) (Sink.zero P) b with
        | none =>
          rw [Client.sinksLoopIters_step_none P f1 b hb hd,
            Client.sinksLoopIters_step_none P f2 b hb hd]
        | some o =>
          cases he : o.err with
          | some e =>
            rw [Client.sinksLoopIters_step_err P f1 b hb o e hd he,
              Client.sinksLoopIters_step_err P f2 b hb o e hd he]
          | none =>
            have hlt := Sink.ReadFrom_lt P (Sink.zero P) b o hd he
            rw [Client.sinksLoopIters_step_ok P f1 b hb o hd he,
              Client.sinksLoopIters_step_ok P f2 b hb o hd he,
              ih f2 _ (by omega) (by omega)]

/-- C15: the loop of `Client.Sinks` terminates on every response buffer.  A
`Sink.ReadFrom` that returns no error leaves at least five bytes fewer unread
than it found, so each iteration that does not return shortens the buffer; the
loop body is entered at most `len(b)` times; and once more than `len(b)` loop
tests are allowed, neither the result of the loop nor the number of iterations
depends on the allowance, which is what `Client.Sinks` uses. -/
theorem Client.Sinks_terminates (P : Proto) :
    (∀ (s : Sink P) (r : Reader) (n : Int) (o : Out (Sink P)),
      Sink.ReadFrom P s r = some (n, o) → o.err = none → o.rest.length + 5 ≤ r.length) ∧
    (∀ (fuel : Nat) (b : Reader), Client.sinksLoopIters P fuel b ≤ b.length) ∧
    (∀ (fuel : Nat) (b : Reader), b.length < fuel →
      (∀ sinks, Client.sinksLoop P fuel sinks b = Client.sinksLoop P (b.length + 1) sinks b) ∧
      Client.sinksLoopIters P fuel b = Client.sinksLoopIters P (b.length + 1) b) ∧
    (∀ b : Reader, Client.Sinks P (.ok b) = Client.sinksLoop P (b.length + 1) [] b) :=
  ⟨fun s r n o hrun h => Sink.ReadFrom_index_bytes P s r n o hrun h,
    fun fuel b => Client.sinksLoopIters_le P fuel b,
    fun fuel b h => ⟨fun sinks => Client.sinksLoop_fuel P fuel (b.length + 1) sinks b h
        (Nat.lt_succ_self _),
      Client.sinksLoopIters_fuel P fuel (b.length + 1) b h (Nat.lt_succ_self _)⟩,
    fun _ => rfl⟩

/-! ## A wrong tag where the active port name belongs -/

theorem breadItem_tag_mismatch {S : Type} (P : Proto) (t b : Byte) (s : S) (r : Reader)
    (hb : b ≠ t) : breadItem P (Item.tag t) s (b :: r) = ⟨some Err.ProtocolMismatch, s, r⟩ := by
  simp [breadItem, hb]

theorem bread_tag_mismatch {S : Type} (P : Proto) (t b : Byte) (its : List (Item S)) (s : S)
    (r : Reader) (hb : b ≠ t) :
    bread P (Item.tag t :: its) s (b :: r) = ⟨some Err.ProtocolMismatch, s, r⟩ := by
  rw [bread_cons_of_err P _ _ _ _ Err.ProtocolMismatch (by rw [breadItem_tag_mismatch P t b s r hb]),
    breadItem_tag_mismatch P t b s r hb]

/-- Lines 65-75 on a reader that starts with a byte other than the expected tag. -/
theorem Sink.readActivePort_mismatch (P : Proto) (s : Sink P) (n : Nat) (b : Byte) (t : Reader)
    (hb : b ≠ (if n = 0 then P.stringNullTag else P.stringTag)) :
    Sink.readActivePort P s n (b :: t) = ⟨some Err.ProtocolMismatch, s, t⟩ := by
  unfold Sink.readActivePort
  by_cases hn : n = 0
  · rw [if_pos hn] at hb ⊢
    exact bread_tag_mismatch P _ b _ s t hb
  · rw [if_neg hn] at hb ⊢
    exact bread_tag_mismatch P _ b _ s t hb

/-- C11: after a successfully decoded `Sink` header with port count `N`.  If
`N = 0` and the next byte is not the null-string tag, `Sink.ReadFrom` fails with
`ProtocolMismatch` having taken just that byte, whatever follows it.  If
`N > 0`, the `N` port records decode, and the byte after them is not the string
tag, `Sink.ReadFrom` fails with `ProtocolMismatch` in the same way. -/
theorem Sink.ReadFrom_activePort_mismatch (P : Proto) (s : Sink P) (r : Reader)
    (hh : (Sink.readHeader P s r).err = none) :
    ((Sink.readHeader P s r).val.2 = 0 →
      ∀ b t, (Sink.readHeader P s r).rest = b :: t → b ≠ P.stringNullTag →
        ∃ n o, Sink.ReadFrom P s r = some (n, o) ∧
          o.err = some Err.ProtocolMismatch ∧ o.rest = t) ∧
    (0 < (Sink.readHeader P s r).val.2 →
      ∀ ports b t,
        readInto (sinkPort.read P)
            (List.replicate (Sink.readHeader P s r).val.2 sinkPort.zero)
            (Sink.readHeader P s r).rest = ⟨none, ports, b :: t⟩ →
        b ≠ P.stringTag →
        ∃ n o, Sink.ReadFrom P s r = some (n, o) ∧
          o.err = some Err.ProtocolMismatch ∧ o.rest = t) := by
  have hN := Sink.portCount_lt P s r hh
  have hp : Sink.stagePorts P s r = _ := Sink.loopPorts_eq P _ _ hN _
  constructor
  · intro h0 b t hr hb
    rw [h0] at hp
    simp only [List.replicate, readInto] at hp
    have hpe : (Sink.stagePorts P s r).err = none := by rw [hp]
    have ha : Sink.stageActivePort P s r =
        ⟨some Err.ProtocolMismatch, (Sink.stagePorts P s r).val, t⟩ := by
      unfold Sink.stageActivePort
      simp only []
      have hrest : (Sink.stagePorts P s r).rest = b :: t := by rw [hp]; exact hr
      rw [hrest, h0]
      exact Sink.readActivePort_mismatch P _ 0 b t (by simpa using hb)
    have hrun := Sink.ReadFrom_of_makes P s r (Sink.makes_of_ports_ok P s r hh hpe)
    have hval := Sink.stagesRun_of_activePort_err P s r Err.ProtocolMismatch hh hpe
      (by rw [ha])
    refine ⟨(Sink.stagesRun P s r).1, (Sink.stagesRun P s r).2, hrun, ?_, ?_⟩
    · rw [hval, ha]
    · rw [hval, ha]
  · intro hpos ports b t hread hb
    rw [hread] at hp
    have hpe : (Sink.stagePorts P s r).err = none := by rw [hp]
    have ha : Sink.stageActivePort P s r =
        ⟨some Err.ProtocolMismatch, (Sink.stagePorts P s r).val, t⟩ := by
      unfold Sink.stageActivePort
      simp only []
      have hrest : (Sink.stagePorts P s r).rest = b :: t := by rw [hp]
      rw [hrest]
      exact Sink.readActivePort_mismatch P _ _ b t
        (by rw [if_neg (Nat.pos_iff_ne_zero.mp hpos)]; exact hb)
    have hrun := Sink.ReadFrom_of_makes P s r (Sink.makes_of_ports_ok P s r hh hpe)
    have hval := Sink.stagesRun_of_activePort_err P s r Err.ProtocolMismatch hh hpe
      (by rw [ha])
    refine ⟨(Sink.stagesRun P s r).1, (Sink.stagesRun P s r).2, hrun, ?_, ?_⟩
    · rw [hval, ha]
    · rw [hval, ha]

/-- C11 on two records of `Proto.sample`: port count 0 followed by the string tag
and an empty string, and port count 1 with one port followed by the null-string
tag. -/
theorem Sink.ReadFrom_activePort_mismatch_witness :
    (∃ n o, Sink.ReadFrom Proto.sample (Sink.zero Proto.sample) sampleStringTagBytes =
        some (n, o) ∧ o.err = some Err.ProtocolMismatch ∧ o.rest = [0, 66, 0]) ∧
    (∃ n o, Sink.ReadFrom Proto.sample (Sink.zero Proto.sample) sampleNullTagBytes =
        some (n, o) ∧ o.err = some Err.ProtocolMismatch ∧ o.rest = [66, 0]) :=
  ⟨(Sink.ReadFrom_activePort_mismatch Proto.sample (Sink.zero Proto.sample)
      sampleStringTagBytes (by decide)).1 (by decide) 116 [0, 66, 0] (by decide) (by decide),
    (Sink.ReadFrom_activePort_mismatch Proto.sample (Sink.zero Proto.sample)
      sampleNullTagBytes (by decide)).2 (by decide) [⟨[104], [], 5, 1⟩] 78 [66, 0] (by rfl)
      (by decide)⟩

/-! ## Reading back the arguments of `SetSinkPort` -/

theorem Client.SetSinkPort_argBytes_put (P : Proto) (sinkName portName : Str) :
    (Client.SetSinkPort P sinkName portName).argBytes =
      putUint P.uint32Tag 4 0xffffffff ++
        (putString P.stringTag sinkName ++ (putString P.stringTag portName ++ [])) := by
  simp [Client.SetSinkPort, Request.argBytes, bwrite, Arg.encode, putUint, putString]

/-- The tagged-stream decoder on the argument bytes of `SetSinkPort`. -/
theorem Client.bread_SetSinkPort (P : Proto) (sinkName portName : Str)
    (h1 : (0 : Byte) ∉ sinkName) (h2 : (0 : Byte) ∉ portName) (init : Nat × Str × Str) :
    bread P (Client.setSinkPortItems P) init (Client.SetSinkPort P sinkName portName).argBytes =
      ⟨none, (0xffffffff, sinkName, portName), []⟩ := by
  rw [Client.SetSinkPort_argBytes_put]
  unfold Client.setSinkPortItems
  rw [bread_u32_put P _ _ _ _ _ _ (by norm_num), bread_str_put P _ _ _ _ _ _ h1,
    bread_str_put P _ _ _ _ _ _ h2, bread_nil]

/-- C14: for a sink name and a port name without zero byte, the tagged-stream
decoder with the arguments (uint32 tag, uint32), (string tag, string), (string
tag, string) on the argument bytes of `SetSinkPort` succeeds, yields 0xFFFFFFFF,
the sink name and the port name, and leaves no byte unread; and any other pair
of names without zero byte that gives the same bytes is the same pair. -/
theorem Client.SetSinkPort_decodes (P : Proto) (sinkName portName : Str)
    (h1 : (0 : Byte) ∉ sinkName) (h2 : (0 : Byte) ∉ portName) :
    (∀ init, bread P (Client.setSinkPortItems P) init
        (Client.SetSinkPort P sinkName portName).argBytes =
      ⟨none, (0xffffffff, sinkName, portName), []⟩) ∧
    (∀ sinkName2 portName2, (0 : Byte) ∉ sinkName2 → (0 : Byte) ∉ portName2 →
      (Client.SetSinkPort P sinkName2 portName2).argBytes =
        (Client.SetSinkPort P sinkName portName).argBytes →
      sinkName2 = sinkName ∧ portName2 = portName) := by
  refine ⟨fun init => Client.bread_SetSinkPort P sinkName portName h1 h2 init, ?_⟩
  intro sinkName2 portName2 g1 g2 heq
  have e1 := Client.bread_SetSinkPort P sinkName portName h1 h2 (0, [], [])
  have e2 := Client.bread_SetSinkPort P sinkName2 portName2 g1 g2 (0, [], [])
  rw [heq, e1] at e2
  have hv := congrArg Out.val e2
  simp only [Prod.mk.injEq] at hv
  exact ⟨hv.2.1.symm, hv.2.2.symm⟩

/-- C14 on the names "analog-output" and "headphones" in `Proto.sample`. -/
theorem Client.SetSinkPort_decodes_witness :
    (∀ init, bread Proto.sample (Client.setSinkPortItems Proto.sample) init
        (Client.SetSinkPort Proto.sample
          [97, 110, 97, 108, 111, 103, 45, 111, 117, 116, 112, 117, 116]
          [104, 101, 97, 100, 112, 104, 111, 110, 101, 115]).argBytes =
      ⟨none, (0xffffffff, [97, 110, 97, 108, 111, 103, 45, 111, 117, 116, 112, 117, 116],
        [104, 101, 97, 100, 112, 104, 111, 110, 101, 115]), []⟩) ∧
    (∀ sinkName2 portName2, (0 : Byte) ∉ sinkName2 → (0 : Byte) ∉ portName2 →
      (Client.SetSinkPort Proto.sample sinkName2 portName2).argBytes =
        (Client.SetSinkPort Proto.sample
          [97, 110, 97, 108, 111, 103, 45, 111, 117, 116, 112, 117, 116]
          [104, 101, 97, 100, 112, 104, 111, 110, 101, 115]).argBytes →
      sinkName2 = [97, 110, 97, 108, 111, 103, 45, 111, 117, 116, 112, 117, 116] ∧
        portName2 = [104, 101, 97, 100, 112, 104, 111, 110, 101, 115]) :=
  Client.SetSinkPort_decodes Proto.sample
    [97, 110, 97, 108, 111, 103, 45, 111, 117, 116, 112, 117, 116]
    [104, 101, 97, 100, 112, 104, 111, 110, 101, 115] (by decide) (by decide)

/-! ## `SinkInput`: header, reference encoding, samples -/

/-- The header stage of `SinkInput.ReadFrom` does not write `Formats`. -/
theorem SinkInput.header_keeps_formats (P : Proto) (s : SinkInput P) (r : Reader) :
    (SinkInput.readHeader P s r).val.Formats = s.Formats := by
  unfold SinkInput.readHeader
  refine bread_keeps P (fun st : SinkInput P => st.Formats) _ ?_ s r
  simp only [SinkInput.headerItems, List.forall_mem_cons]
  refine ⟨?_, ?_, ?_, ?_, ?_, ?_, ?_, ?_, ?_, ?_, ?_, ?_, ?_, ?_, ?_, ?_, ?_, ?_, ?_, ?_,
    ?_, ?_, ?_, ?_, ?_, ?_, ?_⟩ <;>
  first
    | exact Item.keeps_tag P _ _
    | exact Item.keeps_u32 P _ _ (fun _ _ => rfl)
    | exact Item.keeps_u64 P _ _ (fun _ _ => rfl)
    | exact Item.keeps_str P _ _ (fun _ _ => rfl)
    | exact Item.keeps_bool P _ _ (fun _ _ => rfl)
    | exact Item.keeps_field P _ _ _ _ (fun _ _ => rfl)
    | exact fun _ h => absurd h (List.not_mem_nil _)

/-- `SinkInput.ReadFrom` returns the receiver as the header stage left it. -/
theorem SinkInput.ReadFrom_val (P : Proto) (s : SinkInput P) (r : Reader) :
    (SinkInput.ReadFrom P s r).2.val = (SinkInput.readHeader P s r).val := by
  unfold SinkInput.ReadFrom
  simp only []
  repeat' split
  all_goals rfl

/-- After a header that decodes to `v`, the format-info tag, the uint8 tag and one
more byte, `SinkInput.ReadFrom` succeeds with `v`, whatever that byte is and
whatever follows it. -/
theorem SinkInput.ReadFrom_after_header (P : Proto) (s : SinkInput P) (hdr : List Byte)
    (v : SinkInput P) (hhdr : ∀ t, SinkInput.readHeader P s (hdr ++ t) = ⟨none, v, t⟩)
    (c : Byte) (m : Reader) :
    SinkInput.ReadFrom P s (hdr ++ P.formatInfoTag :: P.uint8Tag :: c :: m) =
      (0, ⟨none, v, (SinkInput.readFormatProps P m).rest⟩) := by
  have hc : SinkInput.readFormatCount P (P.formatInfoTag :: P.uint8Tag :: c :: m) =
      ⟨none, c.val, m⟩ := by
    unfold SinkInput.readFormatCount
    rw [bread_tag_cons, bread_tag_cons, bread_single]
    have := readUint_append 1 (fun (_ : Nat) v => v) 0 [c] m rfl
    simpa [breadItem, beNat] using this
  unfold SinkInput.ReadFrom
  simp only [hhdr, hc]

theorem SinkInput.header_decodes_specEncode (P : Proto) (E : Enc P) (v : SinkInput P)
    (hv : v.Valid) (hE : E.InvertsOnInput v) (tail : Reader) :
    SinkInput.readHeader P (SinkInput.zero P) (SinkInput.specEncodeHeader P E v ++ tail) =
      ⟨none, v, tail⟩ := by
  have hform : SinkInput.specEncodeHeader P E v ++ tail =
      putUint P.uint32Tag 4 v.Index ++ (putString P.stringTag v.Name ++
      (putUint P.uint32Tag 4 v.OwnerModule ++ (putUint P.uint32Tag 4 v.Client ++
      (putUint P.uint32Tag 4 v.Sink ++ (E.sampleSpec v.SampleSpec ++
      (E.channelMap v.ChannelMap ++ (E.cvolume v.Cvolume ++
      (putUint P.usecTag 8 v.BufferUsec ++ (putUint P.usecTag 8 v.SinkUsec ++
      (putString P.stringTag v.ResampleMethod ++ (putString P.stringTag v.Driver ++
      (E.bool v.Mute :: (E.propList v.PropList ++
      (E.bool v.Corked :: E.bool v.HasVolume :: E.bool v.VolumeWritable ::
        tail)))))))))))))) := by
    simp only [SinkInput.specEncodeHeader, List.append_assoc, List.cons_append,
      List.nil_append]
  rw [hform]
  unfold SinkInput.readHeader SinkInput.headerItems
  rw [bread_u32_put P _ _ _ _ _ _ hv.index,
    bread_str_put P _ _ _ _ _ _ hv.name,
    bread_u32_put P _ _ _ _ _ _ hv.ownerModule,
    bread_u32_put P _ _ _ _ _ _ hv.client,
    bread_u32_put P _ _ _ _ _ _ hv.sink,
    bread_field_put P _ _ _ _ _ _ _ _ _ hE.sampleSpec rfl,
    bread_field_put P _ _ _ _ _ _ _ _ _ hE.channelMap rfl,
    bread_field_put P _ _ _ _ _ _ _ _ _ hE.cvolume rfl,
    bread_u64_put P _ _ _ _ _ _ hv.bufferUsec,
    bread_u64_put P _ _ _ _ _ _ hv.sinkUsec,
    bread_str_put P _ _ _ _ _ _ hv.resampleMethod,
    bread_str_put P _ _ _ _ _ _ hv.driver,
    bread_bool_put P _ _ _ _ _ _ hE.mute,
    bread_field_put P _ _ _ _ _ _ _ _ _ hE.propList rfl,
    bread_bool_put P _ _ _ _ _ _ hE.corked,
    bread_bool_put P _ _ _ _ _ _ hE.hasVolume,
    bread_bool_put P _ _ _ _ _ _ hE.volumeWritable,
    bread_nil]
  have hf := hv.formats
  cases v
  simp only [SinkInput.zero] at hf ⊢
  subst hf
  rfl

/-- Decoding what the reference encoder wrote for a sink input: `v` comes back
and the reader is left after the property mapping of the format. -/
theorem SinkInput.record_decodes_specEncode (P : Proto) (E : Enc P) (v : SinkInput P)
    (hv : v.Valid) (hE : E.InvertsOnInput v) (c : Byte) (m m1 : Pulse.PropList)
    (hm : Inverts P.readPropList [] (E.propList m) m1) (rest : Reader) :
    SinkInput.ReadFrom P (SinkInput.zero P) (SinkInput.specEncode P E v c m ++ rest) =
      (0, ⟨none, v, rest⟩) := by
  have hform : SinkInput.specEncode P E v c m ++ rest =
      SinkInput.specEncodeHeader P E v ++
        P.formatInfoTag :: P.uint8Tag :: c :: (E.propList m ++ rest) := by
    simp only [SinkInput.specEncode, List.append_assoc, List.cons_append]
  rw [hform, SinkInput.ReadFrom_after_header P _ _ v
    (fun t => SinkInput.header_decodes_specEncode P E v hv hE t)]
  have hp : SinkInput.readFormatProps P (E.propList m ++ rest) = ⟨none, m1, rest⟩ := by
    unfold SinkInput.readFormatProps
    rw [bread_field_put P _ _ _ _ _ [] _ m1 _ hm rfl, bread_nil]
  rw [hp]

theorem sampleInput_valid : sampleInput.Valid := by
  constructor <;> first | decide | rfl

theorem sampleEnc_invertsOn_sampleInput : sampleEnc.InvertsOnInput sampleInput := by
  constructor
  · rfl
  · rfl
  · rfl
  · rfl
  · exact fun _ => rfl
  · exact fun _ => rfl
  · exact fun _ => rfl
  · exact fun _ => rfl

theorem sampleInputHeaderBytes_eq :
    sampleInputHeaderBytes = SinkInput.specEncodeHeader Proto.sample sampleEnc sampleInput := by
  decide

theorem sampleInputRecordBytes_eq :
    sampleInputRecordBytes = SinkInput.specEncode Proto.sample sampleEnc sampleInput 1 [] := by
  decide

theorem sampleInput_header (t : Reader) :
    SinkInput.readHeader Proto.sample (SinkInput.zero Proto.sample)
      (sampleInputHeaderBytes ++ t) = ⟨none, sampleInput, t⟩ := by
  rw [sampleInputHeaderBytes_eq,
    SinkInput.header_decodes_specEncode _ _ _ sampleInput_valid sampleEnc_invertsOn_sampleInput]

theorem sampleInput_encodes :
    SinkInput.Encodes Proto.sample sampleInputRecordBytes sampleInput := by
  intro rest
  rw [sampleInputRecordBytes_eq,
    SinkInput.record_decodes_specEncode _ _ _ sampleInput_valid sampleEnc_invertsOn_sampleInput 1 [] []
      (fun _ => rfl)]

/-! ## Claims on `SinkInput.ReadFrom` and `Client.SinkInputs` -/

/-- C13: `SinkInput.ReadFrom` discards the format information it reads.  For every
receiver and every stream the `Formats` field after the call is the one before
the call, empty for a zero `SinkInput`.  And when `hdr` is a header that decodes
to `v`, two streams that start with `hdr`, the format-info tag and the uint8
tag and then differ in the next byte and in all that follows it both decode
without error to the same value `v`. -/
theorem SinkInput.ReadFrom_discards_formats (P : Proto) (s : SinkInput P) (hdr : List Byte)
    (v : SinkInput P) (hhdr : ∀ t, SinkInput.readHeader P s (hdr ++ t) = ⟨none, v, t⟩)
    (c1 c2 : Byte) (m1 m2 : Reader) :
    (∀ (s0 : SinkInput P) (r : Reader), (SinkInput.ReadFrom P s0 r).2.val.Formats = s0.Formats) ∧
    (∀ r : Reader, (SinkInput.ReadFrom P (SinkInput.zero P) r).2.val.Formats = []) ∧
    (SinkInput.ReadFrom P s (hdr ++ P.formatInfoTag :: P.uint8Tag :: c1 :: m1)).2.val =
      (SinkInput.ReadFrom P s (hdr ++ P.formatInfoTag :: P.uint8Tag :: c2 :: m2)).2.val ∧
    (SinkInput.ReadFrom P s (hdr ++ P.formatInfoTag :: P.uint8Tag :: c1 :: m1)).2.val = v ∧
    (SinkInput.ReadFrom P s (hdr ++ P.formatInfoTag :: P.uint8Tag :: c1 :: m1)).2.err = none ∧
    (SinkInput.ReadFrom P s (hdr ++ P.formatInfoTag :: P.uint8Tag :: c2 :: m2)).2.err = none := by
  have hkeep : ∀ (s0 : SinkInput P) (r : Reader),
      (SinkInput.ReadFrom P s0 r).2.val.Formats = s0.Formats := by
    intro s0 r
    rw [SinkInput.ReadFrom_val]
    exact SinkInput.header_keeps_formats P s0 r
  refine ⟨hkeep, fun r => hkeep _ r, ?_, ?_, ?_, ?_⟩ <;>
    simp only [SinkInput.ReadFrom_after_header P s hdr v hhdr]

/-- C13 on `Proto.sample`: after the sample header, a format byte 1 with an empty
property list and a format byte 7 with a property list cut off inside a key. -/
theorem SinkInput.ReadFrom_discards_formats_witness :
    (∀ (s0 : SinkInput Proto.sample) (r : Reader),
      (SinkInput.ReadFrom Proto.sample s0 r).2.val.Formats = s0.Formats) ∧
    (∀ r : Reader,
      (SinkInput.ReadFrom Proto.sample (SinkInput.zero Proto.sample) r).2.val.Formats = []) ∧
    (SinkInput.ReadFrom Proto.sample (SinkInput.zero Proto.sample)
        (sampleInputHeaderBytes ++ Proto.sample.formatInfoTag :: Proto.sample.uint8Tag :: 1 ::
          [80, 78])).2.val =
      (SinkInput.ReadFrom Proto.sample (SinkInput.zero Proto.sample)
        (sampleInputHeaderBytes ++ Proto.sample.formatInfoTag :: Proto.sample.uint8Tag :: 7 ::
          [80, 116, 107])).2.val ∧
    (SinkInput.ReadFrom Proto.sample (SinkInput.zero Proto.sample)
        (sampleInputHeaderBytes ++ Proto.sample.formatInfoTag :: Proto.sample.uint8Tag :: 1 ::
          [80, 78])).2.val = sampleInput ∧
    (SinkInput.ReadFrom Proto.sample (SinkInput.zero Proto.sample)
        (sampleInputHeaderBytes ++ Proto.sample.formatInfoTag :: Proto.sample.uint8Tag :: 1 ::
          [80, 78])).2.err = none ∧
    (SinkInput.ReadFrom Proto.sample (SinkInput.zero Proto.sample)
        (sampleInputHeaderBytes ++ Proto.sample.formatInfoTag :: Proto.sample.uint8Tag :: 7 ::
          [80, 116, 107])).2.err = none :=
  SinkInput.ReadFrom_discards_formats Proto.sample (SinkInput.zero Proto.sample)
    sampleInputHeaderBytes sampleInput sampleInput_header 1 7 [80, 78] [80, 116, 107]

theorem SinkInput.ReadFrom_empty (P : Proto) (s : SinkInput P) :
    (SinkInput.ReadFrom P s []).2.err = some Err.Truncated := rfl

theorem SinkInput.Encodes.nonempty {P : Proto} {e : List Byte} {v : SinkInput P}
    (h : SinkInput.Encodes P e v) : e ≠ [] := by
  intro he
  subst he
  have := congrArg Out.err (h [])
  rw [List.append_nil, SinkInput.ReadFrom_empty] at this
  cases this

theorem Client.sinkInputsLoop_step (P : Proto) (fuel : Nat) (sinkInputs : List (SinkInput P))
    (b : Reader) (hb : b ≠ []) (v : SinkInput P) (rest : Reader)
    (h : (SinkInput.ReadFrom P (SinkInput.zero P) b).2 = ⟨none, v, rest⟩) :
    Client.sinkInputsLoop P (fuel + 1) sinkInputs b =
      Client.sinkInputsLoop P fuel (sinkInputs ++ [v]) rest := by
  have hl : b.length > 0 := List.length_pos.mpr hb
  have hs : bread P [Item.sub (fun s r => (SinkInput.ReadFrom P s r).2)] (SinkInput.zero P) b =
      ⟨none, v, rest⟩ := by
    rw [bread_single]
    exact h
  simp only [Client.sinkInputsLoop, if_pos hl, hs]

/-- The loop of `Client.SinkInputs` on valid encodings followed by `tail`: each
iteration takes the bytes of one record, and after as many iterations as there
are records the loop goes on with `tail`. -/
theorem Client.sinkInputsLoop_records (P : Proto) (recs : List (List Byte × SinkInput P))
    (h : ∀ p ∈ recs, SinkInput.Encodes P p.1 p.2) (fuel : Nat)
    (sinkInputs : List (SinkInput P)) (tail : Reader) :
    Client.sinkInputsLoop P (fuel + recs.length) sinkInputs
        ((recs.map Prod.fst).flatten ++ tail) =
      Client.sinkInputsLoop P fuel (sinkInputs ++ recs.map Prod.snd) tail := by
  induction recs generalizing sinkInputs with
  | nil => simp
  | cons p recs ih =>
    have hp := h p (List.mem_cons_self _ _)
    have hne : p.1 ++ ((recs.map Prod.fst).flatten ++ tail) ≠ [] := by
      intro h0
      exact hp.nonempty (List.append_eq_nil.mp h0).1
    rw [List.length_cons, ← Nat.add_assoc, List.map_cons, List.flatten_cons,
      List.append_assoc,
      Client.sinkInputsLoop_step P _ sinkInputs _ hne p.2 _ (hp _),
      ih (fun q hq => h q (List.mem_cons_of_mem _ hq))]
    simp

theorem Client.input_records_length (P : Proto) (recs : List (List Byte × SinkInput P))
    (h : ∀ p ∈ recs, SinkInput.Encodes P p.1 p.2) :
    recs.length ≤ ((recs.map Prod.fst).flatten).length := by
  induction recs with
  | nil => simp
  | cons p recs ih =>
    have hp := (h p (List.mem_cons_self _ _)).nonempty
    have := ih (fun q hq => h q (List.mem_cons_of_mem _ hq))
    have hl : 0 < p.1.length := List.length_pos.mpr hp
    simp only [List.map_cons, List.flatten_cons, List.length_append, List.length_cons]
    omega

/-- C12: on a response buffer that is the concatenation of `n` valid `SinkInput`
encodings with no trailing bytes, `SinkInputs` returns no error and the `n`
decoded values in stream order.  The loop takes the bytes of exactly one record
per iteration: run on the records followed by any `tail`, it stands after `n`
iterations at `tail` with the `n` values appended; and on the empty buffer it
stops with what it has. -/
theorem Client.SinkInputs_concat (P : Proto) (recs : List (List Byte × SinkInput P))
    (h : ∀ p ∈ recs, SinkInput.Encodes P p.1 p.2) :
    Client.SinkInputs P (.ok (recs.map Prod.fst).flatten) = (recs.map Prod.snd, none) ∧
    (Client.SinkInputs P (.ok (recs.map Prod.fst).flatten)).1.length = recs.length ∧
    (∀ (fuel : Nat) (sinkInputs : List (SinkInput P)) (tail : Reader),
      Client.sinkInputsLoop P (fuel + recs.length) sinkInputs
          ((recs.map Prod.fst).flatten ++ tail) =
        Client.sinkInputsLoop P fuel (sinkInputs ++ recs.map Prod.snd) tail) ∧
    (∀ (fuel : Nat) (sinkInputs : List (SinkInput P)),
      Client.sinkInputsLoop P (fuel + 1) sinkInputs [] = (sinkInputs, none)) := by
  have key : Client.SinkInputs P (.ok (recs.map Prod.fst).flatten) =
      (recs.map Prod.snd, none) := by
    have hlen := Client.input_records_length P recs h
    obtain ⟨k, hk⟩ : ∃ k, (recs.map Prod.fst).flatten.length + 1 = (k + 1) + recs.length :=
      ⟨(recs.map Prod.fst).flatten.length - recs.length, by omega⟩
    have := Client.sinkInputsLoop_records P recs h (k + 1) [] []
    rw [List.append_nil] at this
    simp only [Client.SinkInputs]
    rw [hk, this]
    simp [Client.sinkInputsLoop]
  refine ⟨key, by rw [key]; simp, Client.sinkInputsLoop_records P recs h, ?_⟩
  intro fuel sinkInputs
  simp [Client.sinkInputsLoop]

/-- C12 on the buffer holding the sample record twice. -/
theorem Client.SinkInputs_concat_witness :
    Client.SinkInputs Proto.sample (.ok (([(sampleInputRecordBytes, sampleInput),
        (sampleInputRecordBytes, sampleInput)].map Prod.fst).flatten)) =
      ([sampleInput, sampleInput], none) :=
  (Client.SinkInputs_concat Proto.sample
    [(sampleInputRecordBytes, sampleInput), (sampleInputRecordBytes, sampleInput)]
    (by
      intro p hp
      simp only [List.mem_cons, List.mem_nil_iff, or_false, or_self] at hp
      subst hp
      exact sampleInput_encodes)).1

end Pulse
